import Mathlib

/-!
# MyContainer: a container with six traversal orders

A shallow embedding of `src/MyContainer.hpp` / `src/MyContainer.cpp`
(namespace `ariel`), followed by theorems about it.

Conventions of the embedding

* `std::vector<T>` is a `List T`; `std::size_t` is a `Nat` kept below `2^64`
  (`++`/`--` on a `size_t` are taken modulo `2^64`); `int` is an `Int` kept in
  `[-2^31, 2^31)`.
* A member function that mutates the container returns the new container; one
  that may throw returns an `Except Exn _` next to it.
* A result of type `Option _` is `none` when the C++ program has no defined
  result (undefined behaviour) or when the iteration budget given to a loop
  is used up.
* Standard-library algorithms are modelled by what they do on a vector:
  `std::count`, `std::find`, `std::remove`, `vector::erase`, `std::iota` are
  written out; `std::sort` is a parameter constrained by the contract the C++
  standard gives it (`StdSort`). The `std::sort` of GNU libstdc++ is written out
  as well (`libstdcxx.sort`), to show what the code computes on equal elements.
-/

namespace ariel

/-! ## Exceptions and vector primitives -/

/-- The two exception types thrown by the code. -/
inductive Exn where
  | runtime_error (what : String)
  | out_of_range
  deriving DecidableEq

deriving instance DecidableEq for Except

/-- Width of `std::size_t`. -/
def SIZE_MOD : Nat := 2 ^ 64

/-- Bounds-checked access `std::vector::at`. -/
def vectorAt {T : Type} (v : List T) (i : Nat) : Except Exn T :=
  match v[i]? with
  | some x => Except.ok x
  | none => Except.error Exn.out_of_range

/-- Counting loop of `std::count(first, last, value)`. -/
def stdCount {T : Type} [DecidableEq T] (v : List T) (value : T) : Nat :=
  v.foldl (fun n x => if x = value then n + 1 else n) 0

/-- Position returned by `std::find(first, last, value)`: the first index holding
`value`, or `last` (the length) when there is none. -/
def stdFind {T : Type} [DecidableEq T] (value : T) : List T → Nat
  | [] => 0
  | x :: xs => if x = value then 0 else stdFind value xs + 1

/-- The compaction loop of `std::remove`: `i` is the read position, `w` the write
position (`result`), `k` the number of elements still to read (`last - i`).
An element different from `value` is moved to position `w`. Returns the vector
and the final write position. -/
def stdRemoveLoop {T : Type} [DecidableEq T] (value : T) :
    Nat → List T → Nat → Nat → List T × Nat
  | 0, v, _, w => (v, w)
  | k + 1, v, i, w =>
    match v[i]? with
    | none => (v, w)
    | some x =>
      if x = value then stdRemoveLoop value k v (i + 1) w
      else stdRemoveLoop value k (v.set w x) (i + 1) (w + 1)

/-- Algorithm `std::remove(first, last, value)` over the whole vector: find the first
match; if there is one, compact the rest of the range over it. Returns the vector
and the new logical end. -/
def stdRemove {T : Type} [DecidableEq T] (v : List T) (value : T) : List T × Nat :=
  let first := stdFind value v
  if first = v.length then (v, first)
  else stdRemoveLoop value (v.length - (first + 1)) v (first + 1) first

/-- Range erase `v.erase(pos, v.end())`: drops everything from `pos` on. -/
def vectorEraseToEnd {T : Type} (v : List T) (pos : Nat) : List T :=
  v.take pos

/-! ## The container -/

/-- Class `MyContainer<T>`: its only member is `std::vector<T> data`. -/
structure MyContainer (T : Type) where
  data : List T

namespace MyContainer

variable {T : Type}

/-- Default constructor: an empty container. -/
def empty : MyContainer T := ⟨[]⟩

/-- Member `addElement`: `data.push_back(elem)`. -/
def addElement (c : MyContainer T) (elem : T) : MyContainer T :=
  ⟨c.data ++ [elem]⟩

/-- Member `removeElement`: throws `runtime_error` when `std::count` finds nothing, else
erases the tail left by `std::remove`. The second component is the container
after the call. -/
def removeElement [DecidableEq T] (c : MyContainer T) (elem : T) :
    Except Exn Unit × MyContainer T :=
  if stdCount c.data elem = 0 then
    (Except.error (Exn.runtime_error "Element not found"), c)
  else
    let r := stdRemove c.data elem
    (Except.ok (), ⟨vectorEraseToEnd r.1 r.2⟩)

/-- Member `size`: `data.size()`. -/
def size (c : MyContainer T) : Nat := c.data.length

end MyContainer

/-- One call made by a client on a container. -/
inductive Op (T : Type) where
  | add (elem : T)
  | remove (elem : T)

namespace Op

variable {T : Type}

/-- Executes one call; a `removeElement` that throws leaves the container it returns
(the unchanged one). -/
def apply [DecidableEq T] (c : MyContainer T) : Op T → MyContainer T
  | add x => c.addElement x
  | remove x => (c.removeElement x).2

/-- Executes a sequence of calls from left to right. -/
def run [DecidableEq T] (c : MyContainer T) (ops : List (Op T)) : MyContainer T :=
  ops.foldl apply c

/-- Number of `addElement` calls in a sequence. -/
def adds : List (Op T) → Nat
  | [] => 0
  | add _ :: ops => adds ops + 1
  | remove _ :: ops => adds ops

/-- Total number of stored elements equal to the argument at the moment of each
`removeElement` call that did not throw, when the sequence runs from `c`. -/
def deleted [DecidableEq T] (c : MyContainer T) : List (Op T) → Nat
  | [] => 0
  | add x :: ops => deleted (c.addElement x) ops
  | remove x :: ops =>
    match (c.removeElement x).1 with
    | Except.ok _ => (c.data.filter (fun y => y = x)).length + deleted (c.removeElement x).2 ops
    | Except.error _ => deleted (c.removeElement x).2 ops

end Op

/-! ## `std::sort` and the comparators -/

/-- Signature of `std::sort(first, last, comp)` on a `std::vector<std::size_t>`. -/
abbrev SortFn := (Nat → Nat → Bool) → List Nat → List Nat

/-- Requirement of the C++ standard on a comparator: `comp` induces a strict weak ordering
on the values of the range. -/
structure StrictWeakOn (comp : Nat → Nat → Bool) (xs : List Nat) : Prop where
  irrefl : ∀ a ∈ xs, comp a a = false
  transitive : ∀ a ∈ xs, ∀ b ∈ xs, ∀ c ∈ xs,
    comp a b = true → comp b c = true → comp a c = true
  equiv_transitive : ∀ a ∈ xs, ∀ b ∈ xs, ∀ c ∈ xs,
    comp a b = false → comp b a = false → comp b c = false → comp c b = false →
      comp a c = false ∧ comp c a = false

/-- Contract of `std::sort`: for a comparator that is a strict weak ordering on the range,
the result is a rearrangement of the range in which no element compares less than an
earlier one. Nothing is promised about the relative order of equivalent elements. -/
structure StdSort (sort : SortFn) : Prop where
  perm : ∀ comp xs, StrictWeakOn comp xs → (sort comp xs).Perm xs
  sorted : ∀ comp xs, StrictWeakOn comp xs →
    (sort comp xs).Pairwise (fun a b => comp b a = false)

/-- Insertion of one element into a sorted range, after the last element that is not
greater than it. -/
def insertSorted (comp : Nat → Nat → Bool) (a : Nat) : List Nat → List Nat
  | [] => [a]
  | b :: l => if comp a b then a :: b :: l else b :: insertSorted comp a l

/-- A stable insertion sort: one function that meets `StdSort`. -/
def insertionSortBy : SortFn := fun comp xs => xs.foldl (fun acc a => insertSorted comp a acc) []

/-! ### GNU libstdc++ `std::sort`

The implementation of `std::sort` in GNU libstdc++ 12 (`bits/stl_algo.h`, `bits/stl_heap.h`),
the library of `g++`: an introsort (median-of-three quicksort down to ranges of 16 elements,
heap sort below the depth limit) followed by an insertion sort. Iterators are positions in
the vector `v`; a read outside the vector is undefined and gives `none`. Loop budgets are
computed from the length of the vector: every loop of the library moves a position inside
the range at each round. -/

namespace libstdcxx

/-- Enumerator `_S_threshold`: ranges of at most 16 elements are left to the insertion sort. -/
def _S_threshold : Nat := 16

/-- Halving loop that computes `__lg`. -/
def __lg_loop : Nat → Nat → Nat
  | 0, _ => 0
  | fuel + 1, n => if 2 ≤ n then __lg_loop fuel (n / 2) + 1 else 0

/-- Function `std::__lg(n)` for `n > 0`: the position of the highest set bit of `n`. -/
def __lg (n : Nat) : Nat := __lg_loop n n

/-- Call `__comp(a, b)` on two iterators: `comp(*a, *b)`. -/
def iter_comp_iter (comp : Nat → Nat → Bool) (v : List Nat) (a b : Nat) : Option Bool :=
  match v[a]?, v[b]? with
  | some x, some y => some (comp x y)
  | _, _ => none

/-- Function `std::iter_swap(a, b)`. -/
def iter_swap (v : List Nat) (a b : Nat) : Option (List Nat) :=
  match v[a]?, v[b]? with
  | some x, some y => some ((v.set a y).set b x)
  | _, _ => none

/-- Function `__move_median_to_first(result, a, b, c, comp)`: swaps the median of `*a`, `*b`
and `*c` with `*result`. -/
def __move_median_to_first (comp : Nat → Nat → Bool) (v : List Nat) (result a b c : Nat) :
    Option (List Nat) :=
  match iter_comp_iter comp v a b, iter_comp_iter comp v b c, iter_comp_iter comp v a c with
  | some ab, some bc, some ac =>
    if ab then
      if bc then iter_swap v result b
      else if ac then iter_swap v result c
      else iter_swap v result a
    else if ac then iter_swap v result a
    else if bc then iter_swap v result c
    else iter_swap v result b
  | _, _, _ => none

/-- Loop `while (__comp(__first, __pivot)) ++__first;`. -/
def __unguarded_partition_up (comp : Nat → Nat → Bool) (v : List Nat) (pivot : Nat) :
    Nat → Nat → Option Nat
  | 0, _ => none
  | fuel + 1, first =>
    match iter_comp_iter comp v first pivot with
    | none => none
    | some true => __unguarded_partition_up comp v pivot fuel (first + 1)
    | some false => some first

/-- Loop `while (__comp(__pivot, __last)) --__last;`. -/
def __unguarded_partition_down (comp : Nat → Nat → Bool) (v : List Nat) (pivot : Nat) :
    Nat → Option Nat
  | 0 =>
    match iter_comp_iter comp v pivot 0 with
    | some false => some 0
    | _ => none
  | last + 1 =>
    match iter_comp_iter comp v pivot (last + 1) with
    | none => none
    | some true => __unguarded_partition_down comp v pivot last
    | some false => some (last + 1)

/-- Loop `while (true)` of `__unguarded_partition`; it returns the vector and the cut position. -/
def __unguarded_partition_loop (comp : Nat → Nat → Bool) (pivot : Nat) :
    Nat → List Nat → Nat → Nat → Option (List Nat × Nat)
  | 0, _, _, _ => none
  | fuel + 1, v, first, last =>
    match __unguarded_partition_up comp v pivot (v.length + 1) first with
    | none => none
    | some first1 =>
      match last with
      | 0 => none
      | last0 + 1 =>
        match __unguarded_partition_down comp v pivot last0 with
        | none => none
        | some last1 =>
          if ¬ first1 < last1 then some (v, first1)
          else
            match iter_swap v first1 last1 with
            | none => none
            | some v1 => __unguarded_partition_loop comp pivot fuel v1 (first1 + 1) last1

/-- Function `__unguarded_partition(first, last, pivot, comp)`. -/
def __unguarded_partition (comp : Nat → Nat → Bool) (v : List Nat) (first last pivot : Nat) :
    Option (List Nat × Nat) :=
  __unguarded_partition_loop comp pivot (v.length + 1) v first last

/-- Function `__unguarded_partition_pivot(first, last, comp)`: the median of `first + 1`, the
middle and `last - 1` is moved to `first` and the rest of the range partitioned around it. -/
def __unguarded_partition_pivot (comp : Nat → Nat → Bool) (v : List Nat) (first last : Nat) :
    Option (List Nat × Nat) :=
  let mid := first + (last - first) / 2
  match __move_median_to_first comp v first (first + 1) mid (last - 1) with
  | none => none
  | some v1 => __unguarded_partition comp v1 (first + 1) last first

/-- Loop of `__unguarded_linear_insert`; the argument is `__last`, and `__next` is the
position before it. -/
def __unguarded_linear_insert_loop (comp : Nat → Nat → Bool) (val : Nat) :
    List Nat → Nat → Option (List Nat)
  | _, 0 => none
  | v, next + 1 =>
    match v[next]? with
    | none => none
    | some x =>
      if comp val x then __unguarded_linear_insert_loop comp val (v.set (next + 1) x) next
      else some (v.set (next + 1) val)

/-- Function `__unguarded_linear_insert(last, comp)`. -/
def __unguarded_linear_insert (comp : Nat → Nat → Bool) (v : List Nat) (last : Nat) :
    Option (List Nat) :=
  match v[last]? with
  | none => none
  | some val => __unguarded_linear_insert_loop comp val v last

/-- Function `std::move_backward(first, last, result)`:
`while (first != last) *--result = *--last;`. -/
def move_backward (first : Nat) : List Nat → Nat → Nat → Option (List Nat)
  | v, 0, _ => if first = 0 then some v else none
  | v, last + 1, result =>
    if first = last + 1 then some v
    else
      match result, v[last]? with
      | r + 1, some x => move_backward first (v.set r x) last r
      | _, _ => none

/-- Loop `for (i = first + 1; i != last; ++i)` of `__insertion_sort`. -/
def __insertion_sort_loop (comp : Nat → Nat → Bool) (first last : Nat) :
    Nat → List Nat → Nat → Option (List Nat)
  | 0, _, _ => none
  | fuel + 1, v, i =>
    if i = last then some v
    else
      match iter_comp_iter comp v i first with
      | none => none
      | some true =>
        match v[i]? with
        | none => none
        | some val =>
          match move_backward first v i (i + 1) with
          | none => none
          | some v1 => __insertion_sort_loop comp first last fuel (v1.set first val) (i + 1)
      | some false =>
        match __unguarded_linear_insert comp v i with
        | none => none
        | some v1 => __insertion_sort_loop comp first last fuel v1 (i + 1)

/-- Function `__insertion_sort(first, last, comp)`. -/
def __insertion_sort (comp : Nat → Nat → Bool) (v : List Nat) (first last : Nat) :
    Option (List Nat) :=
  if first = last then some v
  else __insertion_sort_loop comp first last (v.length + 1) v (first + 1)

/-- Loop `for (i = first; i != last; ++i)` of `__unguarded_insertion_sort`. -/
def __unguarded_insertion_sort_loop (comp : Nat → Nat → Bool) (last : Nat) :
    Nat → List Nat → Nat → Option (List Nat)
  | 0, _, _ => none
  | fuel + 1, v, i =>
    if i = last then some v
    else
      match __unguarded_linear_insert comp v i with
      | none => none
      | some v1 => __unguarded_insertion_sort_loop comp last fuel v1 (i + 1)

/-- Function `__unguarded_insertion_sort(first, last, comp)`. -/
def __unguarded_insertion_sort (comp : Nat → Nat → Bool) (v : List Nat) (first last : Nat) :
    Option (List Nat) :=
  __unguarded_insertion_sort_loop comp last (v.length + 1) v first

/-- Function `__final_insertion_sort(first, last, comp)`. -/
def __final_insertion_sort (comp : Nat → Nat → Bool) (v : List Nat) (first last : Nat) :
    Option (List Nat) :=
  if last - first > _S_threshold then
    match __insertion_sort comp v first (first + _S_threshold) with
    | none => none
    | some v1 => __unguarded_insertion_sort comp v1 (first + _S_threshold) last
  else __insertion_sort comp v first last

/-- Loop of `__push_heap`. -/
def __push_heap_loop (comp : Nat → Nat → Bool) (first topIndex value : Nat) :
    Nat → List Nat → Nat → Option (List Nat)
  | 0, _, _ => none
  | fuel + 1, v, holeIndex =>
    let parent := (holeIndex - 1) / 2
    if holeIndex > topIndex then
      match v[first + parent]? with
      | none => none
      | some x =>
        if comp x value then
          __push_heap_loop comp first topIndex value fuel (v.set (first + holeIndex) x) parent
        else some (v.set (first + holeIndex) value)
    else some (v.set (first + holeIndex) value)

/-- Function `__push_heap(first, holeIndex, topIndex, value, comp)`. -/
def __push_heap (comp : Nat → Nat → Bool) (v : List Nat) (first holeIndex topIndex value : Nat) :
    Option (List Nat) :=
  __push_heap_loop comp first topIndex value (holeIndex + 1) v holeIndex

/-- First loop of `__adjust_heap`; it returns the vector, `__holeIndex` and
`__secondChild`. -/
def __adjust_heap_loop (comp : Nat → Nat → Bool) (first len : Nat) :
    Nat → List Nat → Nat → Nat → Option (List Nat × Nat × Nat)
  | 0, _, _, _ => none
  | fuel + 1, v, holeIndex, secondChild =>
    if secondChild < (len - 1) / 2 then
      let secondChild1 := 2 * (secondChild + 1)
      match iter_comp_iter comp v (first + secondChild1) (first + (secondChild1 - 1)) with
      | none => none
      | some b =>
        let secondChild2 := if b then secondChild1 - 1 else secondChild1
        match v[first + secondChild2]? with
        | none => none
        | some x =>
          __adjust_heap_loop comp first len fuel (v.set (first + holeIndex) x)
            secondChild2 secondChild2
    else some (v, holeIndex, secondChild)

/-- Function `__adjust_heap(first, holeIndex, len, value, comp)`. The type `_Distance` is signed:
for `len = 0` the value `(len - 2) / 2` is `-1` and equals no index, hence the test `2 ≤ len`. -/
def __adjust_heap (comp : Nat → Nat → Bool) (v : List Nat) (first holeIndex len value : Nat) :
    Option (List Nat) :=
  let topIndex := holeIndex
  match __adjust_heap_loop comp first len (len + 1) v holeIndex holeIndex with
  | none => none
  | some (v1, holeIndex1, secondChild) =>
    if len % 2 = 0 ∧ 2 ≤ len ∧ secondChild = (len - 2) / 2 then
      let secondChild1 := 2 * (secondChild + 1)
      match v1[first + (secondChild1 - 1)]? with
      | none => none
      | some x =>
        __push_heap comp (v1.set (first + holeIndex1) x) first (secondChild1 - 1) topIndex value
    else __push_heap comp v1 first holeIndex1 topIndex value

/-- Function `__pop_heap(first, last, result, comp)`. -/
def __pop_heap (comp : Nat → Nat → Bool) (v : List Nat) (first last result : Nat) :
    Option (List Nat) :=
  match v[result]?, v[first]? with
  | some value, some x => __adjust_heap comp (v.set result x) first 0 (last - first) value
  | _, _ => none

/-- Loop `while (true)` of `__make_heap`, for `parent` counting down to `0`. -/
def __make_heap_loop (comp : Nat → Nat → Bool) (first len : Nat) :
    List Nat → Nat → Option (List Nat)
  | v, 0 =>
    match v[first]? with
    | none => none
    | some value => __adjust_heap comp v first 0 len value
  | v, parent + 1 =>
    match v[first + (parent + 1)]? with
    | none => none
    | some value =>
      match __adjust_heap comp v first (parent + 1) len value with
      | none => none
      | some v1 => __make_heap_loop comp first len v1 parent

/-- Function `__make_heap(first, last, comp)`. -/
def __make_heap (comp : Nat → Nat → Bool) (v : List Nat) (first last : Nat) :
    Option (List Nat) :=
  if last - first < 2 then some v
  else __make_heap_loop comp first (last - first) v ((last - first - 2) / 2)

/-- Loop `while (last - first > 1)` of `__sort_heap`. -/
def __sort_heap_loop (comp : Nat → Nat → Bool) (first : Nat) :
    Nat → List Nat → Nat → Option (List Nat)
  | 0, _, _ => none
  | fuel + 1, v, last =>
    if last - first > 1 then
      match __pop_heap comp v first (last - 1) (last - 1) with
      | none => none
      | some v1 => __sort_heap_loop comp first fuel v1 (last - 1)
    else some v

/-- Function `__sort_heap(first, last, comp)`. -/
def __sort_heap (comp : Nat → Nat → Bool) (v : List Nat) (first last : Nat) :
    Option (List Nat) :=
  __sort_heap_loop comp first (v.length + 1) v last

/-- Loop `for (i = middle; i < last; ++i)` of `__heap_select`. -/
def __heap_select_loop (comp : Nat → Nat → Bool) (first middle last : Nat) :
    Nat → List Nat → Nat → Option (List Nat)
  | 0, _, _ => none
  | fuel + 1, v, i =>
    if i < last then
      match iter_comp_iter comp v i first with
      | none => none
      | some true =>
        match __pop_heap comp v first middle i with
        | none => none
        | some v1 => __heap_select_loop comp first middle last fuel v1 (i + 1)
      | some false => __heap_select_loop comp first middle last fuel v (i + 1)
    else some v

/-- Function `__heap_select(first, middle, last, comp)`. -/
def __heap_select (comp : Nat → Nat → Bool) (v : List Nat) (first middle last : Nat) :
    Option (List Nat) :=
  match __make_heap comp v first middle with
  | none => none
  | some v1 => __heap_select_loop comp first middle last (v.length + 1) v1 middle

/-- Function `__partial_sort(first, middle, last, comp)`: the heap sort. -/
def __partial_sort (comp : Nat → Nat → Bool) (v : List Nat) (first middle last : Nat) :
    Option (List Nat) :=
  match __heap_select comp v first middle last with
  | none => none
  | some v1 => __sort_heap comp v1 first middle

/-- Function `__introsort_loop(first, last, depth_limit, comp)`: the loop
`while (last - first > 16)`, with the recursive call on the upper part `[cut, last)`. -/
def __introsort_loop (comp : Nat → Nat → Bool) (first : Nat) :
    Nat → List Nat → Nat → Nat → Option (List Nat)
  | 0, _, _, _ => none
  | fuel + 1, v, last, depth_limit =>
    if last - first > _S_threshold then
      if depth_limit = 0 then __partial_sort comp v first last last
      else
        match __unguarded_partition_pivot comp v first last with
        | none => none
        | some (v1, cut) =>
          match __introsort_loop comp cut fuel v1 last (depth_limit - 1) with
          | none => none
          | some v2 => __introsort_loop comp first fuel v2 cut (depth_limit - 1)
    else some v

/-- Function `__sort(first, last, comp)`, the body of `std::sort`. -/
def __sort (comp : Nat → Nat → Bool) (v : List Nat) (first last : Nat) : Option (List Nat) :=
  if first ≠ last then
    match __introsort_loop comp first (v.length + 1) v last (__lg (last - first) * 2) with
    | none => none
    | some v1 => __final_insertion_sort comp v1 first last
  else some v

/-- Function `std::sort(first, last, comp)` as GNU libstdc++ runs it on a whole vector.
The result of an undefined run (a comparator that is no strict weak ordering) is left
unspecified; the model returns the range as it was. -/
def sort : SortFn := fun comp xs => (__sort comp xs 0 xs.length).getD xs

end libstdcxx

/-- Filling `std::iota(first, last, 0)` of a vector of size `n`. -/
def stdIota (n : Nat) : List Nat := List.range n

/-- The lambda `[&](auto a, auto b){ return cont->data[a] < cont->data[b]; }`.
`data[a]` outside the vector is undefined in C++; the model answers `false` there. -/
def compLess {T : Type} [LinearOrder T] (data : List T) (a b : Nat) : Bool :=
  match data[a]?, data[b]? with
  | some x, some y => decide (x < y)
  | _, _ => false

/-- The lambda `[&](auto a, auto b){ return cont->data[a] > cont->data[b]; }`. -/
def compGreater {T : Type} [LinearOrder T] (data : List T) (a b : Nat) : Bool :=
  match data[a]?, data[b]? with
  | some x, some y => decide (x > y)
  | _, _ => false

/-! ## Integer conversions used by the middle-out order -/

/-- Conversion `int(x)` of a `std::size_t` (modular). -/
def toInt (x : Nat) : Int := ((x : Int) + 2 ^ 31) % 2 ^ 32 - 2 ^ 31

/-- Conversion `size_t(x)` of an `int` (modular). -/
def toSizeT (x : Int) : Nat := (x % 2 ^ 64).toNat

/-- Result of an `int` operation: signed overflow is undefined. -/
def intArith (x : Int) : Option Int :=
  if -(2 ^ 31) ≤ x ∧ x < 2 ^ 31 then some x else none

/-! ## The test helper `collect` -/

/-- The loop `for (; b != e; ++b) v.push_back(*b);` of the helper `collect` in `test.cpp`,
for an iterator type given by its `!=`, `++` and `*`. The outer `Option` is `none` when
`fuel` iterations were not enough. -/
def collectLoop {I T : Type} (ne : I → I → Bool) (inc : I → I) (deref : I → Except Exn T) :
    Nat → I → I → List T → Option (Except Exn (List T))
  | 0, _, _, _ => none
  | fuel + 1, b, e, v =>
    if ne b e then
      match deref b with
      | Except.error ex => some (Except.error ex)
      | Except.ok x => collectLoop ne inc deref fuel (inc b) e (v ++ [x])
    else some (Except.ok v)

/-- Helper `collect(b, e)`. -/
def collect {I T : Type} (ne : I → I → Bool) (inc : I → I) (deref : I → Except Exn T)
    (fuel : Nat) (b e : I) : Option (Except Exn (List T)) :=
  collectLoop ne inc deref fuel b e []

/-- Common body of `operator*` of the four iterators that own an `order` vector:
`cont->data.at(order.at(index))`. -/
def derefOrder {T : Type} (data : List T) (order : List Nat) (index : Nat) : Except Exn T :=
  match vectorAt order index with
  | Except.error ex => Except.error ex
  | Except.ok j => vectorAt data j

/-- The elements of `data` found at the indices listed in `order` (an index outside the
vector contributes nothing): the values a traversal through `order` is expected to yield. -/
def elementsAt {T : Type} (data : List T) (order : List Nat) : List T :=
  order.filterMap (fun j => data[j]?)

namespace MyContainer

variable {T : Type}

/-! ## OrderIterator -/

/-- Class `OrderIterator`: a pointer to the container (its address) and a position. -/
structure OrderIterator where
  cont : Nat
  index : Nat
  deriving DecidableEq

namespace OrderIterator

/-- Pre-increment `operator++`. -/
def inc (it : OrderIterator) : OrderIterator := { it with index := (it.index + 1) % SIZE_MOD }

/-- Comparison `operator==`. -/
def eq (a o : OrderIterator) : Bool := a.cont == o.cont && a.index == o.index

/-- Comparison `operator!=`. -/
def ne (a o : OrderIterator) : Bool := !(eq a o)

/-- Dereference `operator*`: `cont->data.at(index)`; `c` is the container `cont` points to. -/
def deref (it : OrderIterator) (c : MyContainer T) : Except Exn T := vectorAt c.data it.index

end OrderIterator

/-- Member `begin_order`; `self` is the address of the container. -/
def begin_order (self : Nat) (_c : MyContainer T) : OrderIterator := ⟨self, 0⟩

/-- Member `end_order`. -/
def end_order (self : Nat) (c : MyContainer T) : OrderIterator := ⟨self, c.data.length⟩

/-- Insertion-order traversal `collect(c.begin_order(), c.end_order())`. -/
def collectOrder (fuel self : Nat) (c : MyContainer T) : Option (Except Exn (List T)) :=
  collect OrderIterator.ne OrderIterator.inc (fun it => it.deref c) fuel
    (c.begin_order self) (c.end_order self)

/-! ## ReverseIterator -/

/-- Class `ReverseIterator`. -/
structure ReverseIterator where
  cont : Nat
  index : Nat
  deriving DecidableEq

namespace ReverseIterator

/-- Pre-increment `operator++`. -/
def inc (it : ReverseIterator) : ReverseIterator :=
  { it with index := (it.index + 1) % SIZE_MOD }

/-- Comparison `operator==`. -/
def eq (a o : ReverseIterator) : Bool := a.cont == o.cont && a.index == o.index

/-- Comparison `operator!=`. -/
def ne (a o : ReverseIterator) : Bool := !(eq a o)

/-- Dereference `operator*`: `cont->data.at(cont->data.size()-1-index)`, the subtraction
being done on `std::size_t`. -/
def deref (it : ReverseIterator) (c : MyContainer T) : Except Exn T :=
  vectorAt c.data
    ((c.data.length % SIZE_MOD + SIZE_MOD - 1 + SIZE_MOD - it.index % SIZE_MOD) % SIZE_MOD)

end ReverseIterator

/-- Member `begin_reverse_order`. -/
def begin_reverse_order (self : Nat) (_c : MyContainer T) : ReverseIterator := ⟨self, 0⟩

/-- Member `end_reverse_order`. -/
def end_reverse_order (self : Nat) (c : MyContainer T) : ReverseIterator :=
  ⟨self, c.data.length⟩

/-- Reverse traversal `collect(c.begin_reverse_order(), c.end_reverse_order())`. -/
def collectReverse (fuel self : Nat) (c : MyContainer T) : Option (Except Exn (List T)) :=
  collect ReverseIterator.ne ReverseIterator.inc (fun it => it.deref c) fuel
    (c.begin_reverse_order self) (c.end_reverse_order self)

/-! ## AscendingIterator -/

/-- Class `AscendingIterator`: pointer to the container, its own `order` vector, position. -/
structure AscendingIterator where
  cont : Nat
  order : List Nat
  index : Nat
  deriving DecidableEq

namespace AscendingIterator

/-- Member `initOrder`: `resize`, `std::iota`, `std::sort` with the `<` lambda. -/
def initOrder [LinearOrder T] (sort : SortFn) (c : MyContainer T) : List Nat :=
  sort (compLess c.data) (stdIota c.data.length)

/-- Constructor `AscendingIterator(c, i)`. -/
def new [LinearOrder T] (sort : SortFn) (self : Nat) (c : MyContainer T) (i : Nat) :
    AscendingIterator :=
  ⟨self, initOrder sort c, i⟩

/-- Pre-increment `operator++`. -/
def inc (it : AscendingIterator) : AscendingIterator :=
  { it with index := (it.index + 1) % SIZE_MOD }

/-- Comparison `operator==`. -/
def eq (a o : AscendingIterator) : Bool := a.cont == o.cont && a.index == o.index

/-- Comparison `operator!=`. -/
def ne (a o : AscendingIterator) : Bool := !(eq a o)

/-- Dereference `operator*`. -/
def deref (it : AscendingIterator) (c : MyContainer T) : Except Exn T :=
  derefOrder c.data it.order it.index

end AscendingIterator

/-- Member `begin_ascending_order`. -/
def begin_ascending_order [LinearOrder T] (sort : SortFn) (self : Nat) (c : MyContainer T) :
    AscendingIterator :=
  AscendingIterator.new sort self c 0

/-- Member `end_ascending_order`. -/
def end_ascending_order [LinearOrder T] (sort : SortFn) (self : Nat) (c : MyContainer T) :
    AscendingIterator :=
  AscendingIterator.new sort self c c.data.length

/-- Ascending traversal `collect(c.begin_ascending_order(), c.end_ascending_order())`. -/
def collectAscending [LinearOrder T] (sort : SortFn) (fuel self : Nat) (c : MyContainer T) :
    Option (Except Exn (List T)) :=
  collect AscendingIterator.ne AscendingIterator.inc (fun it => it.deref c) fuel
    (c.begin_ascending_order sort self) (c.end_ascending_order sort self)

/-! ## DescendingIterator -/

/-- Class `DescendingIterator`. -/
structure DescendingIterator where
  cont : Nat
  order : List Nat
  index : Nat
  deriving DecidableEq

namespace DescendingIterator

/-- Member `initOrder`: `resize`, `std::iota`, `std::sort` with the `>` lambda. -/
def initOrder [LinearOrder T] (sort : SortFn) (c : MyContainer T) : List Nat :=
  sort (compGreater c.data) (stdIota c.data.length)

/-- Constructor `DescendingIterator(c, i)`. -/
def new [LinearOrder T] (sort : SortFn) (self : Nat) (c : MyContainer T) (i : Nat) :
    DescendingIterator :=
  ⟨self, initOrder sort c, i⟩

/-- Pre-increment `operator++`. -/
def inc (it : DescendingIterator) : DescendingIterator :=
  { it with index := (it.index + 1) % SIZE_MOD }

/-- Comparison `operator==`. -/
def eq (a o : DescendingIterator) : Bool := a.cont == o.cont && a.index == o.index

/-- Comparison `operator!=`. -/
def ne (a o : DescendingIterator) : Bool := !(eq a o)

/-- Dereference `operator*`. -/
def deref (it : DescendingIterator) (c : MyContainer T) : Except Exn T :=
  derefOrder c.data it.order it.index

end DescendingIterator

/-- Member `begin_descending_order`. -/
def begin_descending_order [LinearOrder T] (sort : SortFn) (self : Nat) (c : MyContainer T) :
    DescendingIterator :=
  DescendingIterator.new sort self c 0

/-- Member `end_descending_order`. -/
def end_descending_order [LinearOrder T] (sort : SortFn) (self : Nat) (c : MyContainer T) :
    DescendingIterator :=
  DescendingIterator.new sort self c c.data.length

/-- Descending traversal `collect(c.begin_descending_order(), c.end_descending_order())`. -/
def collectDescending [LinearOrder T] (sort : SortFn) (fuel self : Nat) (c : MyContainer T) :
    Option (Except Exn (List T)) :=
  collect DescendingIterator.ne DescendingIterator.inc (fun it => it.deref c) fuel
    (c.begin_descending_order sort self) (c.end_descending_order sort self)

/-! ## SideCrossIterator -/

/-- Class `SideCrossIterator`. -/
structure SideCrossIterator where
  cont : Nat
  order : List Nat
  index : Nat
  deriving DecidableEq

namespace SideCrossIterator

/-- Body of the `while (l <= r)` loop of `initOrder`. The unchecked reads `sorted[l]`,
`sorted[r]` are undefined outside the vector (`none`); `++l` and `--r` are `size_t`
operations. Returns the new `l`, `r`, `order`. -/
def loopBody (sorted : List Nat) (l r : Nat) (order : List Nat) :
    Option (Nat × Nat × List Nat) :=
  match sorted[l]? with
  | none => none
  | some a =>
    if l < r then
      match sorted[r]? with
      | none => none
      | some b => some ((l + 1) % SIZE_MOD, (r + SIZE_MOD - 1) % SIZE_MOD, order ++ [a] ++ [b])
    else some ((l + 1) % SIZE_MOD, (r + SIZE_MOD - 1) % SIZE_MOD, order ++ [a])

/-- The `while (l <= r)` loop of `initOrder`, run for at most `fuel` tests of its
condition; returns `order` when the loop exits. -/
def loop (sorted : List Nat) : Nat → Nat → Nat → List Nat → Option (List Nat)
  | 0, _, _, _ => none
  | fuel + 1, l, r, order =>
    if l ≤ r then
      match loopBody sorted l r order with
      | none => none
      | some (l1, r1, order1) => loop sorted fuel l1 r1 order1
    else some order

/-- Member `initOrder`. -/
def initOrder [LinearOrder T] (sort : SortFn) (fuel : Nat) (c : MyContainer T) :
    Option (List Nat) :=
  let n := c.data.length
  if n ≤ 1 then
    if n = 1 then some [0] else some []
  else
    let sorted := sort (compLess c.data) (stdIota n)
    loop sorted fuel 0 ((n + SIZE_MOD - 1) % SIZE_MOD) []

/-- Constructor `SideCrossIterator(c, i)`. -/
def new [LinearOrder T] (sort : SortFn) (fuel self : Nat) (c : MyContainer T) (i : Nat) :
    Option SideCrossIterator :=
  match initOrder sort fuel c with
  | none => none
  | some order => some ⟨self, order, i⟩

/-- Pre-increment `operator++`. -/
def inc (it : SideCrossIterator) : SideCrossIterator :=
  { it with index := (it.index + 1) % SIZE_MOD }

/-- Comparison `operator==`. -/
def eq (a o : SideCrossIterator) : Bool := a.cont == o.cont && a.index == o.index

/-- Comparison `operator!=`. -/
def ne (a o : SideCrossIterator) : Bool := !(eq a o)

/-- Dereference `operator*`. -/
def deref (it : SideCrossIterator) (c : MyContainer T) : Except Exn T :=
  derefOrder c.data it.order it.index

end SideCrossIterator

/-- Member `begin_side_cross_order`. -/
def begin_side_cross_order [LinearOrder T] (sort : SortFn) (fuel self : Nat)
    (c : MyContainer T) : Option SideCrossIterator :=
  SideCrossIterator.new sort fuel self c 0

/-- Member `end_side_cross_order`. -/
def end_side_cross_order [LinearOrder T] (sort : SortFn) (fuel self : Nat)
    (c : MyContainer T) : Option SideCrossIterator :=
  SideCrossIterator.new sort fuel self c c.data.length

/-- Side-cross traversal `collect(c.begin_side_cross_order(), c.end_side_cross_order())`. -/
def collectSideCross [LinearOrder T] (sort : SortFn) (fuel self : Nat) (c : MyContainer T) :
    Option (Except Exn (List T)) :=
  match c.begin_side_cross_order sort fuel self, c.end_side_cross_order sort fuel self with
  | some b, some e =>
    collect SideCrossIterator.ne SideCrossIterator.inc (fun it => it.deref c) fuel b e
  | _, _ => none

/-! ## MiddleOutIterator -/

/-- Class `MiddleOutIterator`. -/
structure MiddleOutIterator where
  cont : Nat
  order : List Nat
  index : Nat
  deriving DecidableEq

namespace MiddleOutIterator

/-- The `while (order.size() < n)` loop of `initOrder`, run for at most `fuel` tests of
its condition, with `int` variables `l`, `r`; returns `order` when the loop exits
(by its condition or by `break`). -/
def loop (n : Nat) : Nat → Int → Int → List Nat → Option (List Nat)
  | 0, _, _, _ => none
  | fuel + 1, l, r, order =>
    if order.length < n then
      let order1 := if l ≥ 0 then order ++ [toSizeT l] else order
      if order1.length = n then some order1
      else
        let order2 := if r < toInt n then order1 ++ [toSizeT r] else order1
        match intArith (l - 1), intArith (r + 1) with
        | some l1, some r1 => loop n fuel l1 r1 order2
        | _, _ => none
    else some order

/-- Member `initOrder`. -/
def initOrder (fuel : Nat) (c : MyContainer T) : Option (List Nat) :=
  let n := c.data.length
  if n ≤ 1 then
    if n = 1 then some [0] else some []
  else
    let mid := toInt (n / 2)
    match intArith (mid - 1), intArith (mid + 1) with
    | some l, some r => loop n fuel l r [toSizeT mid]
    | _, _ => none

/-- Constructor `MiddleOutIterator(c, i)`. -/
def new (fuel self : Nat) (c : MyContainer T) (i : Nat) : Option MiddleOutIterator :=
  match initOrder fuel c with
  | none => none
  | some order => some ⟨self, order, i⟩

/-- Pre-increment `operator++`. -/
def inc (it : MiddleOutIterator) : MiddleOutIterator :=
  { it with index := (it.index + 1) % SIZE_MOD }

/-- Comparison `operator==`. -/
def eq (a o : MiddleOutIterator) : Bool := a.cont == o.cont && a.index == o.index

/-- Comparison `operator!=`. -/
def ne (a o : MiddleOutIterator) : Bool := !(eq a o)

/-- Dereference `operator*`. -/
def deref (it : MiddleOutIterator) (c : MyContainer T) : Except Exn T :=
  derefOrder c.data it.order it.index

end MiddleOutIterator

/-- Member `begin_middle_out_order`. -/
def begin_middle_out_order (fuel self : Nat) (c : MyContainer T) : Option MiddleOutIterator :=
  MiddleOutIterator.new fuel self c 0

/-- Member `end_middle_out_order`. -/
def end_middle_out_order (fuel self : Nat) (c : MyContainer T) : Option MiddleOutIterator :=
  MiddleOutIterator.new fuel self c c.data.length

/-- Middle-out traversal `collect(c.begin_middle_out_order(), c.end_middle_out_order())`. -/
def collectMiddleOut (fuel self : Nat) (c : MyContainer T) : Option (Except Exn (List T)) :=
  match c.begin_middle_out_order fuel self, c.end_middle_out_order fuel self with
  | some b, some e =>
    collect MiddleOutIterator.ne MiddleOutIterator.inc (fun it => it.deref c) fuel b e
  | _, _ => none

/-! ## The construction loops round by round -/

/-- State `(l, r, order)` of the side-cross loop of `initOrder` after `k` further rounds: a
round runs only when the loop condition `l <= r` holds, and its reads must be defined.
The result is `none` when the loop has ended before `k` rounds are done. -/
def SideCrossIterator.stateAfter (sorted : List Nat) :
    Nat → Nat × Nat × List Nat → Option (Nat × Nat × List Nat)
  | 0, s => some s
  | k + 1, (l, r, order) =>
    if l ≤ r then
      match SideCrossIterator.loopBody sorted l r order with
      | none => none
      | some s1 => SideCrossIterator.stateAfter sorted k s1
    else none

/-- State `(l, r, order)` of the middle-out loop of `initOrder` after `k` further rounds
that ran to their end: a round runs only when the loop condition `order.size() < n` holds,
must not leave by `break`, and `--l`, `++r` must not overflow. The result is `none` when
the loop has ended before `k` such rounds are done. -/
def MiddleOutIterator.stateAfter (n : Nat) :
    Nat → Int × Int × List Nat → Option (Int × Int × List Nat)
  | 0, s => some s
  | k + 1, (l, r, order) =>
    if order.length < n then
      let order1 := if l ≥ 0 then order ++ [toSizeT l] else order
      if order1.length = n then none
      else
        let order2 := if r < toInt n then order1 ++ [toSizeT r] else order1
        match intArith (l - 1), intArith (r + 1) with
        | some l1, some r1 => MiddleOutIterator.stateAfter n k (l1, r1, order2)
        | _, _ => none
    else none

/-! ## The storage index read by `operator*`

For each iterator, the argument its `operator*` passes to `cont->data.at(...)`. -/

/-- Insertion order reads `data.at(index)`. -/
def OrderIterator.storageIndex (it : OrderIterator) : Nat := it.index

/-- Reverse order reads `data.at(cont->data.size()-1-index)`: the index is computed on
`std::size_t` from the size the container has when `operator*` runs. -/
def ReverseIterator.storageIndex (it : ReverseIterator) (c : MyContainer T) : Nat :=
  (c.data.length % SIZE_MOD + SIZE_MOD - 1 + SIZE_MOD - it.index % SIZE_MOD) % SIZE_MOD

/-- Ascending order reads `data.at(order.at(index))`. -/
def AscendingIterator.storageIndex (it : AscendingIterator) : Except Exn Nat :=
  vectorAt it.order it.index

/-- Descending order reads `data.at(order.at(index))`. -/
def DescendingIterator.storageIndex (it : DescendingIterator) : Except Exn Nat :=
  vectorAt it.order it.index

/-- Side-cross order reads `data.at(order.at(index))`. -/
def SideCrossIterator.storageIndex (it : SideCrossIterator) : Except Exn Nat :=
  vectorAt it.order it.index

/-- Middle-out order reads `data.at(order.at(index))`. -/
def MiddleOutIterator.storageIndex (it : MiddleOutIterator) : Except Exn Nat :=
  vectorAt it.order it.index

/-! ## Streaming -/

/-- Friend `operator<<(os, cont)`: writes `"[ "`, then every element followed by `" "`, in
storage order, then `"]"`. The stream `os` is the text written to it so far; `toText` is
the text `os << e` writes for an element. -/
def streamOut (toText : T → String) (os : String) (c : MyContainer T) : String :=
  (c.data.foldl (fun os e => os ++ toText e ++ " ") (os ++ "[ ")) ++ "]"

/-- The rendering in the words of the specification, between the brackets: each element's
text followed by one space, in storage order. -/
def elementsText (toText : T → String) : List T → String
  | [] => ""
  | e :: es => toText e ++ " " ++ elementsText toText es

end MyContainer

/-! ## Evaluation on the scenarios of `test.cpp` -/

section Scenarios

open MyContainer

example : (removeElement ⟨[1, 2, 1, 3, 1]⟩ 1).2.data = [2, 3] := by decide
example : (removeElement ⟨[5, 2, 1, 3, 1, 7]⟩ 1).2.data = [5, 2, 3, 7] := by decide
example : collectOrder 6 0 ⟨[7, 15, 6, 1, 2]⟩ = some (Except.ok [7, 15, 6, 1, 2]) := by decide
example : collectReverse 6 0 ⟨[7, 15, 6, 1, 2]⟩ = some (Except.ok [2, 1, 6, 15, 7]) := by decide
example : collectAscending insertionSortBy 6 0 ⟨[7, 15, 6, 1, 2]⟩
    = some (Except.ok [1, 2, 6, 7, 15]) := by decide
example : collectDescending insertionSortBy 6 0 ⟨[7, 15, 6, 1, 2]⟩
    = some (Except.ok [15, 7, 6, 2, 1]) := by decide
example : collectSideCross insertionSortBy 6 0 ⟨[7, 15, 6, 1, 2]⟩
    = some (Except.ok [1, 15, 2, 7, 6]) := by decide
example : collectMiddleOut 6 0 ⟨[7, 15, 6, 1, 2]⟩ = some (Except.ok [6, 15, 1, 7, 2]) := by
  decide
example : collectMiddleOut 5 0 ⟨[1, 2, 3, 4]⟩ = some (Except.ok [3, 2, 4, 1]) := by decide
example : collectMiddleOut 7 0 ⟨[10, 20, 30, 40, 50, 60]⟩
    = some (Except.ok [40, 30, 50, 20, 60, 10]) := by decide
example : collectSideCross insertionSortBy 7 0 ⟨[10, 20, 30, 40, 50, 60]⟩
    = some (Except.ok [10, 60, 20, 50, 30, 40]) := by decide
example : AscendingIterator.initOrder insertionSortBy ⟨[3, 1, 3, 2, 1]⟩ = [1, 4, 3, 0, 2] := by
  decide
example : AscendingIterator.initOrder libstdcxx.sort ⟨[3, 1, 3, 2, 1]⟩ = [1, 4, 3, 0, 2] := by
  decide

example : streamOut (fun s : String => s) "" ⟨["a", "bb"]⟩ = "[ a bb ]" := by decide
example : streamOut (fun n : Nat => toString n) "" ⟨[]⟩ = "[ ]" := by decide

example : SideCrossIterator.stateAfter [3, 4, 0, 1, 2] 3 (0, 4, [])
    = some (3, 1, [3, 2, 4, 1, 0]) := by decide
example : MiddleOutIterator.stateAfter 5 2 (1, 3, [2]) = some (-1, 5, [2, 1, 3, 0, 4]) := by
  decide

end Scenarios

/-! ## Properties of the vector primitives -/

section Primitives

variable {T : Type}

theorem vectorAt_of_lt (v : List T) (i : Nat) (h : i < v.length) :
    vectorAt v i = Except.ok v[i] := by
  simp [vectorAt, List.getElem?_eq_getElem h]

theorem vectorAt_of_ge (v : List T) (i : Nat) (h : v.length ≤ i) :
    vectorAt v i = Except.error Exn.out_of_range := by
  simp [vectorAt, List.getElem?_eq_none h]

theorem stdCount_foldl [DecidableEq T] (value : T) (v : List T) (n : Nat) :
    v.foldl (fun n x => if x = value then n + 1 else n) n
      = n + (v.filter (fun x => decide (x = value))).length := by
  induction v generalizing n with
  | nil => simp
  | cons x xs ih =>
    by_cases hx : x = value
    · simp [List.foldl_cons, hx, ih, List.filter_cons]; omega
    · simp [List.foldl_cons, hx, ih, List.filter_cons]

theorem stdCount_eq [DecidableEq T] (v : List T) (value : T) :
    stdCount v value = (v.filter (fun x => decide (x = value))).length := by
  simp [stdCount, stdCount_foldl]

theorem stdCount_eq_zero_iff [DecidableEq T] (v : List T) (value : T) :
    stdCount v value = 0 ↔ ∀ x ∈ v, ¬ x = value := by
  rw [stdCount_eq, List.length_eq_zero, List.filter_eq_nil_iff]
  simp

theorem stdFind_le [DecidableEq T] (value : T) (v : List T) : stdFind value v ≤ v.length := by
  induction v with
  | nil => simp [stdFind]
  | cons x xs ih =>
    by_cases hx : x = value
    · simp [stdFind, hx]
    · simp [stdFind, hx, ih]

theorem stdFind_filter [DecidableEq T] (value : T) (v : List T) :
    v.filter (fun x => decide (¬ x = value))
      = v.take (stdFind value v)
        ++ (v.drop (stdFind value v + 1)).filter (fun x => decide (¬ x = value)) := by
  induction v with
  | nil => simp [stdFind]
  | cons x xs ih =>
    by_cases hx : x = value
    · simp [stdFind, hx, List.filter_cons]
    · simp only [stdFind, hx, if_false, List.take_succ_cons, List.drop_succ_cons,
        List.cons_append]
      rw [List.filter_cons_of_pos (by simpa using hx), ih]

theorem stdRemoveLoop_take [DecidableEq T] (value : T) :
    ∀ (k : Nat) (v : List T) (i w : Nat), w ≤ i → i + k = v.length →
      (stdRemoveLoop value k v i w).1.take (stdRemoveLoop value k v i w).2
        = v.take w ++ (v.drop i).filter (fun x => decide (¬ x = value)) := by
  intro k
  induction k with
  | zero =>
    intro v i w _ hk
    have : v.drop i = [] := List.drop_eq_nil_of_le (by omega)
    simp [stdRemoveLoop, this]
  | succ k ih =>
    intro v i w hw hk
    have hi : i < v.length := by omega
    have hd : v.drop i = v[i] :: v.drop (i + 1) := List.drop_eq_getElem_cons hi
    by_cases hx : v[i] = value
    · simp only [stdRemoveLoop, List.getElem?_eq_getElem hi, hx, if_true]
      rw [ih v (i + 1) w (by omega) (by omega), hd]
      simp [List.filter_cons, hx]
    · simp only [stdRemoveLoop, List.getElem?_eq_getElem hi, hx, if_false]
      rw [ih (v.set w v[i]) (i + 1) (w + 1) (by omega) (by simp; omega), hd]
      have hwl : w < v.length := by omega
      have h1 : (v.set w v[i]).take (w + 1) = v.take w ++ [v[i]] := by
        rw [List.take_succ, List.set_take, List.set_eq_of_length_le (by simp),
          List.getElem?_set_self hwl]
        rfl
      have h2 : (v.set w v[i]).drop (i + 1) = v.drop (i + 1) := by
        rw [List.drop_set_of_lt _ _ (by omega)]
      rw [h1, h2, List.filter_cons_of_pos (by simpa using hx)]
      simp

theorem stdRemove_erase [DecidableEq T] (v : List T) (value : T) :
    vectorEraseToEnd (stdRemove v value).1 (stdRemove v value).2
      = v.filter (fun x => decide (¬ x = value)) := by
  unfold stdRemove vectorEraseToEnd
  have hle := stdFind_le value v
  have hf := stdFind_filter value v
  by_cases h : stdFind value v = v.length
  · simp only [h, if_true]
    rw [hf, h, List.drop_eq_nil_of_le (Nat.le_succ _)]
    simp
  · simp only [h, if_false]
    rw [stdRemoveLoop_take value _ v _ _ (by omega) (by omega), ← hf]

end Primitives

/-! ## Container operations -/

section Container

variable {T : Type}

theorem removeElement_of_not_mem [DecidableEq T] (c : MyContainer T) (v : T)
    (h : ∀ x ∈ c.data, ¬ x = v) :
    c.removeElement v = (Except.error (Exn.runtime_error "Element not found"), c) := by
  simp [MyContainer.removeElement, (stdCount_eq_zero_iff c.data v).2 h]

theorem removeElement_of_mem [DecidableEq T] (c : MyContainer T) (v : T) (h : v ∈ c.data) :
    c.removeElement v = (Except.ok (), ⟨c.data.filter (fun x => decide (¬ x = v))⟩) := by
  have hc : ¬ stdCount c.data v = 0 := by
    rw [stdCount_eq_zero_iff]
    intro hall
    exact hall v h rfl
  simp only [MyContainer.removeElement, hc, if_false, stdRemove_erase]

theorem length_filter_split [DecidableEq T] (v : List T) (x : T) :
    (v.filter (fun y => decide (y = x))).length
      + (v.filter (fun y => decide (¬ y = x))).length = v.length := by
  induction v with
  | nil => simp
  | cons y ys ih =>
    by_cases hy : y = x
    · simp [List.filter_cons, hy] at ih ⊢; omega
    · simp [List.filter_cons, hy] at ih ⊢; omega

theorem size_run [DecidableEq T] (ops : List (Op T)) :
    ∀ c : MyContainer T, (Op.run c ops).size + Op.deleted c ops = c.size + Op.adds ops := by
  induction ops with
  | nil => intro c; simp [Op.run, Op.deleted, Op.adds]
  | cons op ops ih =>
    intro c
    cases op with
    | add x =>
      have := ih (c.addElement x)
      simp only [Op.run, List.foldl_cons, Op.apply, Op.deleted, Op.adds] at this ⊢
      rw [this]
      simp [MyContainer.size, MyContainer.addElement]
      omega
    | remove x =>
      have := ih (c.removeElement x).2
      simp only [Op.run, List.foldl_cons, Op.apply, Op.deleted, Op.adds] at this ⊢
      by_cases hx : x ∈ c.data
      · rw [removeElement_of_mem c x hx] at this ⊢
        have hsplit := length_filter_split c.data x
        simp only [MyContainer.size] at this ⊢
        omega
      · have hnot : ∀ y ∈ c.data, ¬ y = x := fun y hy hyx => hx (hyx ▸ hy)
        rw [removeElement_of_not_mem c x hnot] at this ⊢
        simpa using this

/-- C1: `removeElement(v)` throws the "Element not found" `runtime_error` exactly when no
stored element equals `v`, it returns normally exactly when some stored element equals
`v`, and whenever it does not return normally the container after the call is the
container before the call. -/
theorem removeElement_not_found_iff [DecidableEq T] (c : MyContainer T) (v : T) :
    ((c.removeElement v).1 = Except.error (Exn.runtime_error "Element not found")
        ↔ ∀ x ∈ c.data, ¬ x = v)
    ∧ ((c.removeElement v).1 = Except.ok () ↔ ∃ x ∈ c.data, x = v)
    ∧ ((c.removeElement v).1 ≠ Except.ok () → (c.removeElement v).2 = c) := by
  by_cases hx : v ∈ c.data
  · rw [removeElement_of_mem c v hx]
    refine ⟨?_, ?_, ?_⟩
    · simp only [false_iff, reduceCtorEq]
      intro hall
      exact hall v hx rfl
    · simp only [true_iff]
      exact ⟨v, hx, rfl⟩
    · intro hne
      exact absurd rfl hne
  · have hnot : ∀ y ∈ c.data, ¬ y = v := fun y hy hyx => hx (hyx ▸ hy)
    rw [removeElement_of_not_mem c v hnot]
    refine ⟨?_, ?_, ?_⟩
    · simpa using hnot
    · simp only [false_iff, reduceCtorEq]
      rintro ⟨y, hy, hyv⟩
      exact hnot y hy hyv
    · intro _
      rfl

/-- Witness for C1 on the container of the test "removeElement existing and exception":
after `[1,2,1]` lost its `1`s, removing `42` throws and leaves `[2]`. -/
theorem removeElement_not_found_iff_witness :
    (MyContainer.removeElement ⟨[2]⟩ 42).1 = Except.error (Exn.runtime_error "Element not found")
    ∧ (MyContainer.removeElement ⟨[2]⟩ 42).2 = (⟨[2]⟩ : MyContainer Nat) :=
  ⟨((removeElement_not_found_iff (⟨[2]⟩ : MyContainer Nat) 42).1).2 (by decide),
   (removeElement_not_found_iff (⟨[2]⟩ : MyContainer Nat) 42).2.2 (by decide)⟩

/-- C2: when `v` occurs in the container, `removeElement(v)` returns normally and the
stored sequence afterwards is the previous one with every element equal to `v` deleted,
the others kept in their order. -/
theorem removeElement_removes_all [DecidableEq T] (c : MyContainer T) (v : T)
    (h : v ∈ c.data) :
    (c.removeElement v).1 = Except.ok ()
    ∧ (c.removeElement v).2.data = c.data.filter (fun x => decide (¬ x = v)) := by
  rw [removeElement_of_mem c v h]
  exact ⟨rfl, rfl⟩

/-- Witness for C2: removing `1` from `[1,2,1,3]` leaves `[2,3]`. -/
theorem removeElement_removes_all_witness :
    (1 : Nat) ∈ [1, 2, 1, 3]
    ∧ (MyContainer.removeElement ⟨[1, 2, 1, 3]⟩ (1 : Nat)).2.data = [2, 3] :=
  ⟨by decide, (removeElement_removes_all ⟨[1, 2, 1, 3]⟩ (1 : Nat) (by decide)).2⟩

/-- C3: after any sequence of `addElement` and `removeElement` calls on an empty container,
`size()` plus the number of elements deleted by the `removeElement` calls that did not
throw equals the number of `addElement` calls. -/
theorem size_eq_adds_minus_deleted [DecidableEq T] (ops : List (Op T)) :
    (Op.run (MyContainer.empty : MyContainer T) ops).size
        + Op.deleted (MyContainer.empty : MyContainer T) ops = Op.adds ops
    ∧ ((Op.run (MyContainer.empty : MyContainer T) ops).size : Int)
        = (Op.adds ops : Int) - (Op.deleted (MyContainer.empty : MyContainer T) ops : Int) := by
  have h := size_run ops (MyContainer.empty : MyContainer T)
  simp only [MyContainer.size, MyContainer.empty, List.length_nil, Nat.zero_add] at h
  simp only [MyContainer.size, MyContainer.empty]
  omega

end Container

/-! ## The traversal loop -/

section Traversal

variable {T : Type}

/-- The loop of `collect`, started on the `p`-th iterator of a family `pos 0, pos 1, …`
whose `++`, `!=` and `*` behave as positions over the values `vals`, appends the values from
`p` on, provided the budget exceeds the number of remaining values. -/
theorem collectLoop_family {I : Type} (ne : I → I → Bool) (inc : I → I)
    (deref : I → Except Exn T) (pos : Nat → I) (vals : List T)
    (hinc : ∀ p, p < vals.length → inc (pos p) = pos (p + 1))
    (hne : ∀ p, p < vals.length → ne (pos p) (pos vals.length) = true)
    (hend : ne (pos vals.length) (pos vals.length) = false)
    (hderef : ∀ p (h : p < vals.length), deref (pos p) = Except.ok vals[p]) :
    ∀ (fuel p : Nat) (acc : List T), p ≤ vals.length → vals.length - p < fuel →
      collectLoop ne inc deref fuel (pos p) (pos vals.length) acc
        = some (Except.ok (acc ++ vals.drop p)) := by
  intro fuel
  induction fuel with
  | zero => intro p acc _ h; omega
  | succ fuel ih =>
    intro p acc hp hfuel
    by_cases hlt : p < vals.length
    · have hd : vals.drop p = vals[p] :: vals.drop (p + 1) := List.drop_eq_getElem_cons hlt
      simp only [collectLoop, hne p hlt, if_true, hderef p hlt, hinc p hlt]
      rw [ih (p + 1) (acc ++ [vals[p]]) (by omega) (by omega), hd]
      simp
    · have hpe : p = vals.length := by omega
      subst hpe
      simp [collectLoop, hend]

theorem collect_family {I : Type} (ne : I → I → Bool) (inc : I → I)
    (deref : I → Except Exn T) (pos : Nat → I) (vals : List T)
    (hinc : ∀ p, p < vals.length → inc (pos p) = pos (p + 1))
    (hne : ∀ p, p < vals.length → ne (pos p) (pos vals.length) = true)
    (hend : ne (pos vals.length) (pos vals.length) = false)
    (hderef : ∀ p (h : p < vals.length), deref (pos p) = Except.ok vals[p])
    (fuel : Nat) (hfuel : vals.length < fuel) :
    collect ne inc deref fuel (pos 0) (pos vals.length) = some (Except.ok vals) := by
  have := collectLoop_family ne inc deref pos vals hinc hne hend hderef fuel 0 []
    (Nat.zero_le _) (by omega)
  simpa [collect] using this

theorem succ_mod_size (p n : Nat) (hp : p < n) (hn : n < SIZE_MOD) :
    (p + 1) % SIZE_MOD = p + 1 :=
  Nat.mod_eq_of_lt (by omega)

theorem collectOrder_eq (fuel self : Nat) (c : MyContainer T)
    (hsize : c.size < SIZE_MOD) (hfuel : c.size < fuel) :
    c.collectOrder fuel self = some (Except.ok c.data) := by
  unfold MyContainer.size at hsize hfuel
  unfold MyContainer.collectOrder MyContainer.begin_order MyContainer.end_order
  refine collect_family _ _ _ (fun p => (⟨self, p⟩ : MyContainer.OrderIterator)) c.data
    ?_ ?_ ?_ ?_ fuel hfuel
  · intro p hp
    simp [MyContainer.OrderIterator.inc, succ_mod_size p _ hp hsize]
  · intro p hp
    simp [MyContainer.OrderIterator.ne, MyContainer.OrderIterator.eq]
    omega
  · simp [MyContainer.OrderIterator.ne, MyContainer.OrderIterator.eq]
  · intro p hp
    simp [MyContainer.OrderIterator.deref, vectorAt_of_lt _ _ hp]

/-- C4: the insertion-order traversal of a container yields exactly its stored sequence `s`;
after `addElement(x)` it yields `s` followed by `x`, the size has grown by one and every
earlier element is still at its position. Sizes are `std::size_t` values; `fuel` bounds the
number of loop tests of the traversal. -/
theorem collectOrder_addElement (fuel self : Nat) (c : MyContainer T) (x : T)
    (hsize : (c.addElement x).size < SIZE_MOD) (hfuel : (c.addElement x).size < fuel) :
    c.collectOrder fuel self = some (Except.ok c.data)
    ∧ (c.addElement x).collectOrder fuel self = some (Except.ok (c.data ++ [x]))
    ∧ (c.addElement x).size = c.size + 1
    ∧ ∀ i (h : i < c.size), (c.addElement x).data[i]? = some (c.data[i]) := by
  have hs : (c.addElement x).size = c.size + 1 := by
    simp [MyContainer.size, MyContainer.addElement]
  refine ⟨collectOrder_eq fuel self c (by omega) (by omega), ?_, hs, ?_⟩
  · exact collectOrder_eq fuel self (c.addElement x) hsize hfuel
  · intro i h
    unfold MyContainer.size at h
    simp [MyContainer.addElement, List.getElem?_append_left h, List.getElem?_eq_getElem h]

/-- Witness for C4 on the container of the test "OrderIterator (insertion) ordering". -/
theorem collectOrder_addElement_witness :
    MyContainer.collectOrder 6 0 (⟨[7, 15, 6, 1]⟩ : MyContainer Nat)
      = some (Except.ok [7, 15, 6, 1])
    ∧ MyContainer.collectOrder 6 0 (MyContainer.addElement ⟨[7, 15, 6, 1]⟩ (2 : Nat))
      = some (Except.ok [7, 15, 6, 1, 2]) :=
  ⟨(collectOrder_addElement 6 0 (⟨[7, 15, 6, 1]⟩ : MyContainer Nat) 2
      (by decide) (by decide)).1,
   (collectOrder_addElement 6 0 (⟨[7, 15, 6, 1]⟩ : MyContainer Nat) 2
      (by decide) (by decide)).2.1⟩

end Traversal

/-! ## Sorting -/

section Sorting

variable {T : Type}

theorem insertSorted_perm (comp : Nat → Nat → Bool) (a : Nat) (l : List Nat) :
    (insertSorted comp a l).Perm (a :: l) := by
  induction l with
  | nil => simp [insertSorted]
  | cons b l ih =>
    by_cases h : comp a b = true
    · simp [insertSorted, h]
    · simp only [insertSorted, h, if_false, Bool.false_eq_true]
      exact (List.Perm.cons b ih).trans (List.Perm.swap a b l)

theorem insertionSortBy_foldl_perm (comp : Nat → Nat → Bool) (xs : List Nat) :
    ∀ acc : List Nat, (xs.foldl (fun acc a => insertSorted comp a acc) acc).Perm (xs ++ acc) := by
  induction xs with
  | nil => intro acc; simp
  | cons x xs ih =>
    intro acc
    simp only [List.foldl_cons, List.cons_append]
    refine (ih _).trans ?_
    exact (List.Perm.append_left xs (insertSorted_perm comp x acc)).trans
      List.perm_middle

theorem insertionSortBy_perm (comp : Nat → Nat → Bool) (xs : List Nat) :
    (insertionSortBy comp xs).Perm xs := by
  simpa [insertionSortBy] using insertionSortBy_foldl_perm comp xs []

theorem insertSorted_pairwise (comp : Nat → Nat → Bool) (U : List Nat)
    (hU : StrictWeakOn comp U) (a : Nat) (ha : a ∈ U) :
    ∀ l : List Nat, (∀ x ∈ l, x ∈ U) → l.Pairwise (fun x y => comp y x = false) →
      (insertSorted comp a l).Pairwise (fun x y => comp y x = false) := by
  intro l
  induction l with
  | nil => intro _ _; simp [insertSorted]
  | cons b l ih =>
    intro hl hp
    have hb : b ∈ U := hl b (List.mem_cons_self _ _)
    have hl' : ∀ x ∈ l, x ∈ U := fun x hx => hl x (List.mem_cons_of_mem _ hx)
    rw [List.pairwise_cons] at hp
    by_cases h : comp a b = true
    · simp only [insertSorted, h, if_true]
      refine List.Pairwise.cons ?_ (List.Pairwise.cons hp.1 hp.2)
      intro y hy
      rcases List.mem_cons.1 hy with rfl | hy
      · cases hba : comp y a with
        | false => rfl
        | true =>
          have := hU.transitive a ha y hb a ha h hba
          rw [hU.irrefl a ha] at this
          exact absurd this (by decide)
      · cases hya : comp y a with
        | false => rfl
        | true =>
          have := hU.transitive y (hl' y hy) a ha b hb hya h
          rw [hp.1 y hy] at this
          exact absurd this (by decide)
    · simp only [insertSorted, h, if_false, Bool.false_eq_true]
      refine List.Pairwise.cons ?_ (ih hl' hp.2)
      intro y hy
      rcases List.mem_cons.1 ((insertSorted_perm comp a l).subset hy) with rfl | hy
      · simpa using h
      · exact hp.1 y hy

theorem insertionSortBy_foldl_pairwise (comp : Nat → Nat → Bool) (U : List Nat)
    (hU : StrictWeakOn comp U) (xs : List Nat) :
    ∀ acc : List Nat, (∀ x ∈ xs, x ∈ U) → (∀ x ∈ acc, x ∈ U) →
      acc.Pairwise (fun x y => comp y x = false) →
      (xs.foldl (fun acc a => insertSorted comp a acc) acc).Pairwise
        (fun x y => comp y x = false) := by
  induction xs with
  | nil => intro acc _ _ hp; simpa using hp
  | cons x xs ih =>
    intro acc hxs hacc hp
    simp only [List.foldl_cons]
    have hx : x ∈ U := hxs x (List.mem_cons_self _ _)
    refine ih _ (fun y hy => hxs y (List.mem_cons_of_mem _ hy)) ?_
      (insertSorted_pairwise comp U hU x hx acc hacc hp)
    intro y hy
    rcases List.mem_cons.1 ((insertSorted_perm comp x acc).subset hy) with rfl | hy
    · exact hx
    · exact hacc y hy

theorem StrictWeakOn.of_perm {comp : Nat → Nat → Bool} {xs ys : List Nat}
    (h : StrictWeakOn comp xs) (hp : ys.Perm xs) : StrictWeakOn comp ys where
  irrefl a ha := h.irrefl a (hp.subset ha)
  transitive a ha b hb c hc := h.transitive a (hp.subset ha) b (hp.subset hb) c (hp.subset hc)
  equiv_transitive a ha b hb c hc :=
    h.equiv_transitive a (hp.subset ha) b (hp.subset hb) c (hp.subset hc)

/-- The insertion sort meets the contract of `std::sort`. -/
theorem insertionSortBy_stdSort : StdSort insertionSortBy where
  perm comp xs _ := insertionSortBy_perm comp xs
  sorted comp xs h := by
    unfold insertionSortBy
    exact insertionSortBy_foldl_pairwise comp xs h xs [] (fun _ hx => hx)
      (fun _ hx => absurd hx (List.not_mem_nil _)) List.Pairwise.nil

theorem compLess_eq [LinearOrder T] (data : List T) (a b : Nat)
    (ha : a < data.length) (hb : b < data.length) :
    compLess data a b = decide (data[a] < data[b]) := by
  simp [compLess, List.getElem?_eq_getElem ha, List.getElem?_eq_getElem hb]

theorem compGreater_eq [LinearOrder T] (data : List T) (a b : Nat)
    (ha : a < data.length) (hb : b < data.length) :
    compGreater data a b = decide (data[b] < data[a]) := by
  simp [compGreater, List.getElem?_eq_getElem ha, List.getElem?_eq_getElem hb]

/-- The `<` lambda is a strict weak ordering on the indices `0 … n-1`. -/
theorem compLess_strictWeakOn [LinearOrder T] (data : List T) :
    StrictWeakOn (compLess data) (stdIota data.length) where
  irrefl a ha := by
    have ha' : a < data.length := by simpa [stdIota] using ha
    simp [compLess_eq data a a ha' ha']
  transitive a ha b hb c hc := by
    have ha' : a < data.length := by simpa [stdIota] using ha
    have hb' : b < data.length := by simpa [stdIota] using hb
    have hc' : c < data.length := by simpa [stdIota] using hc
    simp only [compLess_eq data _ _ ha' hb', compLess_eq data _ _ hb' hc',
      compLess_eq data _ _ ha' hc', decide_eq_true_eq]
    exact lt_trans
  equiv_transitive a ha b hb c hc := by
    have ha' : a < data.length := by simpa [stdIota] using ha
    have hb' : b < data.length := by simpa [stdIota] using hb
    have hc' : c < data.length := by simpa [stdIota] using hc
    simp only [compLess_eq data _ _ ha' hb', compLess_eq data _ _ hb' hc',
      compLess_eq data _ _ ha' hc', compLess_eq data _ _ hb' ha', compLess_eq data _ _ hc' hb',
      compLess_eq data _ _ hc' ha', decide_eq_false_iff_not, not_lt]
    intro h1 h2 h3 h4
    exact ⟨le_trans h3 h1, le_trans h2 h4⟩

/-- The `>` lambda is a strict weak ordering on the indices `0 … n-1`. -/
theorem compGreater_strictWeakOn [LinearOrder T] (data : List T) :
    StrictWeakOn (compGreater data) (stdIota data.length) where
  irrefl a ha := by
    have ha' : a < data.length := by simpa [stdIota] using ha
    simp [compGreater_eq data a a ha' ha']
  transitive a ha b hb c hc := by
    have ha' : a < data.length := by simpa [stdIota] using ha
    have hb' : b < data.length := by simpa [stdIota] using hb
    have hc' : c < data.length := by simpa [stdIota] using hc
    simp only [compGreater_eq data _ _ ha' hb', compGreater_eq data _ _ hb' hc',
      compGreater_eq data _ _ ha' hc', decide_eq_true_eq]
    exact fun h1 h2 => lt_trans h2 h1
  equiv_transitive a ha b hb c hc := by
    have ha' : a < data.length := by simpa [stdIota] using ha
    have hb' : b < data.length := by simpa [stdIota] using hb
    have hc' : c < data.length := by simpa [stdIota] using hc
    simp only [compGreater_eq data _ _ ha' hb', compGreater_eq data _ _ hb' hc',
      compGreater_eq data _ _ ha' hc', compGreater_eq data _ _ hb' ha',
      compGreater_eq data _ _ hc' hb', compGreater_eq data _ _ hc' ha',
      decide_eq_false_iff_not, not_lt]
    intro h1 h2 h3 h4
    exact ⟨le_trans h1 h3, le_trans h4 h2⟩

end Sorting

/-! ## Traversal through an `order` vector -/

section OrderBacked

variable {T : Type}

theorem elementsAt_cons (data : List T) (j : Nat) (order : List Nat) (hj : j < data.length) :
    elementsAt data (j :: order) = data[j] :: elementsAt data order := by
  simp [elementsAt, List.filterMap_cons, List.getElem?_eq_getElem hj]

theorem elementsAt_length (data : List T) :
    ∀ order : List Nat, (∀ j ∈ order, j < data.length) →
      (elementsAt data order).length = order.length := by
  intro order
  induction order with
  | nil => intro _; simp [elementsAt]
  | cons j order ih =>
    intro h
    rw [elementsAt_cons data j order (h j (List.mem_cons_self _ _))]
    simp [ih (fun x hx => h x (List.mem_cons_of_mem _ hx))]

/-- Under in-range indices, position `p` of `elementsAt` is `data[order[p]]`. -/
theorem elementsAt_getElem? (data : List T) :
    ∀ (order : List Nat), (∀ j ∈ order, j < data.length) → ∀ p : Nat,
      (elementsAt data order)[p]? = (order[p]?).bind (fun j => data[j]?) := by
  intro order
  induction order with
  | nil => intro _ p; simp [elementsAt]
  | cons j order ih =>
    intro h p
    have hj := h j (List.mem_cons_self _ _)
    rw [elementsAt_cons data j order hj]
    cases p with
    | zero => simp [List.getElem?_eq_getElem hj]
    | succ p => simpa using ih (fun x hx => h x (List.mem_cons_of_mem _ hx)) p

theorem derefOrder_elementsAt (data : List T) (order : List Nat)
    (hall : ∀ j ∈ order, j < data.length) (p : Nat) (h : p < (elementsAt data order).length) :
    derefOrder data order p = Except.ok (elementsAt data order)[p] := by
  have hlen := elementsAt_length data order hall
  have hp : p < order.length := by omega
  have hj : order[p] < data.length := hall _ (List.getElem_mem hp)
  have hget := elementsAt_getElem? data order hall p
  rw [List.getElem?_eq_getElem h, List.getElem?_eq_getElem hp] at hget
  simp only [Option.some_bind, List.getElem?_eq_getElem hj, Option.some.injEq] at hget
  simp [derefOrder, vectorAt_of_lt order p hp, vectorAt_of_lt data _ hj, hget]

theorem mem_lt_of_perm_range {order : List Nat} {n : Nat} (h : order.Perm (List.range n)) :
    ∀ j ∈ order, j < n := by
  intro j hj
  exact List.mem_range.1 (h.subset hj)

theorem length_of_perm_range {order : List Nat} {n : Nat} (h : order.Perm (List.range n)) :
    order.length = n := by
  simpa using h.length_eq

theorem ascending_initOrder_perm [LinearOrder T] (sort : SortFn) (hs : StdSort sort)
    (c : MyContainer T) :
    (MyContainer.AscendingIterator.initOrder sort c).Perm (List.range c.data.length) :=
  hs.perm _ _ (compLess_strictWeakOn c.data)

theorem descending_initOrder_perm [LinearOrder T] (sort : SortFn) (hs : StdSort sort)
    (c : MyContainer T) :
    (MyContainer.DescendingIterator.initOrder sort c).Perm (List.range c.data.length) :=
  hs.perm _ _ (compGreater_strictWeakOn c.data)

theorem collectAscending_eq [LinearOrder T] (sort : SortFn) (hs : StdSort sort)
    (fuel self : Nat) (c : MyContainer T) (hsize : c.size < SIZE_MOD) (hfuel : c.size < fuel) :
    c.collectAscending sort fuel self
      = some (Except.ok (elementsAt c.data (MyContainer.AscendingIterator.initOrder sort c))) := by
  unfold MyContainer.size at hsize hfuel
  have hperm := ascending_initOrder_perm sort hs c
  have hall := mem_lt_of_perm_range hperm
  have hlen : (elementsAt c.data (MyContainer.AscendingIterator.initOrder sort c)).length
      = c.data.length := by
    rw [elementsAt_length _ _ hall, length_of_perm_range hperm]
  have key := collect_family MyContainer.AscendingIterator.ne MyContainer.AscendingIterator.inc
    (fun it => it.deref c)
    (fun p => (⟨self, MyContainer.AscendingIterator.initOrder sort c, p⟩ :
      MyContainer.AscendingIterator))
    (elementsAt c.data (MyContainer.AscendingIterator.initOrder sort c))
    (by
      intro p hp
      simp [MyContainer.AscendingIterator.inc, succ_mod_size p _ (hlen ▸ hp) hsize])
    (by
      intro p hp
      simp [MyContainer.AscendingIterator.ne, MyContainer.AscendingIterator.eq]
      omega)
    (by simp [MyContainer.AscendingIterator.ne, MyContainer.AscendingIterator.eq])
    (by
      intro p hp
      exact derefOrder_elementsAt c.data _ hall p hp)
    fuel (by omega)
  rw [hlen] at key
  exact key

theorem collectDescending_eq [LinearOrder T] (sort : SortFn) (hs : StdSort sort)
    (fuel self : Nat) (c : MyContainer T) (hsize : c.size < SIZE_MOD) (hfuel : c.size < fuel) :
    c.collectDescending sort fuel self
      = some (Except.ok (elementsAt c.data (MyContainer.DescendingIterator.initOrder sort c))) := by
  unfold MyContainer.size at hsize hfuel
  have hperm := descending_initOrder_perm sort hs c
  have hall := mem_lt_of_perm_range hperm
  have hlen : (elementsAt c.data (MyContainer.DescendingIterator.initOrder sort c)).length
      = c.data.length := by
    rw [elementsAt_length _ _ hall, length_of_perm_range hperm]
  have key := collect_family MyContainer.DescendingIterator.ne
    MyContainer.DescendingIterator.inc (fun it => it.deref c)
    (fun p => (⟨self, MyContainer.DescendingIterator.initOrder sort c, p⟩ :
      MyContainer.DescendingIterator))
    (elementsAt c.data (MyContainer.DescendingIterator.initOrder sort c))
    (by
      intro p hp
      simp [MyContainer.DescendingIterator.inc, succ_mod_size p _ (hlen ▸ hp) hsize])
    (by
      intro p hp
      simp [MyContainer.DescendingIterator.ne, MyContainer.DescendingIterator.eq]
      omega)
    (by simp [MyContainer.DescendingIterator.ne, MyContainer.DescendingIterator.eq])
    (by
      intro p hp
      exact derefOrder_elementsAt c.data _ hall p hp)
    fuel (by omega)
  rw [hlen] at key
  exact key

end OrderBacked

/-! ## The side-cross order -/

section SideCross

variable {T : Type}

theorem getElem?_append_one (acc : List Nat) (a : Nat) :
    (acc ++ [a])[acc.length]? = some a := by
  rw [List.getElem?_append_right (Nat.le_refl _)]
  simp

theorem getElem?_append_two_left (acc : List Nat) (a b : Nat) :
    (acc ++ [a] ++ [b])[acc.length]? = some a := by
  rw [List.append_assoc, List.getElem?_append_right (Nat.le_refl _)]
  simp

theorem getElem?_append_two_right (acc : List Nat) (a b : Nat) :
    (acc ++ [a] ++ [b])[acc.length + 1]? = some b := by
  rw [List.append_assoc, List.getElem?_append_right (Nat.le_succ _)]
  simp

/-- The side-cross loop, entered with `l + r + 1 = n` on a vector `sorted` of `n ≥ 2`
indices, exits within the budget and has appended `sorted[l], sorted[r], sorted[l+1],
sorted[r-1], …` to `order`. -/
theorem sideCross_loop_spec (sorted : List Nat) (hn : sorted.length < SIZE_MOD)
    (hn2 : 2 ≤ sorted.length) :
    ∀ (fuel l r : Nat) (acc : List Nat), l + r + 1 = sorted.length → r + 2 - l < 2 * fuel →
      ∃ out : List Nat, MyContainer.SideCrossIterator.loop sorted fuel l r acc = some out
        ∧ out.length = acc.length + (r + 1 - l)
        ∧ (∀ i, i < acc.length → out[i]? = acc[i]?)
        ∧ (∀ k, 2 * k < r + 1 - l → out[acc.length + 2 * k]? = sorted[l + k]?)
        ∧ (∀ k, 2 * k + 1 < r + 1 - l → out[acc.length + (2 * k + 1)]? = sorted[r - k]?) := by
  intro fuel
  induction fuel with
  | zero => intro l r acc _ h; omega
  | succ fuel ih =>
    intro l r acc hlr hfuel
    by_cases hle : l ≤ r
    · have hl : l < sorted.length := by omega
      have hr : r < sorted.length := by omega
      have hr1 : 1 ≤ r := by omega
      have hl' : (l + 1) % SIZE_MOD = l + 1 := Nat.mod_eq_of_lt (by omega)
      have hr' : (r + SIZE_MOD - 1) % SIZE_MOD = r - 1 := by
        have : r + SIZE_MOD - 1 = (r - 1) + SIZE_MOD := by omega
        rw [this, Nat.add_mod_right]
        exact Nat.mod_eq_of_lt (by omega)
      by_cases hlt : l < r
      · obtain ⟨out, hout, hlen, hpre, hev, hod⟩ :=
          ih (l + 1) (r - 1) (acc ++ [sorted[l]] ++ [sorted[r]]) (by omega) (by omega)
        refine ⟨out, ?_, ?_, ?_, ?_, ?_⟩
        · simp only [MyContainer.SideCrossIterator.loop, hle, if_true,
            MyContainer.SideCrossIterator.loopBody, List.getElem?_eq_getElem hl,
            List.getElem?_eq_getElem hr, hlt, hl', hr']
          exact hout
        · rw [hlen]
          simp only [List.length_append, List.length_singleton]
          omega
        · intro i hi
          rw [hpre i (by simp only [List.length_append, List.length_singleton]; omega)]
          rw [List.append_assoc, List.getElem?_append_left hi]
        · intro k hk
          cases k with
          | zero =>
            rw [Nat.mul_zero, Nat.add_zero, Nat.add_zero,
              hpre acc.length (by simp only [List.length_append, List.length_singleton]; omega),
              getElem?_append_two_left, List.getElem?_eq_getElem hl]
          | succ k =>
            have hidx : acc.length + 2 * (k + 1)
                = (acc ++ [sorted[l]] ++ [sorted[r]]).length + 2 * k := by
              simp only [List.length_append, List.length_singleton]
              omega
            have hsrc : l + (k + 1) = l + 1 + k := by omega
            rw [hidx, hev k (by omega), hsrc]
        · intro k hk
          cases k with
          | zero =>
            rw [hpre (acc.length + (2 * 0 + 1))
              (by simp only [List.length_append, List.length_singleton]; omega)]
            rw [Nat.mul_zero, Nat.zero_add, getElem?_append_two_right, Nat.sub_zero,
              List.getElem?_eq_getElem hr]
          | succ k =>
            have hidx : acc.length + (2 * (k + 1) + 1)
                = (acc ++ [sorted[l]] ++ [sorted[r]]).length + (2 * k + 1) := by
              simp only [List.length_append, List.length_singleton]
              omega
            have hsrc : r - (k + 1) = r - 1 - k := by omega
            rw [hidx, hod k (by omega), hsrc]
      · have heq : l = r := by omega
        obtain ⟨out, hout, hlen, hpre, _, _⟩ :=
          ih (l + 1) (r - 1) (acc ++ [sorted[l]]) (by omega) (by omega)
        refine ⟨out, ?_, ?_, ?_, ?_, ?_⟩
        · simp only [MyContainer.SideCrossIterator.loop, hle, if_true,
            MyContainer.SideCrossIterator.loopBody, List.getElem?_eq_getElem hl, hlt,
            if_false, hl', hr']
          exact hout
        · rw [hlen]
          simp only [List.length_append, List.length_singleton]
          omega
        · intro i hi
          rw [hpre i (by simp only [List.length_append, List.length_singleton]; omega)]
          rw [List.getElem?_append_left hi]
        · intro k hk
          have hk0 : k = 0 := by omega
          subst hk0
          rw [Nat.mul_zero, Nat.add_zero, Nat.add_zero,
            hpre acc.length (by simp only [List.length_append, List.length_singleton]; omega),
            getElem?_append_one, List.getElem?_eq_getElem hl]
        · intro k hk
          omega
    · refine ⟨acc, ?_, ?_, ?_, ?_, ?_⟩
      · simp [MyContainer.SideCrossIterator.loop, hle]
      · omega
      · intro i _; rfl
      · intro k hk; omega
      · intro k hk; omega

/-- Member `initOrder` of the side-cross iterator returns a vector of `n` indices holding
the ascending permutation's entries alternately from its low and its high end. -/
theorem sideCross_initOrder_spec [LinearOrder T] (sort : SortFn) (hs : StdSort sort)
    (fuel : Nat) (c : MyContainer T) (hsize : c.size < SIZE_MOD) (hfuel : c.size < fuel) :
    ∃ order : List Nat, MyContainer.SideCrossIterator.initOrder sort fuel c = some order
      ∧ order.length = c.data.length
      ∧ (∀ k, 2 * k < c.data.length →
          order[2 * k]? = (MyContainer.AscendingIterator.initOrder sort c)[k]?)
      ∧ (∀ k, 2 * k + 1 < c.data.length →
          order[2 * k + 1]?
            = (MyContainer.AscendingIterator.initOrder sort c)[c.data.length - 1 - k]?) := by
  unfold MyContainer.size at hsize hfuel
  have hperm := ascending_initOrder_perm sort hs c
  have hlen := length_of_perm_range hperm
  by_cases h1 : c.data.length ≤ 1
  · by_cases h0 : c.data.length = 1
    · have hasc : MyContainer.AscendingIterator.initOrder sort c = [0] := by
        rw [h0] at hperm
        exact List.perm_singleton.1 hperm
      refine ⟨[0], by simp [MyContainer.SideCrossIterator.initOrder, h0], by simp [h0], ?_, ?_⟩
      · intro k hk
        have hk0 : k = 0 := by omega
        subst hk0
        simp [hasc]
      · intro k hk
        omega
    · refine ⟨[], by simp [MyContainer.SideCrossIterator.initOrder, h1, h0], by simp; omega,
        ?_, ?_⟩
      · intro k hk
        omega
      · intro k hk
        omega
  · have hr : (c.data.length + SIZE_MOD - 1) % SIZE_MOD = c.data.length - 1 := by
      have : c.data.length + SIZE_MOD - 1 = (c.data.length - 1) + SIZE_MOD := by omega
      rw [this, Nat.add_mod_right]
      exact Nat.mod_eq_of_lt (by omega)
    obtain ⟨out, hout, hol, _, hev, hod⟩ :=
      sideCross_loop_spec (MyContainer.AscendingIterator.initOrder sort c)
        (by omega) (by omega) fuel 0 (c.data.length - 1) [] (by omega) (by omega)
    refine ⟨out, ?_, ?_, ?_, ?_⟩
    · simp only [MyContainer.SideCrossIterator.initOrder, h1, if_false, hr]
      exact hout
    · rw [hol]
      simp only [List.length_nil]
      omega
    · intro k hk
      have := hev k (by omega)
      simpa using this
    · intro k hk
      have := hod k (by omega)
      simpa using this

theorem sideCross_initOrder_lt [LinearOrder T] (sort : SortFn) (hs : StdSort sort)
    (c : MyContainer T) (order : List Nat)
    (hlen : order.length = c.data.length)
    (hev : ∀ k, 2 * k < c.data.length →
      order[2 * k]? = (MyContainer.AscendingIterator.initOrder sort c)[k]?)
    (hod : ∀ k, 2 * k + 1 < c.data.length →
      order[2 * k + 1]?
        = (MyContainer.AscendingIterator.initOrder sort c)[c.data.length - 1 - k]?) :
    ∀ j ∈ order, j < c.data.length := by
  have hperm := ascending_initOrder_perm sort hs c
  have halen := length_of_perm_range hperm
  have hall := mem_lt_of_perm_range hperm
  intro j hj
  obtain ⟨i, hi, rfl⟩ := List.getElem_of_mem hj
  rcases Nat.mod_two_eq_zero_or_one i with h0 | h1
  · have hi2 : 2 * (i / 2) = i := by omega
    have h := hev (i / 2) (by omega)
    have hlt : i / 2 < (MyContainer.AscendingIterator.initOrder sort c).length := by omega
    rw [hi2, List.getElem?_eq_getElem hi, List.getElem?_eq_getElem hlt] at h
    rw [Option.some.inj h]
    exact hall _ (List.getElem_mem hlt)
  · have hi2 : 2 * (i / 2) + 1 = i := by omega
    have h := hod (i / 2) (by omega)
    have hlt : c.data.length - 1 - i / 2
        < (MyContainer.AscendingIterator.initOrder sort c).length := by omega
    rw [hi2, List.getElem?_eq_getElem hi, List.getElem?_eq_getElem hlt] at h
    rw [Option.some.inj h]
    exact hall _ (List.getElem_mem hlt)

theorem collectSideCross_of_initOrder [LinearOrder T] (sort : SortFn) (fuel self : Nat)
    (c : MyContainer T) (order : List Nat)
    (hinit : MyContainer.SideCrossIterator.initOrder sort fuel c = some order)
    (hlen : order.length = c.data.length) (hall : ∀ j ∈ order, j < c.data.length)
    (hsize : c.size < SIZE_MOD) (hfuel : c.size < fuel) :
    c.collectSideCross sort fuel self = some (Except.ok (elementsAt c.data order)) := by
  unfold MyContainer.size at hsize hfuel
  have hvl : (elementsAt c.data order).length = c.data.length := by
    rw [elementsAt_length _ _ hall, hlen]
  have key := collect_family MyContainer.SideCrossIterator.ne MyContainer.SideCrossIterator.inc
    (fun it => it.deref c)
    (fun p => (⟨self, order, p⟩ : MyContainer.SideCrossIterator))
    (elementsAt c.data order)
    (by
      intro p hp
      simp [MyContainer.SideCrossIterator.inc, succ_mod_size p _ (hvl ▸ hp) hsize])
    (by
      intro p hp
      simp [MyContainer.SideCrossIterator.ne, MyContainer.SideCrossIterator.eq]
      omega)
    (by simp [MyContainer.SideCrossIterator.ne, MyContainer.SideCrossIterator.eq])
    (by
      intro p hp
      exact derefOrder_elementsAt c.data _ hall p hp)
    fuel (by omega)
  rw [hvl] at key
  simp only [MyContainer.collectSideCross, MyContainer.begin_side_cross_order,
    MyContainer.end_side_cross_order, MyContainer.SideCrossIterator.new, hinit]
  exact key

end SideCross

/-! ## The middle-out order -/

section MiddleOut

variable {T : Type}

theorem toInt_of_lt (x : Nat) (h : x < 2 ^ 31) : toInt x = (x : Int) := by
  unfold toInt
  omega

theorem toSizeT_of_eq (x : Int) (m : Nat) (h : x = m) (hm : m < 2 ^ 64) : toSizeT x = m := by
  subst h
  unfold toSizeT
  omega

theorem intArith_of_mem (x : Int) (h1 : -(2 ^ 31) ≤ x) (h2 : x < 2 ^ 31) :
    intArith x = some x := by
  unfold intArith
  rw [if_pos ⟨h1, h2⟩]

/-- The middle-out loop for `n < 2^31`, entered at distance `j` from the centre with
`2j - 1` indices already emitted, exits within the budget with `n` indices: `mid - k` at
position `2k - 1` and `mid + k` at position `2k`. -/
theorem middleOut_loop_spec (n : Nat) (hn : n < 2 ^ 31) :
    ∀ (fuel j : Nat) (l r : Int) (acc : List Nat),
      l = ((n / 2 : Nat) : Int) - (j : Int) → r = ((n / 2 : Nat) : Int) + (j : Int) →
      acc.length + 1 = 2 * j → acc.length ≤ n → n < acc.length + 2 * fuel →
      ∃ out : List Nat, MyContainer.MiddleOutIterator.loop n fuel l r acc = some out
        ∧ out.length = n
        ∧ (∀ i, i < acc.length → out[i]? = acc[i]?)
        ∧ (∀ k, j ≤ k → 2 * k - 1 < n → out[2 * k - 1]? = some (n / 2 - k))
        ∧ (∀ k, j ≤ k → 2 * k < n → out[2 * k]? = some (n / 2 + k)) := by
  intro fuel
  induction fuel with
  | zero => intro j l r acc _ _ _ _ h; omega
  | succ fuel ih =>
    intro j l r acc hl hr hj hle hfuel
    by_cases hlt : acc.length < n
    · have hl0 : l ≥ 0 := by omega
      have hls : toSizeT l = n / 2 - j := toSizeT_of_eq l _ (by omega) (by omega)
      by_cases hfull : acc.length + 1 = n
      · refine ⟨acc ++ [n / 2 - j], ?_, ?_, ?_, ?_, ?_⟩
        · simp [MyContainer.MiddleOutIterator.loop, hlt, hl0, hls, hfull]
        · simp [hfull]
        · intro i hi
          rw [List.getElem?_append_left hi]
        · intro k hjk hk
          have hkj : k = j := by omega
          subst hkj
          have hidx : 2 * k - 1 = acc.length := by omega
          rw [hidx, getElem?_append_one]
        · intro k hjk hk
          omega
      · have hrn : r < toInt n := by
          rw [toInt_of_lt n hn]
          omega
        have hrs : toSizeT r = n / 2 + j := toSizeT_of_eq r _ (by omega) (by omega)
        have hl1 : intArith (l - 1) = some (l - 1) := intArith_of_mem _ (by omega) (by omega)
        have hr1 : intArith (r + 1) = some (r + 1) := intArith_of_mem _ (by omega) (by omega)
        obtain ⟨out, hout, hlen, hpre, hodd, hev⟩ :=
          ih (j + 1) (l - 1) (r + 1) (acc ++ [n / 2 - j] ++ [n / 2 + j])
            (by push_cast; omega) (by push_cast; omega)
            (by simp only [List.length_append, List.length_singleton]; omega)
            (by simp only [List.length_append, List.length_singleton]; omega)
            (by simp only [List.length_append, List.length_singleton]; omega)
        refine ⟨out, ?_, hlen, ?_, ?_, ?_⟩
        · simp only [MyContainer.MiddleOutIterator.loop, hlt, if_true, hl0, hls,
            List.length_append, List.length_singleton, hfull, if_false, hrn, hrs, hl1, hr1]
          exact hout
        · intro i hi
          rw [hpre i (by simp only [List.length_append, List.length_singleton]; omega)]
          rw [List.append_assoc, List.getElem?_append_left hi]
        · intro k hjk hk
          by_cases hkj : k = j
          · subst hkj
            have hidx : 2 * k - 1 = acc.length := by omega
            rw [hidx, hpre acc.length
              (by simp only [List.length_append, List.length_singleton]; omega),
              getElem?_append_two_left]
          · exact hodd k (by omega) hk
        · intro k hjk hk
          by_cases hkj : k = j
          · subst hkj
            have hidx : 2 * k = acc.length + 1 := by omega
            rw [hidx, hpre (acc.length + 1)
              (by simp only [List.length_append, List.length_singleton]; omega),
              getElem?_append_two_right]
          · exact hev k (by omega) hk
    · refine ⟨acc, ?_, by omega, ?_, ?_, ?_⟩
      · simp [MyContainer.MiddleOutIterator.loop, hlt]
      · intro i _; rfl
      · intro k hjk hk; omega
      · intro k hjk hk; omega

/-- Member `initOrder` of the middle-out iterator, for `1 ≤ n < 2^31`: the permutation has
length `n`, starts at `mid = n / 2`, holds `mid - k` at position `2k - 1` and `mid + k` at
position `2k`. -/
theorem middleOut_initOrder_spec (fuel : Nat) (c : MyContainer T)
    (hn1 : 1 ≤ c.size) (hn : c.size < 2 ^ 31) (hfuel : c.size < fuel) :
    ∃ p : List Nat, MyContainer.MiddleOutIterator.initOrder fuel c = some p
      ∧ p.length = c.size
      ∧ p[0]? = some (c.size / 2)
      ∧ (∀ k, 1 ≤ k → 2 * k - 1 < c.size → p[2 * k - 1]? = some (c.size / 2 - k))
      ∧ (∀ k, 1 ≤ k → 2 * k < c.size → p[2 * k]? = some (c.size / 2 + k)) := by
  unfold MyContainer.size at *
  by_cases h1 : c.data.length ≤ 1
  · have h0 : c.data.length = 1 := by omega
    refine ⟨[0], by simp [MyContainer.MiddleOutIterator.initOrder, h0], by simp [h0],
      by simp [h0], ?_, ?_⟩
    · intro k hk1 hk; omega
    · intro k hk1 hk; omega
  · have hmid : toInt (c.data.length / 2) = ((c.data.length / 2 : Nat) : Int) :=
      toInt_of_lt _ (by omega)
    have hms : toSizeT (toInt (c.data.length / 2)) = c.data.length / 2 :=
      toSizeT_of_eq _ _ hmid (by omega)
    have hl1 : intArith (toInt (c.data.length / 2) - 1) = some (toInt (c.data.length / 2) - 1) :=
      intArith_of_mem _ (by omega) (by omega)
    have hr1 : intArith (toInt (c.data.length / 2) + 1) = some (toInt (c.data.length / 2) + 1) :=
      intArith_of_mem _ (by omega) (by omega)
    obtain ⟨out, hout, hlen, hpre, hodd, hev⟩ :=
      middleOut_loop_spec c.data.length hn fuel 1 (toInt (c.data.length / 2) - 1)
        (toInt (c.data.length / 2) + 1) [c.data.length / 2]
        (by rw [hmid]; push_cast; omega) (by rw [hmid]; push_cast; omega)
        (by simp) (by simp; omega) (by simp; omega)
    refine ⟨out, ?_, hlen, ?_, hodd, hev⟩
    · unfold MyContainer.MiddleOutIterator.initOrder
      rw [if_neg h1]
      simp only [hl1, hr1, hms]
      exact hout
    · rw [hpre 0 (by simp)]
      simp

theorem middleOut_initOrder_lt (n : Nat) (p : List Nat) (hlen : p.length = n)
    (h0 : p[0]? = some (n / 2))
    (hodd : ∀ k, 1 ≤ k → 2 * k - 1 < n → p[2 * k - 1]? = some (n / 2 - k))
    (hev : ∀ k, 1 ≤ k → 2 * k < n → p[2 * k]? = some (n / 2 + k)) :
    ∀ j ∈ p, j < n := by
  intro j hj
  obtain ⟨i, hi, rfl⟩ := List.getElem_of_mem hj
  by_cases hi0 : i = 0
  · subst hi0
    rw [List.getElem?_eq_getElem hi] at h0
    rw [Option.some.inj h0]
    omega
  · rcases Nat.mod_two_eq_zero_or_one i with hmod | hmod
    · have hi2 : 2 * (i / 2) = i := by omega
      have h := hev (i / 2) (by omega) (by omega)
      rw [hi2, List.getElem?_eq_getElem hi] at h
      rw [Option.some.inj h]
      omega
    · have hi2 : 2 * ((i + 1) / 2) - 1 = i := by omega
      have h := hodd ((i + 1) / 2) (by omega) (by omega)
      rw [hi2, List.getElem?_eq_getElem hi] at h
      rw [Option.some.inj h]
      omega

theorem collectMiddleOut_of_initOrder (fuel self : Nat) (c : MyContainer T) (order : List Nat)
    (hinit : MyContainer.MiddleOutIterator.initOrder fuel c = some order)
    (hlen : order.length = c.data.length) (hall : ∀ j ∈ order, j < c.data.length)
    (hsize : c.size < SIZE_MOD) (hfuel : c.size < fuel) :
    c.collectMiddleOut fuel self = some (Except.ok (elementsAt c.data order)) := by
  unfold MyContainer.size at hsize hfuel
  have hvl : (elementsAt c.data order).length = c.data.length := by
    rw [elementsAt_length _ _ hall, hlen]
  have key := collect_family MyContainer.MiddleOutIterator.ne MyContainer.MiddleOutIterator.inc
    (fun it => it.deref c)
    (fun p => (⟨self, order, p⟩ : MyContainer.MiddleOutIterator))
    (elementsAt c.data order)
    (by
      intro p hp
      simp [MyContainer.MiddleOutIterator.inc, succ_mod_size p _ (hvl ▸ hp) hsize])
    (by
      intro p hp
      simp [MyContainer.MiddleOutIterator.ne, MyContainer.MiddleOutIterator.eq]
      omega)
    (by simp [MyContainer.MiddleOutIterator.ne, MyContainer.MiddleOutIterator.eq])
    (by
      intro p hp
      exact derefOrder_elementsAt c.data _ hall p hp)
    fuel (by omega)
  rw [hvl] at key
  simp only [MyContainer.collectMiddleOut, MyContainer.begin_middle_out_order,
    MyContainer.end_middle_out_order, MyContainer.MiddleOutIterator.new, hinit]
  exact key

/-- The middle-out order of a container of `1 ≤ n < 2^31` elements: the permutation `p` has
length `n`, `p[0] = n / 2`, `p[2k-1] = n / 2 - k` and `p[2k] = n / 2 + k` for `k ≥ 1`, and the
traversal terminates and yields the stored elements at those indices. -/
theorem middleOut_order_below_int_max (fuel self : Nat) (c : MyContainer T)
    (hn1 : 1 ≤ c.size) (hn : c.size < 2 ^ 31) (hfuel : c.size < fuel) :
    ∃ p : List Nat, MyContainer.MiddleOutIterator.initOrder fuel c = some p
      ∧ p.length = c.size
      ∧ p[0]? = some (c.size / 2)
      ∧ (∀ k, 1 ≤ k → 2 * k - 1 < c.size → p[2 * k - 1]? = some (c.size / 2 - k))
      ∧ (∀ k, 1 ≤ k → 2 * k < c.size → p[2 * k]? = some (c.size / 2 + k))
      ∧ c.collectMiddleOut fuel self = some (Except.ok (elementsAt c.data p))
      ∧ (∀ i : Nat, (elementsAt c.data p)[i]? = (p[i]?).bind (fun j : Nat => c.data[j]?)) := by
  obtain ⟨p, hinit, hlen, h0, hodd, hev⟩ := middleOut_initOrder_spec fuel c hn1 hn hfuel
  have hall := middleOut_initOrder_lt c.size p hlen h0 hodd hev
  have hsize : c.size < SIZE_MOD := by
    unfold SIZE_MOD
    omega
  exact ⟨p, hinit, hlen, h0, hodd, hev,
    collectMiddleOut_of_initOrder fuel self c p hinit hlen hall hsize hfuel,
    elementsAt_getElem? c.data p hall⟩

/-- Instance of `middleOut_order_below_int_max` on the container of the test "6-element
container ordering". -/
theorem middleOut_order_below_int_max_witness :
    ∃ p : List Nat,
      MyContainer.MiddleOutIterator.initOrder 7 (⟨[10, 20, 30, 40, 50, 60]⟩ : MyContainer Nat)
        = some p
      ∧ p.length = 6
      ∧ p[0]? = some (6 / 2)
      ∧ (∀ k, 1 ≤ k → 2 * k - 1 < 6 → p[2 * k - 1]? = some (6 / 2 - k))
      ∧ (∀ k, 1 ≤ k → 2 * k < 6 → p[2 * k]? = some (6 / 2 + k))
      ∧ MyContainer.collectMiddleOut 7 0 (⟨[10, 20, 30, 40, 50, 60]⟩ : MyContainer Nat)
        = some (Except.ok (elementsAt [10, 20, 30, 40, 50, 60] p))
      ∧ (∀ i : Nat, (elementsAt [10, 20, 30, 40, 50, 60] p)[i]?
          = (p[i]?).bind (fun j : Nat => [10, 20, 30, 40, 50, 60][j]?)) :=
  middleOut_order_below_int_max 7 0 (⟨[10, 20, 30, 40, 50, 60]⟩ : MyContainer Nat)
    (by decide) (by decide) (by decide)

/-- With `n = 2^31` the conversion `int(n)` is `-2^31`, so the guard `r < int(n)` never
holds: the loop emits at most one index per round while `r` grows, and `++r` overflows
before `n` indices are there. No budget makes the loop return. -/
theorem middleOut_loop_int_overflow :
    ∀ (fuel : Nat) (l r : Int) (acc : List Nat),
      (acc.length : Int) + 2 ^ 30 ≤ r → r < 2 ^ 31 →
      MyContainer.MiddleOutIterator.loop (2 ^ 31) fuel l r acc = none := by
  intro fuel
  induction fuel with
  | zero => intro l r acc _ _; rfl
  | succ fuel ih =>
    intro l r acc hacc hr
    have hlt : acc.length < 2 ^ 31 := by omega
    have hconv : toInt (2 ^ 31) = -(2 ^ 31) := by decide
    have hguard : ¬ r < -(2 ^ 31) := by omega
    unfold MyContainer.MiddleOutIterator.loop
    rw [if_pos hlt, hconv]
    by_cases hl0 : l ≥ 0
    · have hne : ¬ (acc ++ [toSizeT l]).length = 2 ^ 31 := by
        simp only [List.length_append, List.length_singleton]
        omega
      simp only [hl0, if_true, hne, if_false, hguard]
      by_cases hr1 : r + 1 < 2 ^ 31
      · have hr1' : intArith (r + 1) = some (r + 1) := intArith_of_mem _ (by omega) hr1
        by_cases hl1 : -(2 ^ 31) ≤ l - 1 ∧ l - 1 < 2 ^ 31
        · have hl1' : intArith (l - 1) = some (l - 1) := intArith_of_mem _ hl1.1 hl1.2
          simp only [hl1', hr1']
          exact ih (l - 1) (r + 1) _
            (by simp only [List.length_append, List.length_singleton]; push_cast; omega) hr1
        · have hl1' : intArith (l - 1) = none := by
            unfold intArith
            rw [if_neg hl1]
          simp only [hl1']
      · have hr1' : intArith (r + 1) = none := by
          unfold intArith
          rw [if_neg (fun h => hr1 h.2)]
        simp only [hr1']
        cases intArith (l - 1) <;> rfl
    · have hne : ¬ acc.length = 2 ^ 31 := by omega
      simp only [hl0, if_false, hne, hguard]
      by_cases hr1 : r + 1 < 2 ^ 31
      · have hr1' : intArith (r + 1) = some (r + 1) := intArith_of_mem _ (by omega) hr1
        by_cases hl1 : -(2 ^ 31) ≤ l - 1 ∧ l - 1 < 2 ^ 31
        · have hl1' : intArith (l - 1) = some (l - 1) := intArith_of_mem _ hl1.1 hl1.2
          simp only [hl1', hr1']
          exact ih (l - 1) (r + 1) _ (by omega) hr1
        · have hl1' : intArith (l - 1) = none := by
            unfold intArith
            rw [if_neg hl1]
          simp only [hl1']
      · have hr1' : intArith (r + 1) = none := by
          unfold intArith
          rw [if_neg (fun h => hr1 h.2)]
        simp only [hr1']
        cases intArith (l - 1) <;> rfl

theorem middleOut_initOrder_none_of_size (fuel : Nat) (c : MyContainer T)
    (h : c.data.length = 2 ^ 31) : MyContainer.MiddleOutIterator.initOrder fuel c = none := by
  have h1 : ¬ (2 : Nat) ^ 31 ≤ 1 := by decide
  have hmid : toInt (2 ^ 31 / 2) = 2 ^ 30 := by decide
  have hl1 : intArith (2 ^ 30 - 1) = some (2 ^ 30 - 1) := by decide
  have hr1 : intArith (2 ^ 30 + 1) = some (2 ^ 30 + 1) := by decide
  unfold MyContainer.MiddleOutIterator.initOrder
  rw [h, if_neg h1]
  simp only [hmid, hl1, hr1]
  exact middleOut_loop_int_overflow fuel _ _ _ (by simp) (by decide)

/-- C10 at a failing input: for a container of `2^31` elements the middle-out `initOrder`
has no defined result, whatever the budget: `int(n)` is negative, no right-hand index is
ever emitted and `++r` overflows before `n` indices are collected. -/
theorem middleOut_initOrder_fails_at_two_pow_31 (fuel : Nat) :
    MyContainer.MiddleOutIterator.initOrder fuel
      (⟨List.replicate (2 ^ 31) 0⟩ : MyContainer Nat) = none :=
  middleOut_initOrder_none_of_size fuel _ (List.length_replicate _ _)

end MiddleOut

/-! ## The middle-out loop for any size and any budget -/

section MiddleOutAnySize

variable {T : Type}

theorem intArith_eq_some (x y : Int) (h : intArith x = some y) :
    y = x ∧ -(2 ^ 31) ≤ x ∧ x < 2 ^ 31 := by
  unfold intArith at h
  by_cases hx : -(2 ^ 31) ≤ x ∧ x < 2 ^ 31
  · rw [if_pos hx] at h
    exact ⟨(Option.some.inj h).symm, hx.1, hx.2⟩
  · rw [if_neg hx] at h
    cases h

/-- One round of the middle-out loop that ends in a result: the loop condition was false, or
the `break` was taken after the left push, or the round went on to the next one without
signed overflow. -/
theorem middleOut_loop_succ (n fuel : Nat) (l r : Int) (acc out : List Nat)
    (h : MyContainer.MiddleOutIterator.loop n (fuel + 1) l r acc = some out) :
    (¬ acc.length < n ∧ out = acc)
    ∨ (acc.length < n ∧ (if l ≥ 0 then acc ++ [toSizeT l] else acc).length = n
        ∧ out = (if l ≥ 0 then acc ++ [toSizeT l] else acc))
    ∨ (acc.length < n ∧ (if l ≥ 0 then acc ++ [toSizeT l] else acc).length ≠ n
        ∧ -(2 ^ 31) ≤ l - 1 ∧ l - 1 < 2 ^ 31 ∧ -(2 ^ 31) ≤ r + 1 ∧ r + 1 < 2 ^ 31
        ∧ MyContainer.MiddleOutIterator.loop n fuel (l - 1) (r + 1)
            (if r < toInt n then (if l ≥ 0 then acc ++ [toSizeT l] else acc) ++ [toSizeT r]
              else (if l ≥ 0 then acc ++ [toSizeT l] else acc)) = some out) := by
  unfold MyContainer.MiddleOutIterator.loop at h
  by_cases hlt : acc.length < n
  · rw [if_pos hlt] at h
    by_cases hfull : (if l ≥ 0 then acc ++ [toSizeT l] else acc).length = n
    · simp only [hfull, if_true] at h
      exact Or.inr (Or.inl ⟨hlt, hfull, (Option.some.inj h).symm⟩)
    · simp only [hfull, if_false] at h
      cases h1 : intArith (l - 1) with
      | none => simp only [h1] at h; cases h
      | some l1 =>
        cases h2 : intArith (r + 1) with
        | none => simp only [h1, h2] at h; cases h
        | some r1 =>
          simp only [h1, h2] at h
          obtain ⟨e1, b1, b2⟩ := intArith_eq_some _ _ h1
          obtain ⟨e2, b3, b4⟩ := intArith_eq_some _ _ h2
          subst e1
          subst e2
          exact Or.inr (Or.inr ⟨hlt, hfull, b1, b2, b3, b4, h⟩)
  · rw [if_neg hlt] at h
    exact Or.inl ⟨hlt, (Option.some.inj h).symm⟩

/-- Whatever the budget, a result of the middle-out loop holds exactly `n` indices. -/
theorem middleOut_loop_length (n : Nat) :
    ∀ (fuel : Nat) (l r : Int) (acc out : List Nat), acc.length ≤ n →
      MyContainer.MiddleOutIterator.loop n fuel l r acc = some out → out.length = n := by
  intro fuel
  induction fuel with
  | zero => intro l r acc out _ h; cases h
  | succ fuel ih =>
    intro l r acc out hle h
    rcases middleOut_loop_succ n fuel l r acc out h with ⟨hlt, rfl⟩ | ⟨_, hfull, rfl⟩ |
      ⟨hlt, hfull, _, _, _, _, hrec⟩
    · omega
    · exact hfull
    · refine ih _ _ _ out ?_ hrec
      have h1 : (if l ≥ 0 then acc ++ [toSizeT l] else acc).length ≤ acc.length + 1 := by
        split <;> simp
      split
      · simp only [List.length_append, List.length_singleton]
        omega
      · omega

/-- Counting the pushes still possible: a result of the loop is never longer than the indices
already there, plus one per remaining non-negative `l`, plus one per remaining `r` below
`int(n)`. -/
theorem middleOut_loop_length_le (n : Nat) :
    ∀ (fuel : Nat) (l r : Int) (acc out : List Nat),
      MyContainer.MiddleOutIterator.loop n fuel l r acc = some out →
      out.length ≤ acc.length + (l + 1).toNat + (toInt n - r).toNat := by
  intro fuel
  induction fuel with
  | zero => intro l r acc out h; cases h
  | succ fuel ih =>
    intro l r acc out h
    rcases middleOut_loop_succ n fuel l r acc out h with ⟨_, rfl⟩ | ⟨_, _, rfl⟩ |
      ⟨_, _, _, _, _, _, hrec⟩
    · omega
    · by_cases hl : l ≥ 0
      · simp only [hl, if_true, List.length_append, List.length_singleton]
        omega
      · simp only [hl, if_false]
        omega
    · have := ih _ _ _ out hrec
      by_cases hl : l ≥ 0 <;> by_cases hr : r < toInt n <;>
        simp only [hl, hr, if_true, if_false, List.length_append, List.length_singleton]
          at this <;> omega

/-- A result of `initOrder` on two or more elements is a result of its loop, entered
without signed overflow. -/
theorem middleOut_initOrder_some (fuel : Nat) (c : MyContainer T) (p : List Nat)
    (h2 : ¬ c.data.length ≤ 1)
    (h : MyContainer.MiddleOutIterator.initOrder fuel c = some p) :
    -(2 ^ 31) ≤ toInt (c.data.length / 2) - 1 ∧ toInt (c.data.length / 2) + 1 < 2 ^ 31
    ∧ MyContainer.MiddleOutIterator.loop c.data.length fuel (toInt (c.data.length / 2) - 1)
        (toInt (c.data.length / 2) + 1) [toSizeT (toInt (c.data.length / 2))] = some p := by
  unfold MyContainer.MiddleOutIterator.initOrder at h
  rw [if_neg h2] at h
  dsimp only at h
  split at h
  · rename_i l1 r1 h1 h3
    obtain ⟨e1, b1, _⟩ := intArith_eq_some _ _ h1
    obtain ⟨e2, _, b4⟩ := intArith_eq_some _ _ h3
    rw [e1, e2] at h
    exact ⟨b1, b4, h⟩
  · cases h

/-- For a container of `2^31` elements or more, `initOrder` of the middle-out iterator has no
defined result, whatever the budget: the `int` bounds cannot count up to `n` indices. -/
theorem middleOut_initOrder_none_of_large (fuel : Nat) (c : MyContainer T)
    (hn : 2 ^ 31 ≤ c.data.length) :
    MyContainer.MiddleOutIterator.initOrder fuel c = none := by
  cases hres : MyContainer.MiddleOutIterator.initOrder fuel c with
  | none => rfl
  | some p =>
    exfalso
    obtain ⟨b1, b2, hloop⟩ := middleOut_initOrder_some fuel c p (by omega) hres
    have hlen := middleOut_loop_length _ _ _ _ _ p
      (by rw [List.length_singleton]; omega) hloop
    have hle := middleOut_loop_length_le _ _ _ _ _ p hloop
    simp only [List.length_singleton] at hle
    have e1 : toInt c.data.length = ((c.data.length : Int) + 2 ^ 31) % 2 ^ 32 - 2 ^ 31 := rfl
    have e2 : toInt (c.data.length / 2)
        = (((c.data.length / 2 : Nat) : Int) + 2 ^ 31) % 2 ^ 32 - 2 ^ 31 := rfl
    omega

theorem toSizeT_lt (x : Int) (n : Nat) (h0 : 0 ≤ x) (hx : x < n) (hn : n < 2 ^ 31) :
    toSizeT x < n := by
  unfold toSizeT
  omega

/-- Below `2^31` elements every index the loop pushes is a valid storage index, whatever the
budget. -/
theorem middleOut_loop_lt (n : Nat) (hn : n < 2 ^ 31) :
    ∀ (fuel : Nat) (l r : Int) (acc out : List Nat), l < n → 0 ≤ r →
      (∀ j ∈ acc, j < n) →
      MyContainer.MiddleOutIterator.loop n fuel l r acc = some out → ∀ j ∈ out, j < n := by
  intro fuel
  induction fuel with
  | zero => intro l r acc out _ _ _ h; cases h
  | succ fuel ih =>
    intro l r acc out hl hr hacc h
    have h1 : ∀ j ∈ (if l ≥ 0 then acc ++ [toSizeT l] else acc), j < n := by
      intro j hj
      by_cases hl0 : l ≥ 0
      · simp only [hl0, if_true, List.mem_append, List.mem_singleton] at hj
        rcases hj with hj | rfl
        · exact hacc j hj
        · exact toSizeT_lt l n hl0 hl hn
      · simp only [hl0, if_false] at hj
        exact hacc j hj
    rcases middleOut_loop_succ n fuel l r acc out h with ⟨_, rfl⟩ | ⟨_, _, rfl⟩ |
      ⟨_, _, _, _, _, _, hrec⟩
    · exact hacc
    · exact h1
    · refine ih _ _ _ out (by omega) (by omega) ?_ hrec
      intro j hj
      by_cases hrn : r < toInt n
      · simp only [hrn, if_true, List.mem_append, List.mem_singleton] at hj
        rcases hj with hj | rfl
        · exact h1 j hj
        · rw [toInt_of_lt n hn] at hrn
          exact toSizeT_lt r n hr hrn hn
      · simp only [hrn, if_false] at hj
        exact h1 j hj

/-- Whatever the size and the budget: a permutation returned by the middle-out `initOrder`
holds exactly `n` indices, each of them below `n`. -/
theorem middleOut_initOrder_valid (fuel : Nat) (c : MyContainer T) (p : List Nat)
    (h : MyContainer.MiddleOutIterator.initOrder fuel c = some p) :
    p.length = c.data.length ∧ ∀ j ∈ p, j < c.data.length := by
  by_cases h1 : c.data.length ≤ 1
  · unfold MyContainer.MiddleOutIterator.initOrder at h
    rw [if_pos h1] at h
    by_cases h0 : c.data.length = 1
    · rw [if_pos h0] at h
      cases h
      simp [h0]
    · rw [if_neg h0] at h
      cases h
      refine ⟨by simp; omega, ?_⟩
      intro j hj
      cases hj
  · by_cases hbig : 2 ^ 31 ≤ c.data.length
    · rw [middleOut_initOrder_none_of_large fuel c hbig] at h
      cases h
    · obtain ⟨b1, b2, hloop⟩ := middleOut_initOrder_some fuel c p h1 h
      have hmid : toInt (c.data.length / 2) = ((c.data.length / 2 : Nat) : Int) :=
        toInt_of_lt _ (by omega)
      refine ⟨middleOut_loop_length _ _ _ _ _ p
        (by rw [List.length_singleton]; omega) hloop, ?_⟩
      refine middleOut_loop_lt c.data.length (by omega) fuel _ _ _ p (by omega) (by omega) ?_
        hloop
      intro j hj
      rw [List.mem_singleton] at hj
      rw [hj]
      exact toSizeT_lt _ _ (by omega) (by omega) (by omega)

end MiddleOutAnySize

/-! ## Side-cross and middle-out permutations as bijections -/

section Bijections

variable {T : Type}

/-- A duplicate-free list of `n` numbers below `n` is a rearrangement of `0, …, n-1`. -/
theorem perm_range_of_nodup (p : List Nat) (n : Nat) (hlen : p.length = n)
    (hlt : ∀ j ∈ p, j < n) (hnd : p.Nodup) : p.Perm (List.range n) := by
  have hsub : p ⊆ List.range n := fun j hj => List.mem_range.2 (hlt j hj)
  exact (List.subperm_of_subset hnd hsub).perm_of_length_le (by simp [hlen])

theorem getElem?_ne_of_nodup (l : List Nat) (hnd : l.Nodup) (a b : Nat) (hab : a ≠ b)
    (ha : a < l.length) (hb : b < l.length) : l[a]? ≠ l[b]? := by
  rcases Nat.lt_or_gt_of_ne hab with h | h
  · exact List.nodup_iff_getElem?_ne_getElem?.1 hnd a b h hb
  · exact fun e => List.nodup_iff_getElem?_ne_getElem?.1 hnd b a h ha e.symm

/-- The side-cross permutation holds every index of `[0, n)` exactly once. -/
theorem sideCross_initOrder_perm [LinearOrder T] (sort : SortFn) (hs : StdSort sort)
    (fuel : Nat) (c : MyContainer T) (hsize : c.size < SIZE_MOD) (hfuel : c.size < fuel) :
    ∃ order : List Nat, MyContainer.SideCrossIterator.initOrder sort fuel c = some order
      ∧ order.Perm (List.range c.size) := by
  obtain ⟨order, hinit, hlen, hev, hod⟩ := sideCross_initOrder_spec sort hs fuel c hsize hfuel
  have hall := sideCross_initOrder_lt sort hs c order hlen hev hod
  have hperm := ascending_initOrder_perm sort hs c
  have halen := length_of_perm_range hperm
  have hand : (MyContainer.AscendingIterator.initOrder sort c).Nodup :=
    (hperm.nodup_iff).2 (List.nodup_range _)
  have hsrc : ∀ i, i < c.data.length → ∃ m, m < c.data.length
      ∧ order[i]? = (MyContainer.AscendingIterator.initOrder sort c)[m]?
      ∧ (i % 2 = 0 → m = i / 2) ∧ (i % 2 = 1 → m = c.data.length - 1 - i / 2) := by
    intro i hi
    rcases Nat.mod_two_eq_zero_or_one i with h0 | h1
    · refine ⟨i / 2, by omega, ?_, fun _ => rfl, fun h => by omega⟩
      have := hev (i / 2) (by omega)
      rwa [show 2 * (i / 2) = i by omega] at this
    · refine ⟨c.data.length - 1 - i / 2, by omega, ?_, fun h => by omega, fun _ => rfl⟩
      have := hod (i / 2) (by omega)
      rwa [show 2 * (i / 2) + 1 = i by omega] at this
  refine ⟨order, hinit, perm_range_of_nodup order c.size hlen hall ?_⟩
  rw [List.nodup_iff_getElem?_ne_getElem?]
  intro i j hij hj
  rw [hlen] at hj
  obtain ⟨a, ha, hia, ha0, ha1⟩ := hsrc i (by omega)
  obtain ⟨b, hb, hjb, hb0, hb1⟩ := hsrc j hj
  rw [hia, hjb]
  refine getElem?_ne_of_nodup _ hand a b ?_ (by omega) (by omega)
  rcases Nat.mod_two_eq_zero_or_one i with hi0 | hi1 <;>
    rcases Nat.mod_two_eq_zero_or_one j with hj0 | hj1
  · have := ha0 hi0; have := hb0 hj0; omega
  · have := ha0 hi0; have := hb1 hj1; omega
  · have := ha1 hi1; have := hb0 hj0; omega
  · have := ha1 hi1; have := hb1 hj1; omega

/-- Below `2^31` elements the middle-out permutation holds every index of `[0, n)` exactly
once. -/
theorem middleOut_initOrder_perm (fuel : Nat) (c : MyContainer T)
    (hn : c.size < 2 ^ 31) (hfuel : c.size < fuel) :
    ∃ p : List Nat, MyContainer.MiddleOutIterator.initOrder fuel c = some p
      ∧ p.Perm (List.range c.size) := by
  by_cases h0 : c.size = 0
  · refine ⟨[], ?_, by simp [h0]⟩
    unfold MyContainer.size at h0
    simp [MyContainer.MiddleOutIterator.initOrder, h0]
  · obtain ⟨p, hinit, hlen, hp0, hodd, hev⟩ :=
      middleOut_initOrder_spec fuel c (by omega) hn hfuel
    have hall := middleOut_initOrder_lt c.size p hlen hp0 hodd hev
    have hsrc : ∀ i, i < c.size → ∃ m, p[i]? = some m
        ∧ (i = 0 → m = c.size / 2)
        ∧ (i ≠ 0 → i % 2 = 1 → m = c.size / 2 - (i + 1) / 2)
        ∧ (i ≠ 0 → i % 2 = 0 → m = c.size / 2 + i / 2) := by
      intro i hi
      by_cases hi0 : i = 0
      · subst hi0
        exact ⟨_, hp0, fun _ => rfl, fun h => absurd rfl h, fun h => absurd rfl h⟩
      · rcases Nat.mod_two_eq_zero_or_one i with h0 | h1
        · refine ⟨_, ?_, fun h => absurd h hi0, fun _ h => by omega, fun _ _ => rfl⟩
          have := hev (i / 2) (by omega) (by omega)
          rwa [show 2 * (i / 2) = i by omega] at this
        · refine ⟨_, ?_, fun h => absurd h hi0, fun _ _ => rfl, fun _ h => by omega⟩
          have := hodd ((i + 1) / 2) (by omega) (by omega)
          rwa [show 2 * ((i + 1) / 2) - 1 = i by omega] at this
    refine ⟨p, hinit, perm_range_of_nodup p c.size hlen hall ?_⟩
    rw [List.nodup_iff_getElem?_ne_getElem?]
    intro i j hij hj
    rw [hlen] at hj
    obtain ⟨a, hia, ha0, ha1, ha2⟩ := hsrc i (by omega)
    obtain ⟨b, hjb, _, hb1, hb2⟩ := hsrc j hj
    rw [hia, hjb]
    intro heq
    have hab : a = b := Option.some.inj heq
    have hj0 : j ≠ 0 := by omega
    by_cases hi0 : i = 0
    · have := ha0 hi0
      rcases Nat.mod_two_eq_zero_or_one j with hj2 | hj2
      · have := hb2 hj0 hj2; omega
      · have := hb1 hj0 hj2; omega
    · rcases Nat.mod_two_eq_zero_or_one i with hi2 | hi2 <;>
        rcases Nat.mod_two_eq_zero_or_one j with hj2 | hj2
      · have := ha2 hi0 hi2; have := hb2 hj0 hj2; omega
      · have := ha2 hi0 hi2; have := hb1 hj0 hj2; omega
      · have := ha1 hi0 hi2; have := hb2 hj0 hj2; omega
      · have := ha1 hi0 hi2; have := hb1 hj0 hj2; omega

/-- C11 at a failing input: for a container of `2^31` elements the middle-out `initOrder`
returns no permutation at all, so none that holds every index of `[0, n)` once; the defect
is the `int` arithmetic of `initOrder`, as for C10. -/
theorem middleOut_no_permutation_at_two_pow_31 (fuel : Nat) :
    ¬ ∃ p : List Nat,
        MyContainer.MiddleOutIterator.initOrder fuel
          (⟨List.replicate (2 ^ 31) 0⟩ : MyContainer Nat) = some p
        ∧ p.Perm (List.range (2 ^ 31)) := by
  rintro ⟨p, hp, _⟩
  have hnone := middleOut_initOrder_none_of_large fuel
    (⟨List.replicate (2 ^ 31) 0⟩ : MyContainer Nat) (List.length_replicate _ _).ge
  rw [hnone] at hp
  cases hp

end Bijections

/-! ## Dereferencing a cursor -/

section Deref

variable {T : Type}

theorem orderIterator_deref_eq (it : MyContainer.OrderIterator) (c : MyContainer T) :
    it.deref c = vectorAt c.data it.storageIndex := rfl

theorem reverseIterator_deref_eq (it : MyContainer.ReverseIterator) (c : MyContainer T) :
    it.deref c = vectorAt c.data (it.storageIndex c) := rfl

/-- Inside the container the reverse cursor at position `p` reads index `n - 1 - p`. -/
theorem reverse_storageIndex_of_lt (self p : Nat) (c : MyContainer T)
    (hsize : c.size < SIZE_MOD) (hp : p < c.size) :
    MyContainer.ReverseIterator.storageIndex ⟨self, p⟩ c = c.size - 1 - p := by
  unfold MyContainer.size SIZE_MOD at *
  unfold MyContainer.ReverseIterator.storageIndex SIZE_MOD
  simp only
  omega

/-- At or past the end the subtraction `size - 1 - p` wraps around on `std::size_t`: the
reverse cursor reads index `size + 2^64 - 1 - p`, which is not below the size. -/
theorem reverse_storageIndex_of_ge (self p : Nat) (c : MyContainer T)
    (hsize : c.size < SIZE_MOD) (hp64 : p < SIZE_MOD) (hp : c.size ≤ p) :
    MyContainer.ReverseIterator.storageIndex ⟨self, p⟩ c = c.size + SIZE_MOD - 1 - p
    ∧ c.size ≤ MyContainer.ReverseIterator.storageIndex ⟨self, p⟩ c := by
  unfold MyContainer.size SIZE_MOD at *
  unfold MyContainer.ReverseIterator.storageIndex SIZE_MOD
  simp only
  omega

theorem derefOrder_of_ge (data : List T) (order : List Nat) (p : Nat)
    (h : order.length ≤ p) : derefOrder data order p = Except.error Exn.out_of_range := by
  simp [derefOrder, vectorAt_of_ge order p h]

theorem derefOrder_of_lt (data : List T) (order : List Nat) (p : Nat)
    (hall : ∀ j ∈ order, j < data.length) (hp : p < order.length) :
    ∃ (j : Nat) (x : T), order[p]? = some j ∧ j < data.length ∧ data[j]? = some x
      ∧ derefOrder data order p = Except.ok x := by
  have hj : order[p] < data.length := hall _ (List.getElem_mem hp)
  refine ⟨order[p], data[order[p]], List.getElem?_eq_getElem hp, hj,
    List.getElem?_eq_getElem hj, ?_⟩
  simp [derefOrder, vectorAt_of_lt order p hp, vectorAt_of_lt data _ hj]

theorem sideCross_new_eq [LinearOrder T] (sort : SortFn) (fuel self : Nat) (c : MyContainer T)
    (i : Nat) (order : List Nat)
    (h : MyContainer.SideCrossIterator.initOrder sort fuel c = some order) :
    MyContainer.SideCrossIterator.new sort fuel self c i = some ⟨self, order, i⟩ := by
  simp only [MyContainer.SideCrossIterator.new, h]

theorem middleOut_new_eq (fuel self : Nat) (c : MyContainer T) (i : Nat) (order : List Nat)
    (h : MyContainer.MiddleOutIterator.initOrder fuel c = some order) :
    MyContainer.MiddleOutIterator.new fuel self c i = some ⟨self, order, i⟩ := by
  simp only [MyContainer.MiddleOutIterator.new, h]

/-- A middle-out cursor that the constructor returns carries a permutation returned by
`initOrder`. -/
theorem middleOut_new_some (fuel self : Nat) (c : MyContainer T) (i : Nat)
    (it : MyContainer.MiddleOutIterator)
    (h : MyContainer.MiddleOutIterator.new fuel self c i = some it) :
    MyContainer.MiddleOutIterator.initOrder fuel c = some it.order
    ∧ it.cont = self ∧ it.index = i := by
  unfold MyContainer.MiddleOutIterator.new at h
  split at h
  · cases h
  · rename_i order horder
    cases h
    exact ⟨horder, rfl, rfl⟩

theorem collectReverse_eq (fuel self : Nat) (c : MyContainer T)
    (hsize : c.size < SIZE_MOD) (hfuel : c.size < fuel) :
    c.collectReverse fuel self = some (Except.ok c.data.reverse) := by
  have hidx := fun p hp => reverse_storageIndex_of_lt self p c hsize hp
  unfold MyContainer.size at hsize hfuel hidx
  have hlen : c.data.reverse.length = c.data.length := List.length_reverse _
  have key := collect_family MyContainer.ReverseIterator.ne MyContainer.ReverseIterator.inc
    (fun it => it.deref c)
    (fun p => (⟨self, p⟩ : MyContainer.ReverseIterator)) c.data.reverse
    (by
      intro p hp
      simp [MyContainer.ReverseIterator.inc, succ_mod_size p _ (hlen ▸ hp) hsize])
    (by
      intro p hp
      simp [MyContainer.ReverseIterator.ne, MyContainer.ReverseIterator.eq]
      omega)
    (by simp [MyContainer.ReverseIterator.ne, MyContainer.ReverseIterator.eq])
    (by
      intro p hp
      have hp' : p < c.data.length := hlen ▸ hp
      have hlt : c.data.length - 1 - p < c.data.length := by omega
      show vectorAt c.data (MyContainer.ReverseIterator.storageIndex ⟨self, p⟩ c) = _
      rw [hidx p hp', vectorAt_of_lt _ _ hlt, List.getElem_reverse])
    fuel (by omega)
  rw [hlen] at key
  exact key

/-- C12: the reverse traversal of a container of `n` elements reads storage indices
`n-1, n-2, …, 0` at positions `0, 1, …, n-1`, and the sequence it yields is the reverse of
the sequence the insertion-order traversal yields. -/
theorem collectReverse_reverse (fuel self : Nat) (c : MyContainer T)
    (hsize : c.size < SIZE_MOD) (hfuel : c.size < fuel) :
    (∀ p, p < c.size →
      MyContainer.ReverseIterator.storageIndex ⟨self, p⟩ c = c.size - 1 - p
      ∧ MyContainer.ReverseIterator.deref ⟨self, p⟩ c
          = vectorAt c.data (c.size - 1 - p))
    ∧ ∃ ins rev : List T, c.collectOrder fuel self = some (Except.ok ins)
        ∧ c.collectReverse fuel self = some (Except.ok rev)
        ∧ ins = c.data ∧ rev = ins.reverse := by
  refine ⟨?_, c.data, c.data.reverse, collectOrder_eq fuel self c hsize hfuel,
    collectReverse_eq fuel self c hsize hfuel, rfl, rfl⟩
  intro p hp
  refine ⟨reverse_storageIndex_of_lt self p c hsize hp, ?_⟩
  rw [reverseIterator_deref_eq, reverse_storageIndex_of_lt self p c hsize hp]

/-- Witness for C12 on the container of the test "ReverseIterator ordering". -/
theorem collectReverse_reverse_witness :
    ∃ ins rev : List Nat,
      MyContainer.collectOrder 6 0 ⟨[7, 15, 6, 1, 2]⟩ = some (Except.ok ins)
      ∧ MyContainer.collectReverse 6 0 ⟨[7, 15, 6, 1, 2]⟩ = some (Except.ok rev)
      ∧ ins = [7, 15, 6, 1, 2] ∧ rev = ins.reverse :=
  (collectReverse_reverse 6 0 (⟨[7, 15, 6, 1, 2]⟩ : MyContainer Nat)
    (by decide) (by decide)).2

/-- In a container of `n` elements, a cursor whose position `p` is at or past `n` (the end
cursor or an over-advanced one; positions are `std::size_t` values) fails to dereference
with `out_of_range`: for the insertion, reverse, ascending, descending and side-cross orders
at every size, and for the middle-out order below `2^31` elements, where the constructor
returns a cursor. For the reverse order the index read is `n - 1 - p` wrapped around on 64
bits, which is not below `n`. -/
theorem deref_out_of_range_below_int_max [LinearOrder T] (sort : SortFn) (hs : StdSort sort)
    (fuel self : Nat) (c : MyContainer T) (p : Nat)
    (hsize : c.size < SIZE_MOD) (hp64 : p < SIZE_MOD) (hfuel : c.size < fuel)
    (hp : c.size ≤ p) :
    MyContainer.OrderIterator.deref ⟨self, p⟩ c = Except.error Exn.out_of_range
    ∧ (MyContainer.ReverseIterator.deref ⟨self, p⟩ c = Except.error Exn.out_of_range
        ∧ MyContainer.ReverseIterator.storageIndex ⟨self, p⟩ c = c.size + SIZE_MOD - 1 - p)
    ∧ (MyContainer.AscendingIterator.new sort self c p).deref c
        = Except.error Exn.out_of_range
    ∧ (MyContainer.DescendingIterator.new sort self c p).deref c
        = Except.error Exn.out_of_range
    ∧ (∃ it, MyContainer.SideCrossIterator.new sort fuel self c p = some it
        ∧ it.deref c = Except.error Exn.out_of_range)
    ∧ (c.size < 2 ^ 31 → ∃ it, MyContainer.MiddleOutIterator.new fuel self c p = some it
        ∧ it.deref c = Except.error Exn.out_of_range) := by
  have hrev := reverse_storageIndex_of_ge self p c hsize hp64 hp
  refine ⟨?_, ⟨?_, hrev.1⟩, ?_, ?_, ?_, ?_⟩
  · exact vectorAt_of_ge _ _ hp
  · rw [reverseIterator_deref_eq]
    exact vectorAt_of_ge _ _ hrev.2
  · refine derefOrder_of_ge _ _ _ ?_
    show (MyContainer.AscendingIterator.initOrder sort c).length ≤ p
    rw [length_of_perm_range (ascending_initOrder_perm sort hs c)]
    exact hp
  · refine derefOrder_of_ge _ _ _ ?_
    show (MyContainer.DescendingIterator.initOrder sort c).length ≤ p
    rw [length_of_perm_range (descending_initOrder_perm sort hs c)]
    exact hp
  · obtain ⟨order, hinit, hlen, _, _⟩ := sideCross_initOrder_spec sort hs fuel c hsize hfuel
    refine ⟨⟨self, order, p⟩, sideCross_new_eq sort fuel self c p order hinit, ?_⟩
    exact derefOrder_of_ge _ _ _ (by rw [hlen]; exact hp)
  · intro hn
    obtain ⟨order, hinit, _⟩ := middleOut_initOrder_perm fuel c hn hfuel
    have hlen := (middleOut_initOrder_valid fuel c order hinit).1
    refine ⟨⟨self, order, p⟩, middleOut_new_eq fuel self c p order hinit, ?_⟩
    exact derefOrder_of_ge _ _ _ (by rw [hlen]; exact hp)

/-- Instance of `deref_out_of_range_below_int_max` on the test "Dereference end() throws
out_of_range": container `[1]`, position `1`. -/
theorem deref_out_of_range_below_int_max_witness :
    MyContainer.OrderIterator.deref ⟨0, 1⟩ (⟨[1]⟩ : MyContainer Nat)
      = Except.error Exn.out_of_range
    ∧ (∃ it, MyContainer.SideCrossIterator.new insertionSortBy 2 0 (⟨[1]⟩ : MyContainer Nat) 1
        = some it ∧ it.deref (⟨[1]⟩ : MyContainer Nat) = Except.error Exn.out_of_range)
    ∧ ∃ it, MyContainer.MiddleOutIterator.new 2 0 (⟨[1]⟩ : MyContainer Nat) 1 = some it
        ∧ it.deref (⟨[1]⟩ : MyContainer Nat) = Except.error Exn.out_of_range :=
  ⟨(deref_out_of_range_below_int_max insertionSortBy insertionSortBy_stdSort 2 0
      (⟨[1]⟩ : MyContainer Nat) 1 (by decide) (by decide) (by decide) (by decide)).1,
   (deref_out_of_range_below_int_max insertionSortBy insertionSortBy_stdSort 2 0
      (⟨[1]⟩ : MyContainer Nat) 1 (by decide) (by decide) (by decide) (by decide)).2.2.2.2.1,
   (deref_out_of_range_below_int_max insertionSortBy insertionSortBy_stdSort 2 0
      (⟨[1]⟩ : MyContainer Nat) 1 (by decide) (by decide) (by decide) (by decide)).2.2.2.2.2
      (by decide)⟩

theorem middleOut_new_none_of_large (fuel self : Nat) (c : MyContainer T) (i : Nat)
    (hn : 2 ^ 31 ≤ c.data.length) :
    MyContainer.MiddleOutIterator.new fuel self c i = none := by
  simp only [MyContainer.MiddleOutIterator.new, middleOut_initOrder_none_of_large fuel c hn]

theorem middleOut_begin_none_of_large (fuel self : Nat) (c : MyContainer T)
    (hn : 2 ^ 31 ≤ c.data.length) : c.begin_middle_out_order fuel self = none :=
  middleOut_new_none_of_large fuel self c 0 hn

theorem middleOut_end_none_of_large (fuel self : Nat) (c : MyContainer T)
    (hn : 2 ^ 31 ≤ c.data.length) : c.end_middle_out_order fuel self = none :=
  middleOut_new_none_of_large fuel self c c.data.length hn

theorem collectMiddleOut_none_of_large (fuel self : Nat) (c : MyContainer T)
    (hn : 2 ^ 31 ≤ c.data.length) : c.collectMiddleOut fuel self = none := by
  unfold MyContainer.collectMiddleOut
  rw [middleOut_begin_none_of_large fuel self c hn]

/-- C13 at a failing input: on a container of `2^31` elements the constructor of the
middle-out cursor has no defined result at any position `p`, whatever the budget, because
it runs `initOrder` (the `int` defect of C10). `c.end_middle_out_order()` returns no cursor,
so dereferencing the middle-out end cursor, or any over-advanced one, does not fail with
`out_of_range`. -/
theorem middleOut_end_deref_fails_at_two_pow_31 (fuel self p : Nat) :
    MyContainer.end_middle_out_order fuel self
        (⟨List.replicate (2 ^ 31) 0⟩ : MyContainer Nat) = none
    ∧ MyContainer.MiddleOutIterator.new fuel self
        (⟨List.replicate (2 ^ 31) 0⟩ : MyContainer Nat) p = none
    ∧ ¬ ∃ it, MyContainer.MiddleOutIterator.new fuel self
          (⟨List.replicate (2 ^ 31) 0⟩ : MyContainer Nat) p = some it
        ∧ it.deref (⟨List.replicate (2 ^ 31) 0⟩ : MyContainer Nat)
          = Except.error Exn.out_of_range := by
  have hnew := middleOut_new_none_of_large fuel self
    (⟨List.replicate (2 ^ 31) 0⟩ : MyContainer Nat) p (List.length_replicate _ _).ge
  refine ⟨middleOut_end_none_of_large fuel self _ (List.length_replicate _ _).ge, hnew, ?_⟩
  rintro ⟨it, hit, _⟩
  rw [hnew] at hit
  cases hit

/-- In a container of `n` elements that is not mutated, a cursor at a position `p < n`
dereferences successfully: insertion order returns `storage[p]`, reverse order
`storage[n-1-p]`, the ascending, descending and side-cross orders `storage[order[p]]`, where
every entry of `order` is a valid index below `n`; the same holds for the middle-out order
below `2^31` elements, where the constructor returns a cursor. -/
theorem deref_in_range_below_int_max [LinearOrder T] (sort : SortFn) (hs : StdSort sort)
    (fuel self : Nat) (c : MyContainer T) (p : Nat)
    (hsize : c.size < SIZE_MOD) (hfuel : c.size < fuel) (hp : p < c.size) :
    (∃ x, c.data[p]? = some x ∧ MyContainer.OrderIterator.deref ⟨self, p⟩ c = Except.ok x)
    ∧ (∃ x, c.data[c.size - 1 - p]? = some x
        ∧ MyContainer.ReverseIterator.deref ⟨self, p⟩ c = Except.ok x)
    ∧ ((∀ j ∈ MyContainer.AscendingIterator.initOrder sort c, j < c.size)
        ∧ ∃ (j : Nat) (x : T), (MyContainer.AscendingIterator.initOrder sort c)[p]? = some j
          ∧ j < c.size ∧ c.data[j]? = some x
          ∧ (MyContainer.AscendingIterator.new sort self c p).deref c = Except.ok x)
    ∧ ((∀ j ∈ MyContainer.DescendingIterator.initOrder sort c, j < c.size)
        ∧ ∃ (j : Nat) (x : T), (MyContainer.DescendingIterator.initOrder sort c)[p]? = some j
          ∧ j < c.size ∧ c.data[j]? = some x
          ∧ (MyContainer.DescendingIterator.new sort self c p).deref c = Except.ok x)
    ∧ (∃ it, MyContainer.SideCrossIterator.new sort fuel self c p = some it
        ∧ (∀ j ∈ it.order, j < c.size)
        ∧ ∃ (j : Nat) (x : T), it.order[p]? = some j ∧ j < c.size ∧ c.data[j]? = some x
          ∧ it.deref c = Except.ok x)
    ∧ (c.size < 2 ^ 31 → ∃ it, MyContainer.MiddleOutIterator.new fuel self c p = some it
        ∧ (∀ j ∈ it.order, j < c.size)
        ∧ ∃ (j : Nat) (x : T), it.order[p]? = some j ∧ j < c.size ∧ c.data[j]? = some x
          ∧ it.deref c = Except.ok x) := by
  have hp' : p < c.data.length := hp
  have hrev : c.size - 1 - p < c.data.length := by
    unfold MyContainer.size
    omega
  have hasc := ascending_initOrder_perm sort hs c
  have hdesc := descending_initOrder_perm sort hs c
  refine ⟨⟨c.data[p], List.getElem?_eq_getElem hp', vectorAt_of_lt _ _ hp'⟩,
    ⟨c.data[c.size - 1 - p], List.getElem?_eq_getElem hrev, ?_⟩,
    ⟨mem_lt_of_perm_range hasc, ?_⟩, ⟨mem_lt_of_perm_range hdesc, ?_⟩, ?_, ?_⟩
  · rw [reverseIterator_deref_eq, reverse_storageIndex_of_lt self p c hsize hp]
    exact vectorAt_of_lt _ _ hrev
  · exact derefOrder_of_lt c.data _ p (mem_lt_of_perm_range hasc)
      (by rw [length_of_perm_range hasc]; exact hp')
  · exact derefOrder_of_lt c.data _ p (mem_lt_of_perm_range hdesc)
      (by rw [length_of_perm_range hdesc]; exact hp')
  · obtain ⟨order, hinit, hlen, hev, hod⟩ :=
      sideCross_initOrder_spec sort hs fuel c hsize hfuel
    have hall := sideCross_initOrder_lt sort hs c order hlen hev hod
    exact ⟨⟨self, order, p⟩, sideCross_new_eq sort fuel self c p order hinit, hall,
      derefOrder_of_lt c.data order p hall (by rw [hlen]; exact hp')⟩
  · intro hn
    obtain ⟨order, hinit, _⟩ := middleOut_initOrder_perm fuel c hn hfuel
    obtain ⟨hlen, hall⟩ := middleOut_initOrder_valid fuel c order hinit
    exact ⟨⟨self, order, p⟩, middleOut_new_eq fuel self c p order hinit, hall,
      derefOrder_of_lt c.data order p hall (by rw [hlen]; exact hp')⟩

/-- Instance of `deref_in_range_below_int_max` on the container of the test "Iterator copy
semantics": `[5,4,3]`, position `1`. -/
theorem deref_in_range_below_int_max_witness :
    (∃ x, ([5, 4, 3] : List Nat)[1]? = some x
      ∧ MyContainer.OrderIterator.deref ⟨0, 1⟩ (⟨[5, 4, 3]⟩ : MyContainer Nat) = Except.ok x)
    ∧ ∃ it, MyContainer.MiddleOutIterator.new 4 0 (⟨[5, 4, 3]⟩ : MyContainer Nat) 1 = some it
        ∧ (∀ j ∈ it.order, j < MyContainer.size (⟨[5, 4, 3]⟩ : MyContainer Nat))
        ∧ ∃ (j : Nat) (x : Nat), it.order[1]? = some j
          ∧ j < MyContainer.size (⟨[5, 4, 3]⟩ : MyContainer Nat)
          ∧ ([5, 4, 3] : List Nat)[j]? = some x
          ∧ it.deref (⟨[5, 4, 3]⟩ : MyContainer Nat) = Except.ok x :=
  ⟨(deref_in_range_below_int_max insertionSortBy insertionSortBy_stdSort 4 0
      (⟨[5, 4, 3]⟩ : MyContainer Nat) 1 (by decide) (by decide) (by decide)).1,
   (deref_in_range_below_int_max insertionSortBy insertionSortBy_stdSort 4 0
      (⟨[5, 4, 3]⟩ : MyContainer Nat) 1 (by decide) (by decide) (by decide)).2.2.2.2.2
      (by decide)⟩

/-- C20 at a failing input: on a container of `2^31` elements that is never mutated,
`c.begin_middle_out_order()` returns no cursor, whatever the budget, and no middle-out
cursor at any position `p` is constructed (the `int` defect of C10): no dereference at a
position `p < n` returns an element, and no permutation with entries below `n` exists. -/
theorem middleOut_deref_fails_at_two_pow_31 (fuel self p : Nat) :
    MyContainer.begin_middle_out_order fuel self
        (⟨List.replicate (2 ^ 31) 0⟩ : MyContainer Nat) = none
    ∧ MyContainer.MiddleOutIterator.initOrder fuel
        (⟨List.replicate (2 ^ 31) 0⟩ : MyContainer Nat) = none
    ∧ ¬ ∃ (it : MyContainer.MiddleOutIterator) (x : Nat),
        MyContainer.MiddleOutIterator.new fuel self
          (⟨List.replicate (2 ^ 31) 0⟩ : MyContainer Nat) p = some it
        ∧ it.deref (⟨List.replicate (2 ^ 31) 0⟩ : MyContainer Nat) = Except.ok x := by
  have hnew := middleOut_new_none_of_large fuel self
    (⟨List.replicate (2 ^ 31) 0⟩ : MyContainer Nat) p (List.length_replicate _ _).ge
  refine ⟨middleOut_begin_none_of_large fuel self _ (List.length_replicate _ _).ge,
    middleOut_initOrder_none_of_large fuel _ (List.length_replicate _ _).ge, ?_⟩
  rintro ⟨it, x, hit, _⟩
  rw [hnew] at hit
  cases hit

end Deref

/-! ## Cursor comparison -/

section Comparison

variable {T : Type}

theorem orderIterator_eq_iff (a b : MyContainer.OrderIterator) :
    a.eq b = true ↔ a.cont = b.cont ∧ a.index = b.index := by
  simp [MyContainer.OrderIterator.eq]

theorem reverseIterator_eq_iff (a b : MyContainer.ReverseIterator) :
    a.eq b = true ↔ a.cont = b.cont ∧ a.index = b.index := by
  simp [MyContainer.ReverseIterator.eq]

theorem ascendingIterator_eq_iff (a b : MyContainer.AscendingIterator) :
    a.eq b = true ↔ a.cont = b.cont ∧ a.index = b.index := by
  simp [MyContainer.AscendingIterator.eq]

theorem descendingIterator_eq_iff (a b : MyContainer.DescendingIterator) :
    a.eq b = true ↔ a.cont = b.cont ∧ a.index = b.index := by
  simp [MyContainer.DescendingIterator.eq]

theorem sideCrossIterator_eq_iff (a b : MyContainer.SideCrossIterator) :
    a.eq b = true ↔ a.cont = b.cont ∧ a.index = b.index := by
  simp [MyContainer.SideCrossIterator.eq]

theorem middleOutIterator_eq_iff (a b : MyContainer.MiddleOutIterator) :
    a.eq b = true ↔ a.cont = b.cont ∧ a.index = b.index := by
  simp [MyContainer.MiddleOutIterator.eq]

theorem sideCross_new_some [LinearOrder T] (sort : SortFn) (fuel self : Nat)
    (c : MyContainer T) (i : Nat) (it : MyContainer.SideCrossIterator)
    (h : MyContainer.SideCrossIterator.new sort fuel self c i = some it) :
    MyContainer.SideCrossIterator.initOrder sort fuel c = some it.order
    ∧ it.cont = self ∧ it.index = i := by
  unfold MyContainer.SideCrossIterator.new at h
  split at h
  · cases h
  · rename_i order horder
    cases h
    exact ⟨horder, rfl, rfl⟩

/-- C14: for each of the six cursor types, `a == b` holds exactly when both cursors point to
the same container object and have the same position (the `order` vectors are not compared),
and `a != b` is its negation. Begin cursors of two distinct container objects `self1`,
`self2` compare unequal whatever the contents, equal contents included; two begin cursors of
one container object compare equal. -/
theorem cursor_eq_iff_same_container_and_position [LinearOrder T] (sort : SortFn)
    (fuel self1 self2 : Nat) (c1 c2 : MyContainer T) (hself : self1 ≠ self2) :
    ((∀ a b : MyContainer.OrderIterator,
        (a.eq b = true ↔ a.cont = b.cont ∧ a.index = b.index) ∧ a.ne b = !a.eq b)
      ∧ (∀ a b : MyContainer.ReverseIterator,
        (a.eq b = true ↔ a.cont = b.cont ∧ a.index = b.index) ∧ a.ne b = !a.eq b)
      ∧ (∀ a b : MyContainer.AscendingIterator,
        (a.eq b = true ↔ a.cont = b.cont ∧ a.index = b.index) ∧ a.ne b = !a.eq b)
      ∧ (∀ a b : MyContainer.DescendingIterator,
        (a.eq b = true ↔ a.cont = b.cont ∧ a.index = b.index) ∧ a.ne b = !a.eq b)
      ∧ (∀ a b : MyContainer.SideCrossIterator,
        (a.eq b = true ↔ a.cont = b.cont ∧ a.index = b.index) ∧ a.ne b = !a.eq b)
      ∧ (∀ a b : MyContainer.MiddleOutIterator,
        (a.eq b = true ↔ a.cont = b.cont ∧ a.index = b.index) ∧ a.ne b = !a.eq b))
    ∧ ((c1.begin_order self1).eq (c2.begin_order self2) = false
      ∧ (c1.begin_reverse_order self1).eq (c2.begin_reverse_order self2) = false
      ∧ (c1.begin_ascending_order sort self1).eq (c2.begin_ascending_order sort self2) = false
      ∧ (c1.begin_descending_order sort self1).eq (c2.begin_descending_order sort self2)
          = false
      ∧ (∀ a b, c1.begin_side_cross_order sort fuel self1 = some a →
          c2.begin_side_cross_order sort fuel self2 = some b → a.eq b = false)
      ∧ (∀ a b, c1.begin_middle_out_order fuel self1 = some a →
          c2.begin_middle_out_order fuel self2 = some b → a.eq b = false))
    ∧ ((c1.begin_order self1).eq (c1.begin_order self1) = true
      ∧ (c1.begin_reverse_order self1).eq (c1.begin_reverse_order self1) = true
      ∧ (c1.begin_ascending_order sort self1).eq (c1.begin_ascending_order sort self1) = true
      ∧ (c1.begin_descending_order sort self1).eq (c1.begin_descending_order sort self1)
          = true
      ∧ (∀ a b, c1.begin_side_cross_order sort fuel self1 = some a →
          c1.begin_side_cross_order sort fuel self1 = some b → a.eq b = true)
      ∧ (∀ a b, c1.begin_middle_out_order fuel self1 = some a →
          c1.begin_middle_out_order fuel self1 = some b → a.eq b = true)) := by
  refine ⟨⟨fun a b => ⟨orderIterator_eq_iff a b, rfl⟩,
    fun a b => ⟨reverseIterator_eq_iff a b, rfl⟩,
    fun a b => ⟨ascendingIterator_eq_iff a b, rfl⟩,
    fun a b => ⟨descendingIterator_eq_iff a b, rfl⟩,
    fun a b => ⟨sideCrossIterator_eq_iff a b, rfl⟩,
    fun a b => ⟨middleOutIterator_eq_iff a b, rfl⟩⟩,
    ⟨?_, ?_, ?_, ?_, ?_, ?_⟩, ⟨?_, ?_, ?_, ?_, ?_, ?_⟩⟩
  · simp [MyContainer.OrderIterator.eq, MyContainer.begin_order, hself]
  · simp [MyContainer.ReverseIterator.eq, MyContainer.begin_reverse_order, hself]
  · simp [MyContainer.AscendingIterator.eq, MyContainer.begin_ascending_order,
      MyContainer.AscendingIterator.new, hself]
  · simp [MyContainer.DescendingIterator.eq, MyContainer.begin_descending_order,
      MyContainer.DescendingIterator.new, hself]
  · intro a b ha hb
    obtain ⟨_, ha1, _⟩ := sideCross_new_some sort fuel self1 c1 0 a ha
    obtain ⟨_, hb1, _⟩ := sideCross_new_some sort fuel self2 c2 0 b hb
    simp [MyContainer.SideCrossIterator.eq, ha1, hb1, hself]
  · intro a b ha hb
    obtain ⟨_, ha1, _⟩ := middleOut_new_some fuel self1 c1 0 a ha
    obtain ⟨_, hb1, _⟩ := middleOut_new_some fuel self2 c2 0 b hb
    simp [MyContainer.MiddleOutIterator.eq, ha1, hb1, hself]
  · simp [MyContainer.OrderIterator.eq]
  · simp [MyContainer.ReverseIterator.eq]
  · simp [MyContainer.AscendingIterator.eq]
  · simp [MyContainer.DescendingIterator.eq]
  · intro a b ha hb
    rw [ha] at hb
    cases hb
    simp [MyContainer.SideCrossIterator.eq]
  · intro a b ha hb
    rw [ha] at hb
    cases hb
    simp [MyContainer.MiddleOutIterator.eq]

/-- Witness for C14 on the test "Iterator comparison across containers": two containers
holding `[1,2,3]`, at addresses `0` and `1`. -/
theorem cursor_eq_iff_same_container_and_position_witness :
    (MyContainer.begin_ascending_order insertionSortBy 0 (⟨[1, 2, 3]⟩ : MyContainer Nat)).eq
        (MyContainer.begin_ascending_order insertionSortBy 1 (⟨[1, 2, 3]⟩ : MyContainer Nat))
      = false
    ∧ (MyContainer.begin_ascending_order insertionSortBy 0 (⟨[1, 2, 3]⟩ : MyContainer Nat)).eq
        (MyContainer.begin_ascending_order insertionSortBy 0 (⟨[1, 2, 3]⟩ : MyContainer Nat))
      = true :=
  ⟨(cursor_eq_iff_same_container_and_position insertionSortBy 4 0 1
      (⟨[1, 2, 3]⟩ : MyContainer Nat) ⟨[1, 2, 3]⟩ (by decide)).2.1.2.2.1,
   (cursor_eq_iff_same_container_and_position insertionSortBy 4 0 1
      (⟨[1, 2, 3]⟩ : MyContainer Nat) ⟨[1, 2, 3]⟩ (by decide)).2.2.2.2.1⟩

end Comparison

/-! ## Streaming -/

section Streaming

variable {T : Type}

theorem streamOut_foldl (toText : T → String) (l : List T) :
    ∀ os : String, l.foldl (fun os e => os ++ toText e ++ " ") os
      = os ++ MyContainer.elementsText toText l := by
  induction l with
  | nil => intro os; simp [MyContainer.elementsText]
  | cons e es ih =>
    intro os
    rw [List.foldl_cons, ih]
    simp only [MyContainer.elementsText, String.append_assoc]

/-- C17: streaming a container writes `"[ "`, then each element's text followed by one space,
in insertion order, then `"]"`; a container holding `"a"`, `"bb"` renders as `"[ a bb ]"`
and the empty container as `"[ ]"`. -/
theorem streamOut_eq (toText : T → String) (os : String) (c : MyContainer T) :
    c.streamOut toText os = os ++ "[ " ++ MyContainer.elementsText toText c.data ++ "]"
    ∧ MyContainer.streamOut (fun s : String => s) "" ⟨["a", "bb"]⟩ = "[ a bb ]"
    ∧ MyContainer.streamOut toText "" (MyContainer.empty : MyContainer T) = "[ ]" := by
  refine ⟨?_, by decide, ?_⟩
  · simp only [MyContainer.streamOut, streamOut_foldl]
  · simp only [MyContainer.streamOut, MyContainer.empty, List.foldl_nil]
    decide

end Streaming

/-! ## Containers with no element and with one element -/

section SmallContainers

variable {T : Type}

theorem size_mod_pos : 1 < SIZE_MOD := by
  unfold SIZE_MOD
  omega

/-- C15: for a container without elements, the computed permutation of each order that owns
one is empty, the begin cursor of each of the six orders equals its end cursor, and each
traversal ends at once with nothing visited. -/
theorem empty_container_orders [LinearOrder T] (sort : SortFn) (hs : StdSort sort)
    (fuel self : Nat) (c : MyContainer T) (hc : c.data = []) (hfuel : 0 < fuel) :
    (MyContainer.AscendingIterator.initOrder sort c = []
      ∧ MyContainer.DescendingIterator.initOrder sort c = []
      ∧ MyContainer.SideCrossIterator.initOrder sort fuel c = some []
      ∧ MyContainer.MiddleOutIterator.initOrder fuel c = some [])
    ∧ ((c.begin_order self).eq (c.end_order self) = true
      ∧ (c.begin_reverse_order self).eq (c.end_reverse_order self) = true
      ∧ (c.begin_ascending_order sort self).eq (c.end_ascending_order sort self) = true
      ∧ (c.begin_descending_order sort self).eq (c.end_descending_order sort self) = true
      ∧ (∃ b e, c.begin_side_cross_order sort fuel self = some b
          ∧ c.end_side_cross_order sort fuel self = some e ∧ b.eq e = true)
      ∧ (∃ b e, c.begin_middle_out_order fuel self = some b
          ∧ c.end_middle_out_order fuel self = some e ∧ b.eq e = true))
    ∧ (c.collectOrder fuel self = some (Except.ok [])
      ∧ c.collectReverse fuel self = some (Except.ok [])
      ∧ c.collectAscending sort fuel self = some (Except.ok [])
      ∧ c.collectDescending sort fuel self = some (Except.ok [])
      ∧ c.collectSideCross sort fuel self = some (Except.ok [])
      ∧ c.collectMiddleOut fuel self = some (Except.ok [])) := by
  have hlen : c.data.length = 0 := by rw [hc]; rfl
  have hsz : c.size < SIZE_MOD := by
    unfold MyContainer.size
    rw [hlen]
    exact Nat.lt_trans Nat.zero_lt_one size_mod_pos
  have hfl : c.size < fuel := by
    unfold MyContainer.size
    rw [hlen]
    exact hfuel
  have hasc : MyContainer.AscendingIterator.initOrder sort c = [] := by
    have := ascending_initOrder_perm sort hs c
    rw [hlen] at this
    exact List.perm_nil.1 this
  have hdesc : MyContainer.DescendingIterator.initOrder sort c = [] := by
    have := descending_initOrder_perm sort hs c
    rw [hlen] at this
    exact List.perm_nil.1 this
  have hsc : MyContainer.SideCrossIterator.initOrder sort fuel c = some [] := by
    simp [MyContainer.SideCrossIterator.initOrder, hlen]
  have hmo : MyContainer.MiddleOutIterator.initOrder fuel c = some [] := by
    simp [MyContainer.MiddleOutIterator.initOrder, hlen]
  refine ⟨⟨hasc, hdesc, hsc, hmo⟩, ⟨?_, ?_, ?_, ?_, ?_, ?_⟩, ⟨?_, ?_, ?_, ?_, ?_, ?_⟩⟩
  · simp [MyContainer.OrderIterator.eq, MyContainer.begin_order, MyContainer.end_order, hlen]
  · simp [MyContainer.ReverseIterator.eq, MyContainer.begin_reverse_order,
      MyContainer.end_reverse_order, hlen]
  · simp [MyContainer.AscendingIterator.eq, MyContainer.begin_ascending_order,
      MyContainer.end_ascending_order, MyContainer.AscendingIterator.new, hlen]
  · simp [MyContainer.DescendingIterator.eq, MyContainer.begin_descending_order,
      MyContainer.end_descending_order, MyContainer.DescendingIterator.new, hlen]
  · refine ⟨⟨self, [], 0⟩, ⟨self, [], c.data.length⟩,
      sideCross_new_eq sort fuel self c 0 [] hsc,
      sideCross_new_eq sort fuel self c c.data.length [] hsc, ?_⟩
    simp [MyContainer.SideCrossIterator.eq, hlen]
  · refine ⟨⟨self, [], 0⟩, ⟨self, [], c.data.length⟩,
      middleOut_new_eq fuel self c 0 [] hmo,
      middleOut_new_eq fuel self c c.data.length [] hmo, ?_⟩
    simp [MyContainer.MiddleOutIterator.eq, hlen]
  · rw [collectOrder_eq fuel self c hsz hfl, hc]
  · rw [collectReverse_eq fuel self c hsz hfl, hc]
    rfl
  · rw [collectAscending_eq sort hs fuel self c hsz hfl, hasc]
    rfl
  · rw [collectDescending_eq sort hs fuel self c hsz hfl, hdesc]
    rfl
  · rw [collectSideCross_of_initOrder sort fuel self c [] hsc (by rw [hlen]; rfl)
      (fun j hj => absurd hj (List.not_mem_nil j)) hsz hfl]
    rfl
  · rw [collectMiddleOut_of_initOrder fuel self c [] hmo (by rw [hlen]; rfl)
      (fun j hj => absurd hj (List.not_mem_nil j)) hsz hfl]
    rfl

/-- Witness for C15 on the test "Empty container iterators". -/
theorem empty_container_orders_witness :
    MyContainer.SideCrossIterator.initOrder insertionSortBy 1 (⟨[]⟩ : MyContainer Nat) = some []
    ∧ MyContainer.collectMiddleOut 1 0 (⟨[]⟩ : MyContainer Nat) = some (Except.ok []) :=
  ⟨(empty_container_orders insertionSortBy insertionSortBy_stdSort 1 0
      (⟨[]⟩ : MyContainer Nat) rfl (by decide)).1.2.2.1,
   (empty_container_orders insertionSortBy insertionSortBy_stdSort 1 0
      (⟨[]⟩ : MyContainer Nat) rfl (by decide)).2.2.2.2.2.2.2⟩

/-- C16: for a container holding exactly one element `x`, the permutation of each order that
owns one is `[0]`, the insertion and the reverse cursor read storage index `0` at position
`0`, and each of the six traversals yields exactly `[x]`. -/
theorem single_element_orders [LinearOrder T] (sort : SortFn) (hs : StdSort sort)
    (fuel self : Nat) (c : MyContainer T) (x : T) (hc : c.data = [x]) (hfuel : 1 < fuel) :
    (MyContainer.AscendingIterator.initOrder sort c = [0]
      ∧ MyContainer.DescendingIterator.initOrder sort c = [0]
      ∧ MyContainer.SideCrossIterator.initOrder sort fuel c = some [0]
      ∧ MyContainer.MiddleOutIterator.initOrder fuel c = some [0]
      ∧ MyContainer.OrderIterator.storageIndex (c.begin_order self) = 0
      ∧ MyContainer.ReverseIterator.storageIndex (c.begin_reverse_order self) c = 0)
    ∧ (c.collectOrder fuel self = some (Except.ok [x])
      ∧ c.collectReverse fuel self = some (Except.ok [x])
      ∧ c.collectAscending sort fuel self = some (Except.ok [x])
      ∧ c.collectDescending sort fuel self = some (Except.ok [x])
      ∧ c.collectSideCross sort fuel self = some (Except.ok [x])
      ∧ c.collectMiddleOut fuel self = some (Except.ok [x])) := by
  have hlen : c.data.length = 1 := by rw [hc]; rfl
  have hsz : c.size < SIZE_MOD := by
    unfold MyContainer.size
    rw [hlen]
    exact size_mod_pos
  have hfl : c.size < fuel := by
    unfold MyContainer.size
    rw [hlen]
    exact hfuel
  have hasc : MyContainer.AscendingIterator.initOrder sort c = [0] := by
    have := ascending_initOrder_perm sort hs c
    rw [hlen] at this
    exact List.perm_singleton.1 this
  have hdesc : MyContainer.DescendingIterator.initOrder sort c = [0] := by
    have := descending_initOrder_perm sort hs c
    rw [hlen] at this
    exact List.perm_singleton.1 this
  have hsc : MyContainer.SideCrossIterator.initOrder sort fuel c = some [0] := by
    simp [MyContainer.SideCrossIterator.initOrder, hlen]
  have hmo : MyContainer.MiddleOutIterator.initOrder fuel c = some [0] := by
    simp [MyContainer.MiddleOutIterator.initOrder, hlen]
  have hel : elementsAt c.data [0] = [x] := by
    rw [hc]
    rfl
  have hall : ∀ j ∈ [0], j < c.data.length := by
    intro j hj
    rw [List.mem_singleton] at hj
    rw [hj, hlen]
    exact Nat.zero_lt_one
  refine ⟨⟨hasc, hdesc, hsc, hmo, rfl, ?_⟩, ⟨?_, ?_, ?_, ?_, ?_, ?_⟩⟩
  · have := reverse_storageIndex_of_lt self 0 c hsz (by unfold MyContainer.size; omega)
    unfold MyContainer.size at this
    rw [hlen] at this
    exact this
  · rw [collectOrder_eq fuel self c hsz hfl, hc]
  · rw [collectReverse_eq fuel self c hsz hfl, hc]
    rfl
  · rw [collectAscending_eq sort hs fuel self c hsz hfl, hasc, hel]
  · rw [collectDescending_eq sort hs fuel self c hsz hfl, hdesc, hel]
  · rw [collectSideCross_of_initOrder sort fuel self c [0] hsc (by rw [hlen]; rfl) hall hsz hfl,
      hel]
  · rw [collectMiddleOut_of_initOrder fuel self c [0] hmo (by rw [hlen]; rfl) hall hsz hfl,
      hel]

/-- Witness for C16 on the test "Single-element container". -/
theorem single_element_orders_witness :
    MyContainer.AscendingIterator.initOrder insertionSortBy (⟨[42]⟩ : MyContainer Nat) = [0]
    ∧ MyContainer.collectMiddleOut 2 0 (⟨[42]⟩ : MyContainer Nat) = some (Except.ok [42]) :=
  ⟨(single_element_orders insertionSortBy insertionSortBy_stdSort 2 0
      (⟨[42]⟩ : MyContainer Nat) 42 rfl (by decide)).1.1,
   (single_element_orders insertionSortBy insertionSortBy_stdSort 2 0
      (⟨[42]⟩ : MyContainer Nat) 42 rfl (by decide)).2.2.2.2.2.2⟩

end SmallContainers

/-! ## Cursors kept across a mutation of the container -/

section Mutation

variable {T : Type}

end Mutation

/-! ## Removal followed by another operation -/

section AfterRemoval

variable {T : Type}

theorem mem_of_removeElement_ok [DecidableEq T] (c : MyContainer T) (v : T)
    (h : (c.removeElement v).1 = Except.ok ()) : v ∈ c.data := by
  by_cases hv : v ∈ c.data
  · exact hv
  · have hnot : ∀ y ∈ c.data, ¬ y = v := fun y hy hyv => hv (hyv ▸ hy)
    rw [removeElement_of_not_mem c v hnot] at h
    cases h

/-- C23: right after a `removeElement(v)` that returned normally no stored element equals
`v`; a second `removeElement(v)` throws the "Element not found" `runtime_error` and leaves
the container as the first call left it. -/
theorem removeElement_twice [DecidableEq T] (c : MyContainer T) (v : T)
    (h : (c.removeElement v).1 = Except.ok ()) :
    (∀ x ∈ (c.removeElement v).2.data, ¬ x = v)
    ∧ ((c.removeElement v).2.removeElement v).1
        = Except.error (Exn.runtime_error "Element not found")
    ∧ ((c.removeElement v).2.removeElement v).2 = (c.removeElement v).2 := by
  have hv := mem_of_removeElement_ok c v h
  have hnot : ∀ x ∈ (c.removeElement v).2.data, ¬ x = v := by
    rw [removeElement_of_mem c v hv]
    intro x hx
    simpa using (List.mem_filter.1 hx).2
  rw [removeElement_of_not_mem (c.removeElement v).2 v hnot]
  exact ⟨hnot, rfl, rfl⟩

/-- Witness for C23 on the container of the test "removeElement existing and exception":
`[1, 2, 1]`, value `1`. -/
theorem removeElement_twice_witness :
    (∀ x ∈ (MyContainer.removeElement (⟨[1, 2, 1]⟩ : MyContainer Nat) 1).2.data, ¬ x = 1)
    ∧ ((MyContainer.removeElement (⟨[1, 2, 1]⟩ : MyContainer Nat) 1).2.removeElement 1).1
        = Except.error (Exn.runtime_error "Element not found")
    ∧ ((MyContainer.removeElement (⟨[1, 2, 1]⟩ : MyContainer Nat) 1).2.removeElement 1).2
        = (MyContainer.removeElement (⟨[1, 2, 1]⟩ : MyContainer Nat) 1).2 :=
  removeElement_twice (⟨[1, 2, 1]⟩ : MyContainer Nat) 1 (by decide)

end AfterRemoval

/-! ## The side-cross loop round by round -/

section SideCrossRounds

variable {T : Type}

end SideCrossRounds

/-! ## The middle-out loop round by round -/

section MiddleOutRounds

variable {T : Type}

/-- A round of the middle-out loop that neither ends the loop nor overflows. -/
theorem middleOut_loop_step (n f : Nat) (l r : Int) (acc : List Nat)
    (hlt : acc.length < n)
    (hfull : ¬ (if l ≥ 0 then acc ++ [toSizeT l] else acc).length = n)
    (h1 : intArith (l - 1) = some (l - 1)) (h2 : intArith (r + 1) = some (r + 1)) :
    MyContainer.MiddleOutIterator.loop n (f + 1) l r acc
      = MyContainer.MiddleOutIterator.loop n f (l - 1) (r + 1)
          (if r < toInt n then (if l ≥ 0 then acc ++ [toSizeT l] else acc) ++ [toSizeT r]
            else (if l ≥ 0 then acc ++ [toSizeT l] else acc)) := by
  simp only [MyContainer.MiddleOutIterator.loop, hlt, if_true, hfull, if_false, h1, h2]

theorem middleOut_stateAfter_step (n k : Nat) (l r : Int) (acc : List Nat)
    (hlt : acc.length < n)
    (hfull : ¬ (if l ≥ 0 then acc ++ [toSizeT l] else acc).length = n)
    (h1 : intArith (l - 1) = some (l - 1)) (h2 : intArith (r + 1) = some (r + 1)) :
    MyContainer.MiddleOutIterator.stateAfter n (k + 1) (l, r, acc)
      = MyContainer.MiddleOutIterator.stateAfter n k (l - 1, r + 1,
          (if r < toInt n then (if l ≥ 0 then acc ++ [toSizeT l] else acc) ++ [toSizeT r]
            else (if l ≥ 0 then acc ++ [toSizeT l] else acc))) := by
  simp only [MyContainer.MiddleOutIterator.stateAfter, hlt, if_true, hfull, if_false, h1, h2]

/-- A state reached after one more round: the round ran to its end. -/
theorem middleOut_stateAfter_succ (n k : Nat) (l r : Int) (acc : List Nat)
    (s : Int × Int × List Nat)
    (h : MyContainer.MiddleOutIterator.stateAfter n (k + 1) (l, r, acc) = some s) :
    acc.length < n ∧ ¬ (if l ≥ 0 then acc ++ [toSizeT l] else acc).length = n
      ∧ intArith (l - 1) = some (l - 1) ∧ intArith (r + 1) = some (r + 1) := by
  unfold MyContainer.MiddleOutIterator.stateAfter at h
  by_cases hlt : acc.length < n
  · rw [if_pos hlt] at h
    by_cases hfull : (if l ≥ 0 then acc ++ [toSizeT l] else acc).length = n
    · simp only [hfull, if_true] at h
      cases h
    · simp only [hfull, if_false] at h
      split at h
      · rename_i l1 r1 e1 e2
        obtain ⟨d1, _, _⟩ := intArith_eq_some _ _ e1
        obtain ⟨d2, _, _⟩ := intArith_eq_some _ _ e2
        rw [d1] at e1
        rw [d2] at e2
        exact ⟨hlt, hfull, e1, e2⟩
      · cases h
  · rw [if_neg hlt] at h
    cases h

/-- Running `k` rounds to their end and then the loop with budget `f` is running the loop
with budget `k + f`. -/
theorem middleOut_loop_of_stateAfter (n : Nat) :
    ∀ (k f : Nat) (l r : Int) (acc : List Nat) (s : Int × Int × List Nat),
      MyContainer.MiddleOutIterator.stateAfter n k (l, r, acc) = some s →
      MyContainer.MiddleOutIterator.loop n (k + f) l r acc
        = MyContainer.MiddleOutIterator.loop n f s.1 s.2.1 s.2.2 := by
  intro k
  induction k with
  | zero =>
    intro f l r acc s h
    simp only [MyContainer.MiddleOutIterator.stateAfter, Option.some.injEq] at h
    subst h
    simp
  | succ k ih =>
    intro f l r acc s h
    obtain ⟨hlt, hfull, h1, h2⟩ := middleOut_stateAfter_succ n k l r acc s h
    rw [middleOut_stateAfter_step n k l r acc hlt hfull h1 h2] at h
    rw [Nat.succ_add, middleOut_loop_step n (k + f) l r acc hlt hfull h1 h2]
    exact ih f _ _ _ s h

/-- Below `2^31` elements, from the state at distance `j` from the centre with `2j - 1`
indices emitted, `k` rounds run to their end as long as `2 (j + k) ≤ n + 1`; the state
reached is at distance `j + k` with `2 (j + k) - 1` indices. -/
theorem middleOut_stateAfter_spec (n : Nat) (hn : n < 2 ^ 31) :
    ∀ (k j : Nat) (l r : Int) (acc : List Nat),
      l = ((n / 2 : Nat) : Int) - (j : Int) → r = ((n / 2 : Nat) : Int) + (j : Int) →
      1 ≤ j → acc.length + 1 = 2 * j → 2 * (j + k) ≤ n + 1 →
      ∃ order, MyContainer.MiddleOutIterator.stateAfter n k (l, r, acc)
          = some (l - (k : Int), r + (k : Int), order)
        ∧ order.length + 1 = 2 * (j + k) := by
  intro k
  induction k with
  | zero =>
    intro j l r acc _ _ _ hacc _
    exact ⟨acc, by simp [MyContainer.MiddleOutIterator.stateAfter], by omega⟩
  | succ k ih =>
    intro j l r acc hl hr hj hacc hk
    have hlt : acc.length < n := by omega
    have hl0 : l ≥ 0 := by omega
    have hfull : ¬ (if l ≥ 0 then acc ++ [toSizeT l] else acc).length = n := by
      simp only [hl0, if_true, List.length_append, List.length_singleton]
      omega
    have hrn : r < toInt n := by
      rw [toInt_of_lt n hn]
      omega
    have h1 : intArith (l - 1) = some (l - 1) := intArith_of_mem _ (by omega) (by omega)
    have h2 : intArith (r + 1) = some (r + 1) := intArith_of_mem _ (by omega) (by omega)
    obtain ⟨order, horder, hlen⟩ := ih (j + 1) (l - 1) (r + 1)
      (acc ++ [toSizeT l] ++ [toSizeT r])
      (by push_cast; omega) (by push_cast; omega) (by omega)
      (by simp only [List.length_append, List.length_singleton]; omega) (by omega)
    refine ⟨order, ?_, by omega⟩
    rw [middleOut_stateAfter_step n k l r acc hlt hfull h1 h2]
    simp only [hl0, if_true, hrn]
    rw [horder]
    congr 2
    · push_cast; omega
    · congr 1
      push_cast; omega

theorem middleOut_loop_exit (n f : Nat) (l r : Int) (acc : List Nat)
    (h : ¬ acc.length < n) :
    MyContainer.MiddleOutIterator.loop n (f + 1) l r acc = some acc := by
  simp only [MyContainer.MiddleOutIterator.loop, h, if_false]

theorem middleOut_loop_break (n f : Nat) (l r : Int) (acc : List Nat)
    (hlt : acc.length < n) (hl0 : l ≥ 0) (hfull : (acc ++ [toSizeT l]).length = n) :
    MyContainer.MiddleOutIterator.loop n (f + 1) l r acc = some (acc ++ [toSizeT l]) := by
  simp only [MyContainer.MiddleOutIterator.loop, hlt, if_true, hl0, hfull]

theorem middleOut_initOrder_eq_loop (fuel : Nat) (c : MyContainer T)
    (h2 : 2 ≤ c.data.length) (hn : c.data.length < 2 ^ 31) :
    MyContainer.MiddleOutIterator.initOrder fuel c
      = MyContainer.MiddleOutIterator.loop c.data.length fuel
          (toInt (c.data.length / 2) - 1) (toInt (c.data.length / 2) + 1)
          [toSizeT (toInt (c.data.length / 2))] := by
  have hmid : toInt (c.data.length / 2) = ((c.data.length / 2 : Nat) : Int) :=
    toInt_of_lt _ (by omega)
  have hl1 : intArith (toInt (c.data.length / 2) - 1) = some (toInt (c.data.length / 2) - 1) :=
    intArith_of_mem _ (by omega) (by omega)
  have hr1 : intArith (toInt (c.data.length / 2) + 1) = some (toInt (c.data.length / 2) + 1) :=
    intArith_of_mem _ (by omega) (by omega)
  unfold MyContainer.MiddleOutIterator.initOrder
  rw [if_neg (by omega)]
  simp only [hl1, hr1]

/-- C25: for a container of `2 ≤ n < 2^31` elements the conversions `int(n / 2)` and
`int(n)` keep their values, and the middle-out loop behaves as follows. Before round
`k + 1` (for `k ≤ (n-1)/2`) the state is `l = mid - 1 - k`, `r = mid + 1 + k` with `2k + 1`
indices emitted; when the loop condition holds there, the left guard `l >= 0` holds, and
when the round does not `break` the right guard `r < int(n)` holds: no index is skipped and
every round appends at least one index. The loop returns exactly `n` indices: a budget of
`(n-1)/2` condition tests is not enough, any larger one returns the permutation. -/
theorem middleOut_loop_rounds (c : MyContainer T) (h2 : 2 ≤ c.size) (hn : c.size < 2 ^ 31) :
    (toInt (c.size / 2) = ((c.size / 2 : Nat) : Int) ∧ toInt c.size = (c.size : Int))
    ∧ (∀ k : Nat, k ≤ (c.size - 1) / 2 →
        ∃ order, MyContainer.MiddleOutIterator.stateAfter c.size k
            (toInt (c.size / 2) - 1, toInt (c.size / 2) + 1, [toSizeT (toInt (c.size / 2))])
          = some (toInt (c.size / 2) - 1 - (k : Int), toInt (c.size / 2) + 1 + (k : Int), order)
          ∧ order.length = 2 * k + 1
          ∧ (order.length < c.size →
              0 ≤ toInt (c.size / 2) - 1 - (k : Int)
              ∧ ((order ++ [toSizeT (toInt (c.size / 2) - 1 - (k : Int))]).length ≠ c.size →
                  toInt (c.size / 2) + 1 + (k : Int) < toInt c.size)))
    ∧ ∃ p : List Nat, p.length = c.size
      ∧ ∀ fuel,
        (fuel ≤ (c.size - 1) / 2 → MyContainer.MiddleOutIterator.initOrder fuel c = none)
        ∧ ((c.size - 1) / 2 < fuel →
            MyContainer.MiddleOutIterator.initOrder fuel c = some p) := by
  unfold MyContainer.size at *
  have hmid : toInt (c.data.length / 2) = ((c.data.length / 2 : Nat) : Int) :=
    toInt_of_lt _ (by omega)
  have htn : toInt c.data.length = (c.data.length : Int) := toInt_of_lt _ hn
  have hinit := fun fuel => middleOut_initOrder_eq_loop fuel c h2 hn
  have hspec := middleOut_stateAfter_spec c.data.length hn
  generalize toInt (c.data.length / 2) = mid at hmid hinit ⊢
  generalize toInt c.data.length = tn at htn ⊢
  have hstate : ∀ k : Nat, k ≤ (c.data.length - 1) / 2 →
      ∃ order, MyContainer.MiddleOutIterator.stateAfter c.data.length k
          (mid - 1, mid + 1, [toSizeT mid])
        = some (mid - 1 - (k : Int), mid + 1 + (k : Int), order)
        ∧ order.length = 2 * k + 1 := by
    intro k hk
    obtain ⟨order, horder, hlen⟩ := hspec k 1 (mid - 1) (mid + 1) [toSizeT mid]
      (by rw [hmid]; push_cast; omega) (by rw [hmid]; push_cast; omega) (Nat.le_refl 1)
      (by simp) (by omega)
    exact ⟨order, horder, by omega⟩
  refine ⟨⟨hmid, htn⟩, ?_, ?_⟩
  · intro k hk
    obtain ⟨order, horder, hlen⟩ := hstate k hk
    refine ⟨order, horder, hlen, fun hlt => ⟨by omega, fun hne => ?_⟩⟩
    simp only [List.length_append, List.length_singleton] at hne
    omega
  · obtain ⟨om, hom, hlenm⟩ := hstate ((c.data.length - 1) / 2) (Nat.le_refl _)
    have hexit : ∃ p : List Nat, p.length = c.data.length
        ∧ ∀ f, MyContainer.MiddleOutIterator.loop c.data.length (f + 1)
            (mid - 1 - (((c.data.length - 1) / 2 : Nat) : Int))
            (mid + 1 + (((c.data.length - 1) / 2 : Nat) : Int)) om = some p := by
      by_cases hodd : om.length = c.data.length
      · refine ⟨om, hodd, fun f => ?_⟩
        exact middleOut_loop_exit _ f _ _ om (by omega)
      · have hlt : om.length < c.data.length := by omega
        have hl0 : mid - 1 - (((c.data.length - 1) / 2 : Nat) : Int) ≥ 0 := by omega
        have hfull : (om ++ [toSizeT (mid - 1 - (((c.data.length - 1) / 2 : Nat) : Int))]).length
            = c.data.length := by
          simp only [List.length_append, List.length_singleton]
          omega
        exact ⟨_, hfull, fun f => middleOut_loop_break _ f _ _ om hlt hl0 hfull⟩
    obtain ⟨p, hp, hloop⟩ := hexit
    refine ⟨p, hp, fun fuel => ⟨fun hf => ?_, fun hf => ?_⟩⟩
    · obtain ⟨o2, ho2, _⟩ := hstate fuel hf
      have := middleOut_loop_of_stateAfter c.data.length fuel 0 _ _ _ _ ho2
      rw [hinit, ← Nat.add_zero fuel, this]
      rfl
    · have := middleOut_loop_of_stateAfter c.data.length ((c.data.length - 1) / 2)
        (fuel - (c.data.length - 1) / 2) _ _ _ _ hom
      obtain ⟨f, hf'⟩ : ∃ f, fuel - (c.data.length - 1) / 2 = f + 1 :=
        ⟨fuel - (c.data.length - 1) / 2 - 1, by omega⟩
      rw [hinit,
        show fuel = (c.data.length - 1) / 2 + (fuel - (c.data.length - 1) / 2) by omega,
        this, hf']
      exact hloop f

/-- Witness for C25 on the container of the test "6-element container ordering": a budget
of two condition tests is not enough, three return the permutation. -/
theorem middleOut_loop_rounds_witness :
    (∃ p : List Nat, p.length = 6
      ∧ ∀ fuel,
        (fuel ≤ (6 - 1) / 2 → MyContainer.MiddleOutIterator.initOrder fuel
            (⟨[10, 20, 30, 40, 50, 60]⟩ : MyContainer Nat) = none)
        ∧ ((6 - 1) / 2 < fuel → MyContainer.MiddleOutIterator.initOrder fuel
            (⟨[10, 20, 30, 40, 50, 60]⟩ : MyContainer Nat) = some p))
    ∧ MyContainer.MiddleOutIterator.initOrder 3
        (⟨[10, 20, 30, 40, 50, 60]⟩ : MyContainer Nat) = some [3, 2, 4, 1, 5, 0] :=
  ⟨(middleOut_loop_rounds (⟨[10, 20, 30, 40, 50, 60]⟩ : MyContainer Nat)
    (by decide) (by decide)).2.2, by decide⟩

end MiddleOutRounds

/-! ## Advancing a cursor -/

section Advance

variable {T : Type}

theorem orderIterator_iterate_inc (self k : Nat) :
    Nat.iterate MyContainer.OrderIterator.inc k ⟨self, 0⟩ = ⟨self, k % SIZE_MOD⟩ := by
  induction k with
  | zero => rfl
  | succ k ih =>
    rw [Function.iterate_succ_apply', ih]
    simp only [MyContainer.OrderIterator.inc, Nat.mod_add_mod]

theorem reverseIterator_iterate_inc (self k : Nat) :
    Nat.iterate MyContainer.ReverseIterator.inc k ⟨self, 0⟩ = ⟨self, k % SIZE_MOD⟩ := by
  induction k with
  | zero => rfl
  | succ k ih =>
    rw [Function.iterate_succ_apply', ih]
    simp only [MyContainer.ReverseIterator.inc, Nat.mod_add_mod]

theorem ascendingIterator_iterate_inc (self k : Nat) (order : List Nat) :
    Nat.iterate MyContainer.AscendingIterator.inc k ⟨self, order, 0⟩
      = ⟨self, order, k % SIZE_MOD⟩ := by
  induction k with
  | zero => rfl
  | succ k ih =>
    rw [Function.iterate_succ_apply', ih]
    simp only [MyContainer.AscendingIterator.inc, Nat.mod_add_mod]

theorem descendingIterator_iterate_inc (self k : Nat) (order : List Nat) :
    Nat.iterate MyContainer.DescendingIterator.inc k ⟨self, order, 0⟩
      = ⟨self, order, k % SIZE_MOD⟩ := by
  induction k with
  | zero => rfl
  | succ k ih =>
    rw [Function.iterate_succ_apply', ih]
    simp only [MyContainer.DescendingIterator.inc, Nat.mod_add_mod]

theorem sideCrossIterator_iterate_inc (self k : Nat) (order : List Nat) :
    Nat.iterate MyContainer.SideCrossIterator.inc k ⟨self, order, 0⟩
      = ⟨self, order, k % SIZE_MOD⟩ := by
  induction k with
  | zero => rfl
  | succ k ih =>
    rw [Function.iterate_succ_apply', ih]
    simp only [MyContainer.SideCrossIterator.inc, Nat.mod_add_mod]

theorem middleOutIterator_iterate_inc (self k : Nat) (order : List Nat) :
    Nat.iterate MyContainer.MiddleOutIterator.inc k ⟨self, order, 0⟩
      = ⟨self, order, k % SIZE_MOD⟩ := by
  induction k with
  | zero => rfl
  | succ k ih =>
    rw [Function.iterate_succ_apply', ih]
    simp only [MyContainer.MiddleOutIterator.inc, Nat.mod_add_mod]

theorem mod_eq_iff_of_lt (k n : Nat) (hk : k < SIZE_MOD) : k % SIZE_MOD = n ↔ k = n := by
  rw [Nat.mod_eq_of_lt hk]

theorem orderIterator_advance_eq_end (self k n : Nat) :
    (Nat.iterate MyContainer.OrderIterator.inc k ⟨self, 0⟩).eq ⟨self, n⟩ = true
      ↔ k % SIZE_MOD = n := by
  rw [orderIterator_iterate_inc, orderIterator_eq_iff]
  simp

theorem reverseIterator_advance_eq_end (self k n : Nat) :
    (Nat.iterate MyContainer.ReverseIterator.inc k ⟨self, 0⟩).eq ⟨self, n⟩ = true
      ↔ k % SIZE_MOD = n := by
  rw [reverseIterator_iterate_inc, reverseIterator_eq_iff]
  simp

theorem ascendingIterator_advance_eq_end (self k n : Nat) (order1 order2 : List Nat) :
    (Nat.iterate MyContainer.AscendingIterator.inc k ⟨self, order1, 0⟩).eq ⟨self, order2, n⟩
      = true ↔ k % SIZE_MOD = n := by
  rw [ascendingIterator_iterate_inc, ascendingIterator_eq_iff]
  simp

theorem descendingIterator_advance_eq_end (self k n : Nat) (order1 order2 : List Nat) :
    (Nat.iterate MyContainer.DescendingIterator.inc k ⟨self, order1, 0⟩).eq ⟨self, order2, n⟩
      = true ↔ k % SIZE_MOD = n := by
  rw [descendingIterator_iterate_inc, descendingIterator_eq_iff]
  simp

theorem sideCrossIterator_advance_eq_end (self k n : Nat) (order1 order2 : List Nat) :
    (Nat.iterate MyContainer.SideCrossIterator.inc k ⟨self, order1, 0⟩).eq ⟨self, order2, n⟩
      = true ↔ k % SIZE_MOD = n := by
  rw [sideCrossIterator_iterate_inc, sideCrossIterator_eq_iff]
  simp

theorem middleOutIterator_advance_eq_end (self k n : Nat) (order1 order2 : List Nat) :
    (Nat.iterate MyContainer.MiddleOutIterator.inc k ⟨self, order1, 0⟩).eq ⟨self, order2, n⟩
      = true ↔ k % SIZE_MOD = n := by
  rw [middleOutIterator_iterate_inc, middleOutIterator_eq_iff]
  simp

/-- The position is a `std::size_t` and `++index` wraps around: on the container `[42]` the
begin cursor of the insertion order advanced `2^64 + 1` times has position `1` again and
compares equal to the end cursor. Statements about `k` advances are therefore made for
`k` modulo `2^64`. -/
theorem advance_wraps_at_two_pow_64 :
    (Nat.iterate MyContainer.OrderIterator.inc (2 ^ 64 + 1)
        (MyContainer.begin_order 0 (⟨[42]⟩ : MyContainer Nat))).eq
      (MyContainer.end_order 0 (⟨[42]⟩ : MyContainer Nat)) = true
    ∧ (2 ^ 64 + 1 : Nat) ≠ MyContainer.size (⟨[42]⟩ : MyContainer Nat) := by
  refine ⟨?_, by decide⟩
  unfold MyContainer.begin_order MyContainer.end_order
  rw [orderIterator_advance_eq_end]
  decide

/-- In a container of `n` elements (`n < 2^64`) the begin cursor advanced `k` times equals
the end cursor if and only if `k % 2^64 = n`, which for `k < 2^64` is `k = n`, and the loop
"advance until equals end" returns after dereferencing and collecting exactly `n` elements:
for the insertion, reverse, ascending, descending and side-cross orders at every size, and
for the middle-out order below `2^31` elements, where the factory members return cursors. -/
theorem advance_eq_end_below_int_max [LinearOrder T] (sort : SortFn) (hs : StdSort sort)
    (fuel self : Nat) (c : MyContainer T) (k : Nat)
    (hsize : c.size < SIZE_MOD) (hfuel : c.size < fuel) :
    (((Nat.iterate MyContainer.OrderIterator.inc k (c.begin_order self)).eq
          (c.end_order self) = true ↔ k % SIZE_MOD = c.size)
      ∧ ((Nat.iterate MyContainer.ReverseIterator.inc k (c.begin_reverse_order self)).eq
          (c.end_reverse_order self) = true ↔ k % SIZE_MOD = c.size)
      ∧ ((Nat.iterate MyContainer.AscendingIterator.inc k
            (c.begin_ascending_order sort self)).eq
          (c.end_ascending_order sort self) = true ↔ k % SIZE_MOD = c.size)
      ∧ ((Nat.iterate MyContainer.DescendingIterator.inc k
            (c.begin_descending_order sort self)).eq
          (c.end_descending_order sort self) = true ↔ k % SIZE_MOD = c.size)
      ∧ (∃ b e, c.begin_side_cross_order sort fuel self = some b
          ∧ c.end_side_cross_order sort fuel self = some e
          ∧ ((Nat.iterate MyContainer.SideCrossIterator.inc k b).eq e = true
              ↔ k % SIZE_MOD = c.size))
      ∧ (c.size < 2 ^ 31 → ∃ b e, c.begin_middle_out_order fuel self = some b
          ∧ c.end_middle_out_order fuel self = some e
          ∧ ((Nat.iterate MyContainer.MiddleOutIterator.inc k b).eq e = true
              ↔ k % SIZE_MOD = c.size)))
    ∧ (k < SIZE_MOD → (k % SIZE_MOD = c.size ↔ k = c.size))
    ∧ ((∃ out, c.collectOrder fuel self = some (Except.ok out) ∧ out.length = c.size)
      ∧ (∃ out, c.collectReverse fuel self = some (Except.ok out) ∧ out.length = c.size)
      ∧ (∃ out, c.collectAscending sort fuel self = some (Except.ok out)
          ∧ out.length = c.size)
      ∧ (∃ out, c.collectDescending sort fuel self = some (Except.ok out)
          ∧ out.length = c.size)
      ∧ (∃ out, c.collectSideCross sort fuel self = some (Except.ok out)
          ∧ out.length = c.size)
      ∧ (c.size < 2 ^ 31 →
          ∃ out, c.collectMiddleOut fuel self = some (Except.ok out)
            ∧ out.length = c.size)) := by
  have hasc := ascending_initOrder_perm sort hs c
  have hdesc := descending_initOrder_perm sort hs c
  obtain ⟨so, hsinit, hslen, hsev, hsod⟩ := sideCross_initOrder_spec sort hs fuel c hsize hfuel
  have hsall := sideCross_initOrder_lt sort hs c so hslen hsev hsod
  refine ⟨⟨?_, ?_, ?_, ?_, ?_, ?_⟩, mod_eq_iff_of_lt k c.size, ⟨?_, ?_, ?_, ?_, ?_, ?_⟩⟩
  · exact orderIterator_advance_eq_end self k c.data.length
  · exact reverseIterator_advance_eq_end self k c.data.length
  · exact ascendingIterator_advance_eq_end self k c.data.length _ _
  · exact descendingIterator_advance_eq_end self k c.data.length _ _
  · exact ⟨⟨self, so, 0⟩, ⟨self, so, c.data.length⟩,
      sideCross_new_eq sort fuel self c 0 so hsinit,
      sideCross_new_eq sort fuel self c c.data.length so hsinit,
      sideCrossIterator_advance_eq_end self k c.data.length so so⟩
  · intro hn
    obtain ⟨order, hinit, _⟩ := middleOut_initOrder_perm fuel c hn hfuel
    exact ⟨⟨self, order, 0⟩, ⟨self, order, c.data.length⟩,
      middleOut_new_eq fuel self c 0 order hinit,
      middleOut_new_eq fuel self c c.data.length order hinit,
      middleOutIterator_advance_eq_end self k c.data.length order order⟩
  · exact ⟨_, collectOrder_eq fuel self c hsize hfuel, rfl⟩
  · exact ⟨_, collectReverse_eq fuel self c hsize hfuel, List.length_reverse _⟩
  · refine ⟨_, collectAscending_eq sort hs fuel self c hsize hfuel, ?_⟩
    rw [elementsAt_length _ _ (mem_lt_of_perm_range hasc), length_of_perm_range hasc]
    rfl
  · refine ⟨_, collectDescending_eq sort hs fuel self c hsize hfuel, ?_⟩
    rw [elementsAt_length _ _ (mem_lt_of_perm_range hdesc), length_of_perm_range hdesc]
    rfl
  · refine ⟨_, collectSideCross_of_initOrder sort fuel self c so hsinit hslen hsall hsize
      hfuel, ?_⟩
    rw [elementsAt_length _ _ hsall, hslen]
    rfl
  · intro hn
    obtain ⟨order, hinit, _⟩ := middleOut_initOrder_perm fuel c hn hfuel
    obtain ⟨hlen, hall⟩ := middleOut_initOrder_valid fuel c order hinit
    refine ⟨_, collectMiddleOut_of_initOrder fuel self c order hinit hlen hall hsize
      hfuel, ?_⟩
    rw [elementsAt_length _ _ hall, hlen]
    rfl

/-- Instance of `advance_eq_end_below_int_max` on the container `[7, 15, 6, 1, 2]` of the
test suite: three advances do not reach the end cursor, five do, and the middle-out loop
collects five elements. -/
theorem advance_eq_end_below_int_max_witness :
    ((Nat.iterate MyContainer.OrderIterator.inc 5
          (MyContainer.begin_order 0 (⟨[7, 15, 6, 1, 2]⟩ : MyContainer Nat))).eq
        (MyContainer.end_order 0 (⟨[7, 15, 6, 1, 2]⟩ : MyContainer Nat)) = true
      ↔ 5 % SIZE_MOD = MyContainer.size (⟨[7, 15, 6, 1, 2]⟩ : MyContainer Nat))
    ∧ (5 % SIZE_MOD = MyContainer.size (⟨[7, 15, 6, 1, 2]⟩ : MyContainer Nat)
      ↔ 5 = MyContainer.size (⟨[7, 15, 6, 1, 2]⟩ : MyContainer Nat))
    ∧ (∃ out, MyContainer.collectMiddleOut 6 0 (⟨[7, 15, 6, 1, 2]⟩ : MyContainer Nat)
        = some (Except.ok out)
      ∧ out.length = MyContainer.size (⟨[7, 15, 6, 1, 2]⟩ : MyContainer Nat))
    ∧ (Nat.iterate MyContainer.OrderIterator.inc 3
          (MyContainer.begin_order 0 (⟨[7, 15, 6, 1, 2]⟩ : MyContainer Nat))).eq
        (MyContainer.end_order 0 (⟨[7, 15, 6, 1, 2]⟩ : MyContainer Nat)) = false
    ∧ MyContainer.collectMiddleOut 6 0 (⟨[7, 15, 6, 1, 2]⟩ : MyContainer Nat)
        = some (Except.ok [6, 15, 1, 7, 2]) :=
  ⟨(advance_eq_end_below_int_max insertionSortBy insertionSortBy_stdSort 6 0
      (⟨[7, 15, 6, 1, 2]⟩ : MyContainer Nat) 5 (by decide) (by decide)).1.1,
   (advance_eq_end_below_int_max insertionSortBy insertionSortBy_stdSort 6 0
      (⟨[7, 15, 6, 1, 2]⟩ : MyContainer Nat) 5 (by decide) (by decide)).2.1 (by decide),
   (advance_eq_end_below_int_max insertionSortBy insertionSortBy_stdSort 6 0
      (⟨[7, 15, 6, 1, 2]⟩ : MyContainer Nat) 5 (by decide) (by decide)).2.2.2.2.2.2.2
      (by decide),
   by decide, by decide⟩

/-- C21 at a failing input: on a container of `2^31` elements neither
`c.begin_middle_out_order()` nor `c.end_middle_out_order()` returns a cursor, whatever the
budget (the `int` defect of C10), so the loop "advance until equals end" over the middle-out
order has no defined result: it does not collect `n` elements. -/
theorem middleOut_traversal_fails_at_two_pow_31 (fuel self : Nat) :
    MyContainer.begin_middle_out_order fuel self
        (⟨List.replicate (2 ^ 31) 0⟩ : MyContainer Nat) = none
    ∧ MyContainer.end_middle_out_order fuel self
        (⟨List.replicate (2 ^ 31) 0⟩ : MyContainer Nat) = none
    ∧ MyContainer.collectMiddleOut fuel self
        (⟨List.replicate (2 ^ 31) 0⟩ : MyContainer Nat) = none
    ∧ ¬ ∃ out : List Nat, MyContainer.collectMiddleOut fuel self
          (⟨List.replicate (2 ^ 31) 0⟩ : MyContainer Nat) = some (Except.ok out)
        ∧ out.length = MyContainer.size (⟨List.replicate (2 ^ 31) 0⟩ : MyContainer Nat) := by
  have hcol := collectMiddleOut_none_of_large fuel self
    (⟨List.replicate (2 ^ 31) 0⟩ : MyContainer Nat) (List.length_replicate _ _).ge
  refine ⟨middleOut_begin_none_of_large fuel self _ (List.length_replicate _ _).ge,
    middleOut_end_none_of_large fuel self _ (List.length_replicate _ _).ge, hcol, ?_⟩
  rintro ⟨out, hout, _⟩
  rw [hcol] at hout
  cases hout

end Advance

end ariel
